import Mathlib

/-!
# A character-level LSTM: forward pass, truncated BPTT, clipping and update

Shallow embedding of `src/lstm/lstm.cc`.

* Scalars (`double` in the source) are taken in a linearly ordered field `α`;
  the two transcendental functions the code calls, `exp` and `tanh`, are
  explicit parameters, so every definition can be run over `ℚ` and every
  theorem can be read over `ℝ` with `Real.exp` and `Real.tanh`.
* `Eigen::ArrayXd` of size `n` is `Fin n → α`, `Eigen::MatrixXd` of shape
  `r × c` is `Matrix (Fin r) (Fin c) α`.  The hidden size `H`
  (`m_hidden_size`) and the vocabulary size `V` (`m_input_size`, which
  `fillVocabList` sets equal to `m_output_size`) index the type of the object.
* `std::unordered_map` is an association list searched from the front;
  `operator[]` returns the stored value or inserts a value-initialised one.
* `std::vector<...>` is `List`; an out-of-range `operator[]` or coefficient
  access has no defined result and is `none`.
* `int` values are integers.  The one `int` expression that can leave the
  range of the type, `timesteps - lookback` with a negative `lookback`, is
  wrapped around as 32-bit two's complement arithmetic does (`wrapInt`); the
  size of `input_cache` is taken to fit in an `int`.
-/

open BigOperators

/-- The `LSTM` object: hyper-parameters, vocabulary maps, the fourteen
parameter tensors and the working vectors of the forward pass. -/
structure LSTM (α : Type) (H V : Nat) where
  m_rate : α
  m_vocabs : List (Char × Nat)
  m_vocabs_indices : List (Nat × Char)
  m_Wa : Matrix (Fin H) (Fin V) α
  m_Wi : Matrix (Fin H) (Fin V) α
  m_Wf : Matrix (Fin H) (Fin V) α
  m_Wo : Matrix (Fin H) (Fin V) α
  m_Ra : Matrix (Fin H) (Fin H) α
  m_Ri : Matrix (Fin H) (Fin H) α
  m_Rf : Matrix (Fin H) (Fin H) α
  m_Ro : Matrix (Fin H) (Fin H) α
  m_ba : Fin H → α
  m_bi : Fin H → α
  m_bf : Fin H → α
  m_bo : Fin H → α
  m_Wy : Matrix (Fin V) (Fin H) α
  m_by : Fin V → α
  m_state : Fin H → α
  m_h_t : Fin H → α
  m_a_t : Fin H → α
  m_i_t : Fin H → α
  m_f_t : Fin H → α
  m_o_t : Fin H → α
  m_y_t : Fin V → α
  m_output : Fin V → α

namespace LSTM

variable {α : Type} [LinearOrderedField α] {H V : Nat}

/-! ## Gate math -/

/-- `LSTM::sigmoid`: `1 / (1 + std::exp(-num))`. -/
def sigmoid (exp : α → α) (num : α) : α :=
  1 / (1 + exp (-num))

/-- `LSTM::softmax`: exponentiate every logit, divide by the sum. -/
def softmax {n : Nat} (exp : α → α) (input : Fin n → α) : Fin n → α :=
  let probabilities : Fin n → α := fun i => exp (input i)
  let sum : α := ∑ i, probabilities i
  fun i => probabilities i / sum

/-- The largest entry of a non-empty array. -/
def arrayMax {n : Nat} (input : Fin n → α) (h : 0 < n) : α :=
  (List.ofFn input).foldl max (input ⟨0, h⟩)

/-- The numerically stabilised variant of `softmax` that the design notes of
the specification describe: the largest logit is subtracted from every logit
before exponentiating.  It is not in the source; it is there to be compared
with `softmax`. -/
def softmaxStabilised {n : Nat} (exp : α → α) (input : Fin n → α) : Fin n → α :=
  if h : 0 < n then
    softmax exp (fun i => input i - arrayMax input h)
  else
    softmax exp input

/-! ## Forward engine -/

/-- `LSTM::reset`: zero the recurrent state, the logits and the output. -/
def reset (L : LSTM α H V) : LSTM α H V :=
  { L with m_state := 0, m_h_t := 0, m_y_t := 0, m_output := 0 }

/-- `LSTM::feedforward`: one step of the gated recurrence followed by the
linear-softmax classifier. -/
def feedforward (exp tanh : α → α) (L : LSTM α H V) (input : Fin V → α) :
    LSTM α H V :=
  -- Input activation
  let m_a_t : Fin H → α := L.m_Wa.mulVec input + L.m_Ra.mulVec L.m_h_t + L.m_ba
  let m_a_t : Fin H → α := fun k => tanh (m_a_t k)
  -- Input gate
  let m_i_t : Fin H → α := L.m_Wi.mulVec input + L.m_Ri.mulVec L.m_h_t + L.m_bi
  let m_i_t : Fin H → α := fun k => sigmoid exp (m_i_t k)
  -- Forget gate
  let m_f_t : Fin H → α := L.m_Wf.mulVec input + L.m_Rf.mulVec L.m_h_t + L.m_bf
  let m_f_t : Fin H → α := fun k => sigmoid exp (m_f_t k)
  -- Output gate
  let m_o_t : Fin H → α := L.m_Wo.mulVec input + L.m_Ro.mulVec L.m_h_t + L.m_bo
  let m_o_t : Fin H → α := fun k => sigmoid exp (m_o_t k)
  -- State update
  let m_state : Fin H → α := m_a_t * m_i_t + m_f_t * L.m_state
  -- LSTM output
  let m_h_t : Fin H → α := (fun k => tanh (m_state k)) * m_o_t
  -- Fully connected layer output
  let m_y_t : Fin V → α := L.m_Wy.mulVec m_h_t + L.m_by
  -- Softmax classifier
  let m_output : Fin V → α := softmax exp m_y_t
  { L with m_a_t := m_a_t, m_i_t := m_i_t, m_f_t := m_f_t, m_o_t := m_o_t,
           m_state := m_state, m_h_t := m_h_t, m_y_t := m_y_t,
           m_output := m_output }

/-! ## Vocabulary maps -/

/-- `std::unordered_map::operator[]` used as an rvalue: the value stored under
`k`; when `k` is absent an entry with the value-initialised `dflt` is inserted
first.  The result is the value read and the map afterwards. -/
def mapIndex {κ ν : Type} [BEq κ] (m : List (κ × ν)) (k : κ) (dflt : ν) :
    ν × List (κ × ν) :=
  match m.lookup k with
  | some v => (v, m)
  | none => (dflt, m ++ [(k, dflt)])

/-- `std::unordered_map::operator[]` used as an lvalue, `m[k] = v`: overwrite
the entry of `k`, or insert it. -/
def mapAssign {κ ν : Type} [BEq κ] (m : List (κ × ν)) (k : κ) (v : ν) :
    List (κ × ν) :=
  match m.lookup k with
  | some _ => m.map fun e => if e.1 == k then (k, v) else e
  | none => m ++ [(k, v)]

/-- The loop of `LSTM::fillVocabList` over the characters still to be read;
the state is `(vocabs, indices, counter)`. -/
def fillVocabLoop :
    List Char → List (Char × Nat) × List (Nat × Char) × Nat →
      List (Char × Nat) × List (Nat × Char) × Nat
  | [], st => st
  | c :: rest, (vocabs, indices, counter) =>
    if (vocabs.lookup c).isNone then
      fillVocabLoop rest (mapAssign vocabs c counter, mapAssign indices counter c, counter + 1)
    else
      fillVocabLoop rest (vocabs, indices, counter)

/-- `LSTM::fillVocabList`: returns the two maps and the values written to
`m_input_size` and `m_output_size`. -/
def fillVocabList (vocabs : List (Char × Nat)) (indices : List (Nat × Char))
    (infile : List Char) : List (Char × Nat) × List (Nat × Char) × Nat × Nat :=
  let st := fillVocabLoop infile (vocabs, indices, 0)
  (st.1, st.2.1, st.1.length, st.1.length)

/-- `LSTM::charToVector`: the one-hot vector of `m_vocabs[c]`.  The lookup goes
through `operator[]`, so the object (its `m_vocabs`) is part of the result.
Writing coefficient `m_vocabs[c]` of a vector of size `V` is only defined for
an index below `V`. -/
def charToVector (L : LSTM α H V) (c : Char) : Option ((Fin V → α) × LSTM α H V) :=
  let one_hot_vector : Fin V → α := 0
  let r := mapIndex L.m_vocabs c 0
  if h : r.1 < V then
    some (Function.update one_hot_vector ⟨r.1, h⟩ 1, { L with m_vocabs := r.2 })
  else
    none

/-- One iteration of the scan of `LSTM::vectorToChar`; the state is
`(max_index, max_num)`. -/
def vectorToCharStep (v : Fin V → α) (s : Nat × α) (i : Nat) : Nat × α :=
  if h : i < V then
    if v ⟨i, h⟩ > s.2 then (i, v ⟨i, h⟩) else s
  else s

/-- The scan of `LSTM::vectorToChar`: `max_index` after
`for (i = 1; i < v.size(); i++)`, started at index 0.  Reading `v(0)` is only
defined for a non-empty vector. -/
def maxIndex (v : Fin V → α) : Option Nat :=
  if h : 0 < V then
    some ((List.range' 1 (V - 1)).foldl (vectorToCharStep v) (0, v ⟨0, h⟩)).1
  else
    none

/-- `LSTM::vectorToChar`: the symbol `m_vocabs_indices[max_index]`, read
through `operator[]`. -/
def vectorToChar (L : LSTM α H V) (v : Fin V → α) : Option (Char × LSTM α H V) :=
  (maxIndex v).map fun max_index =>
    let r := mapIndex L.m_vocabs_indices max_index (Char.ofNat 0)
    (r.1, { L with m_vocabs_indices := r.2 })

/-! ## Gradient clipping -/

/-- The pair `(rows(), cols())` of a table; it is fixed by the type. -/
def shape {r c : Nat} (_parameter : Matrix (Fin r) (Fin c) α) : Nat × Nat :=
  (r, c)

/-- The assignment `parameter(i, j) = x`. -/
def setCoeff {r c : Nat} (parameter : Matrix (Fin r) (Fin c) α) (i : Fin r) (j : Fin c)
    (x : α) : Matrix (Fin r) (Fin c) α :=
  fun i' j' => if i' = i ∧ j' = j then x else parameter i' j'

/-- The body of the two loops of `LSTM::clipGradients` at position `(i, j)`. -/
def clipGradientsAt {r c : Nat} (parameter : Matrix (Fin r) (Fin c) α) (i : Fin r)
    (j : Fin c) : Matrix (Fin r) (Fin c) α :=
  let threshold : α := 10
  if parameter i j > threshold then
    setCoeff parameter i j threshold
  else if parameter i j < -threshold then
    setCoeff parameter i j (-threshold)
  else
    parameter

/-- `LSTM::clipGradients` at `T = Eigen::MatrixXd`: rows outside, columns
inside, entries overwritten in place. -/
def clipGradients {r c : Nat} (parameter : Matrix (Fin r) (Fin c) α) :
    Matrix (Fin r) (Fin c) α :=
  (List.finRange r).foldl
    (fun p i => (List.finRange c).foldl (fun p j => clipGradientsAt p i j) p)
    parameter

/-- An `Eigen::ArrayXd` of size `n` seen through `rows() = n`, `cols() = 1`. -/
def asColumn {n : Nat} (v : Fin n → α) : Matrix (Fin n) (Fin 1) α :=
  fun i _ => v i

/-- The array stored in an `n × 1` table. -/
def ofColumn {n : Nat} (m : Matrix (Fin n) (Fin 1) α) : Fin n → α :=
  fun i => m i 0

/-- `LSTM::clipGradients` at `T = Eigen::ArrayXd`. -/
def clipGradientsArray {n : Nat} (parameter : Fin n → α) : Fin n → α :=
  ofColumn (clipGradients (asColumn parameter))

/-! ## Backward engine -/

/-- The nine per-timestep sequences handed to `LSTM::backpropogate`.  They are
independent vectors in the source; nothing forces them to have one length. -/
structure Cache (α : Type) (H V : Nat) where
  a_t_cache : List (Fin H → α)
  i_t_cache : List (Fin H → α)
  f_t_cache : List (Fin H → α)
  o_t_cache : List (Fin H → α)
  h_t_cache : List (Fin H → α)
  state_cache : List (Fin H → α)
  input_cache : List (Fin V → α)
  prob_cache : List (Fin V → α)
  label_cache : List Char

/-- The variables of `LSTM::backpropogate` that live across iterations of the
time loop: the differentials, the fourteen gradient accumulators, and
`m_vocabs`, which the label lookup `m_vocabs[label_cache[t]]` may extend.
The four gate deltas `d_a_t`, `d_i_t`, `d_f_t`, `d_o_t` are locals of the loop
body; the record keeps those of the last iteration run (zero before the
first), nothing reads them back. -/
structure BackState (α : Type) (H V : Nat) where
  m_vocabs : List (Char × Nat)
  d_h_t : Fin H → α
  d_delta_t : Fin H → α
  d_state_t : Fin H → α
  d_y_t : Fin V → α
  d_a_t : Fin H → α
  d_i_t : Fin H → α
  d_f_t : Fin H → α
  d_o_t : Fin H → α
  d_Wa : Matrix (Fin H) (Fin V) α
  d_Wi : Matrix (Fin H) (Fin V) α
  d_Wf : Matrix (Fin H) (Fin V) α
  d_Wo : Matrix (Fin H) (Fin V) α
  d_Ra : Matrix (Fin H) (Fin H) α
  d_Ri : Matrix (Fin H) (Fin H) α
  d_Rf : Matrix (Fin H) (Fin H) α
  d_Ro : Matrix (Fin H) (Fin H) α
  d_ba : Fin H → α
  d_bi : Fin H → α
  d_bf : Fin H → α
  d_bo : Fin H → α
  d_Wy : Matrix (Fin V) (Fin H) α
  d_by : Fin V → α

/-- The declarations at the head of `LSTM::backpropogate`: everything zero. -/
def backInit (L : LSTM α H V) : BackState α H V :=
  { m_vocabs := L.m_vocabs
    d_h_t := 0, d_delta_t := 0, d_state_t := 0, d_y_t := 0
    d_a_t := 0, d_i_t := 0, d_f_t := 0, d_o_t := 0
    d_Wa := 0, d_Wi := 0, d_Wf := 0, d_Wo := 0
    d_Ra := 0, d_Ri := 0, d_Rf := 0, d_Ro := 0
    d_ba := 0, d_bi := 0, d_bf := 0, d_bo := 0
    d_Wy := 0, d_by := 0 }

/-- `x.tanh()` on an array. -/
def arrayTanh {n : Nat} (tanh : α → α) (x : Fin n → α) : Fin n → α :=
  fun k => tanh (x k)

/-- `x.square()` on an array. -/
def arraySquare {n : Nat} (x : Fin n → α) : Fin n → α :=
  fun k => x k * x k

/-- The body of the time loop of `LSTM::backpropogate` at timestep `t`. -/
def backStep (tanh : α → α) (L : LSTM α H V) (C : Cache α H V) (t : Nat)
    (s : BackState α H V) : Option (BackState α H V) := do
  -- Softmax gradient
  let prob ← C.prob_cache[t]?
  let label ← C.label_cache[t]?
  let r := mapIndex s.m_vocabs label 0
  if h : r.1 < V then
    let d_y_t : Fin V → α := Function.update prob ⟨r.1, h⟩ (prob ⟨r.1, h⟩ - 1)
    -- Accumulate fully connected layer weight and bias adjustments
    let h_t ← C.h_t_cache[t]?
    let d_Wy := s.d_Wy + Matrix.vecMulVec d_y_t h_t
    let d_by := s.d_by + d_y_t
    -- Output delta
    let d_h_t : Fin H → α := L.m_Wy.transpose.mulVec d_y_t + s.d_delta_t
    -- State delta
    let o_t ← C.o_t_cache[t]?
    let state_t ← C.state_cache[t]?
    let d_state_t : Fin H → α ←
      if t + 1 < C.input_cache.length then do
        let f_next ← C.f_t_cache[t + 1]?
        pure (d_h_t * o_t * (1 - arraySquare (arrayTanh tanh state_t)) + s.d_state_t * f_next)
      else
        pure (d_h_t * o_t * (1 - arraySquare (arrayTanh tanh state_t)))
    -- Input activation delta
    let i_t ← C.i_t_cache[t]?
    let a_t ← C.a_t_cache[t]?
    let d_a_t : Fin H → α := d_state_t * i_t * (1 - arraySquare a_t)
    -- Input gate delta
    let d_i_t : Fin H → α := d_state_t * a_t * i_t * (1 - i_t)
    -- Forget gate delta
    let d_f_t : Fin H → α ←
      if t = 0 then
        pure 0
      else do
        let state_prev ← C.state_cache[t - 1]?
        let f_t ← C.f_t_cache[t]?
        pure (d_state_t * state_prev * f_t * (1 - f_t))
    -- Output gate delta
    let d_o_t : Fin H → α := d_h_t * arrayTanh tanh state_t * o_t * (1 - o_t)
    let d_delta_t : Fin H → α :=
      L.m_Ra.transpose.mulVec d_a_t + L.m_Ri.transpose.mulVec d_i_t
        + L.m_Rf.transpose.mulVec d_f_t + L.m_Ro.mulVec d_o_t
    -- Accumulate the adjustment for the input weights
    let input ← C.input_cache[t]?
    let d_Wa := s.d_Wa + Matrix.vecMulVec d_a_t input
    let d_Wi := s.d_Wi + Matrix.vecMulVec d_i_t input
    let d_Wf := s.d_Wf + Matrix.vecMulVec d_f_t input
    let d_Wo := s.d_Wo + Matrix.vecMulVec d_o_t input
    -- Accumulate the adjustment for the recurrent weights
    let rec4 : Matrix (Fin H) (Fin H) α × Matrix (Fin H) (Fin H) α
        × Matrix (Fin H) (Fin H) α × Matrix (Fin H) (Fin H) α ←
      if t > 0 then do
        let h_prev ← C.h_t_cache[t - 1]?
        pure (s.d_Ra + Matrix.vecMulVec d_a_t h_prev, s.d_Ri + Matrix.vecMulVec d_i_t h_prev,
              s.d_Rf + Matrix.vecMulVec d_f_t h_prev, s.d_Ro + Matrix.vecMulVec d_o_t h_prev)
      else
        pure (s.d_Ra, s.d_Ri, s.d_Rf, s.d_Ro)
    -- Accumulate the adjustments for the biases
    pure { m_vocabs := r.2
           d_h_t := d_h_t, d_delta_t := d_delta_t, d_state_t := d_state_t, d_y_t := d_y_t
           d_a_t := d_a_t, d_i_t := d_i_t, d_f_t := d_f_t, d_o_t := d_o_t
           d_Wa := d_Wa, d_Wi := d_Wi, d_Wf := d_Wf, d_Wo := d_Wo
           d_Ra := rec4.1, d_Ri := rec4.2.1, d_Rf := rec4.2.2.1, d_Ro := rec4.2.2.2
           d_ba := s.d_ba + d_a_t, d_bi := s.d_bi + d_i_t
           d_bf := s.d_bf + d_f_t, d_bo := s.d_bo + d_o_t
           d_Wy := d_Wy, d_by := d_by }
  else
    none

/-- The loop `for (int t = ...; t >= window; t--) body`, entered with
`t = k - 1`.  At `t = -1` the test fails, because `window` is never negative
where the loop is used. -/
def backLoop {σ : Type} (body : Nat → σ → Option σ) (window : Int) :
    Nat → σ → Option σ
  | 0, s => some s
  | t + 1, s =>
    if (t : Int) ≥ window then
      (body t s).bind (backLoop body window t)
    else
      some s

/-- The value a 32-bit two's complement `int` holds for the integer `x`: `x`
itself between `-2^31` and `2^31 - 1`, and `x` moved by a multiple of `2^32`
into that range otherwise. -/
def wrapInt (x : Int) : Int :=
  (x + 2 ^ 31) % 2 ^ 32 - 2 ^ 31

/-- The `int` expression `timesteps - lookback`, where `timesteps` is the size
of `input_cache`.  With `lookback ≥ 0` the difference lies between
`-lookback` and `timesteps` and is the value of the expression; with a
negative `lookback` the difference can exceed `2^31 - 1`, and the `int`
holds it wrapped around. -/
def windowDiff (timesteps lookback : Int) : Int :=
  if lookback < 0 then wrapInt (timesteps - lookback) else timesteps - lookback

/-- The lower end of the time loop:
`(timesteps - lookback >= 0) ? timesteps - lookback : 0`. -/
def backWindow (timesteps lookback : Int) : Int :=
  if windowDiff timesteps lookback ≥ 0 then windowDiff timesteps lookback else 0

/-- The time loop of `LSTM::backpropogate`, from the zero accumulators to the
accumulated, unclipped gradients. -/
def backGradients (tanh : α → α) (L : LSTM α H V) (C : Cache α H V) (lookback : Int) :
    Option (BackState α H V) :=
  let timesteps : Nat := C.input_cache.length
  let window : Int := backWindow timesteps lookback
  backLoop (backStep tanh L C) window timesteps (backInit L)

/-- The fourteen calls of `clipGradients` after the time loop. -/
def backClip (s : BackState α H V) : BackState α H V :=
  { s with
    d_Wa := clipGradients s.d_Wa, d_Wi := clipGradients s.d_Wi
    d_Wf := clipGradients s.d_Wf, d_Wo := clipGradients s.d_Wo
    d_Ra := clipGradients s.d_Ra, d_Ri := clipGradients s.d_Ri
    d_Rf := clipGradients s.d_Rf, d_Ro := clipGradients s.d_Ro
    d_ba := clipGradientsArray s.d_ba, d_bi := clipGradientsArray s.d_bi
    d_bf := clipGradientsArray s.d_bf, d_bo := clipGradientsArray s.d_bo
    d_Wy := clipGradients s.d_Wy, d_by := clipGradientsArray s.d_by }

/-- The fourteen updates `parameter -= m_rate * gradient` that end
`LSTM::backpropogate`. -/
def backUpdate (L : LSTM α H V) (s : BackState α H V) : LSTM α H V :=
  { L with
    m_vocabs := s.m_vocabs
    m_Wa := L.m_Wa - L.m_rate • s.d_Wa, m_Wi := L.m_Wi - L.m_rate • s.d_Wi
    m_Wf := L.m_Wf - L.m_rate • s.d_Wf, m_Wo := L.m_Wo - L.m_rate • s.d_Wo
    m_Ra := L.m_Ra - L.m_rate • s.d_Ra, m_Ri := L.m_Ri - L.m_rate • s.d_Ri
    m_Rf := L.m_Rf - L.m_rate • s.d_Rf, m_Ro := L.m_Ro - L.m_rate • s.d_Ro
    m_ba := L.m_ba - L.m_rate • s.d_ba, m_bi := L.m_bi - L.m_rate • s.d_bi
    m_bf := L.m_bf - L.m_rate • s.d_bf, m_bo := L.m_bo - L.m_rate • s.d_bo
    m_Wy := L.m_Wy - L.m_rate • s.d_Wy, m_by := L.m_by - L.m_rate • s.d_by }

/-- `LSTM::backpropogate`: time loop, clipping, update. -/
def backpropogate (tanh : α → α) (L : LSTM α H V) (C : Cache α H V) (lookback : Int) :
    Option (LSTM α H V) :=
  (backGradients tanh L C lookback).map fun s => backUpdate L (backClip s)

/-! ## Generation -/

/-- `std::string::substr(pos, len)`: throws `std::out_of_range` (here `none`)
when `pos` exceeds the size. -/
def substr (s : List Char) (pos len : Nat) : Option (List Char) :=
  if pos > s.length then none else some ((s.drop pos).take len)

/-- The sweep `for (char c : seed) { inchar = charToVector(c); feedforward(inchar); }`
of `LSTM::output`. -/
def feedSeed (exp tanh : α → α) : List Char → LSTM α H V → Option (LSTM α H V)
  | [], L => some L
  | c :: rest, L =>
    (charToVector L c).bind fun r => feedSeed exp tanh rest (feedforward exp tanh r.2 r.1)

/-- What one iteration of the loop of `LSTM::output` reads and writes: the
object and the two local strings. -/
structure OutputState (α : Type) (H V : Nat) where
  lstm : LSTM α H V
  seed : List Char
  output : List Char

/-- One iteration of the loop of `LSTM::output`.  For the empty seed the count
`seed.length() - 1` wraps around, but `substr(1, _)` throws for it whatever
the count, so the count is written with truncated subtraction. -/
def outputStep (exp tanh : α → α) (st : OutputState α H V) : Option (OutputState α H V) := do
  let L := reset st.lstm
  let L ← feedSeed exp tanh st.seed L
  let r ← vectorToChar L L.m_output
  let outchar := r.1
  let output := st.output ++ [outchar]
  let rest ← substr st.seed 1 (st.seed.length - 1)
  pure { lstm := r.2, seed := rest ++ [outchar], output := output }

/-- The loop `for (int i = 0; i < iterations; i++)` of `LSTM::output`. -/
def outputLoop (exp tanh : α → α) : Nat → OutputState α H V → Option (OutputState α H V)
  | 0, st => some st
  | n + 1, st => (outputStep exp tanh st).bind (outputLoop exp tanh n)

/-- `LSTM::output` with the seed as a parameter: the text printed and the
object afterwards. -/
def outputFrom (exp tanh : α → α) (L : LSTM α H V) (seed : List Char) (iterations : Nat) :
    Option (List Char × LSTM α H V) :=
  (outputLoop exp tanh iterations { lstm := L, seed := seed, output := seed }).map
    fun st => (st.output, st.lstm)

/-- `LSTM::output`. -/
def output (exp tanh : α → α) (L : LSTM α H V) (iterations : Nat) :
    Option (List Char × LSTM α H V) :=
  outputFrom exp tanh L "Japan is a sovereign island nation in East Asia ".toList iterations

/-! ## Persistence -/

/-- `LSTM::writeData` at `T = Eigen::MatrixXd`: the name, a tab, every entry in
row-major order followed by a tab, then CR LF; appended to what the stream
holds.  `fmt` is the text `operator<<` produces for a `double`. -/
def writeData {r c : Nat} (fmt : α → List Char) (data : Matrix (Fin r) (Fin c) α)
    (id : List Char) (outfile : List Char) : List Char :=
  let outfile := outfile ++ id ++ ['\t']
  let outfile := (List.finRange r).foldl
    (fun out i => (List.finRange c).foldl (fun out j => out ++ fmt (data i j) ++ ['\t']) out)
    outfile
  outfile ++ ['\r', '\n']

/-- `LSTM::saveState`: the content of the state file, `none` when the file
cannot be opened (the source throws). -/
def saveState (fmt : α → List Char) (L : LSTM α H V) (opened : Bool) : Option (List Char) :=
  if opened then
    let outfile : List Char := []
    let outfile := writeData fmt L.m_Wa "Wa".toList outfile
    let outfile := writeData fmt L.m_Wi "Wi".toList outfile
    let outfile := writeData fmt L.m_Wf "Wf".toList outfile
    let outfile := writeData fmt L.m_Wo "Wo".toList outfile
    let outfile := writeData fmt L.m_Ra "Ra".toList outfile
    let outfile := writeData fmt L.m_Ri "Ri".toList outfile
    let outfile := writeData fmt L.m_Rf "Rf".toList outfile
    let outfile := writeData fmt L.m_Ro "Ro".toList outfile
    let outfile := writeData fmt (asColumn L.m_ba) "ba".toList outfile
    let outfile := writeData fmt (asColumn L.m_bi) "bi".toList outfile
    let outfile := writeData fmt (asColumn L.m_bf) "bf".toList outfile
    let outfile := writeData fmt (asColumn L.m_bo) "bo".toList outfile
    let outfile := writeData fmt L.m_Wy "Wy".toList outfile
    let outfile := writeData fmt (asColumn L.m_by) "by".toList outfile
    some outfile
  else
    none

/-- An input string stream: the characters not yet read and the fail bit. -/
structure IStream where
  buf : List Char
  fail : Bool

/-- `std::isspace` in the classic locale. -/
def isSpace (c : Char) : Bool :=
  c = ' ' || c = '\t' || c = '\n' || c = '\r' || c = Char.ofNat 11 || c = Char.ofNat 12

/-- The lines `getline(infile, line)` yields until it fails: the text is cut
at every `'\n'`, and nothing follows a final `'\n'`. -/
def getlines : List Char → List (List Char)
  | [] => []
  | c :: cs =>
    if c = '\n' then [] :: getlines cs
    else
      match getlines cs with
      | [] => [[c]]
      | l :: ls => (c :: l) :: ls

/-- `data >> id` for a `std::string`: skip white space, then take the
characters up to the next white space.  When the stream has failed or holds
only white space, `id` keeps its value and the fail bit is set. -/
def readWord (data : IStream) (id : List Char) : List Char × IStream :=
  if data.fail then (id, data)
  else
    let buf := data.buf.dropWhile isSpace
    if buf.isEmpty then (id, { buf := [], fail := true })
    else (buf.takeWhile (fun c => !isSpace c),
          { buf := buf.dropWhile (fun c => !isSpace c), fail := false })

/-- `data_stream >> x` for a `double`: skip white space and parse a number with
`parse`.  When the stream has failed or is exhausted `x` keeps its value; when
the text is not a number `x` becomes 0; in both cases the fail bit is set. -/
def readValue (parse : List Char → Option (α × List Char)) (data_stream : IStream) (x : α) :
    α × IStream :=
  if data_stream.fail then (x, data_stream)
  else
    let buf := data_stream.buf.dropWhile isSpace
    if buf.isEmpty then (x, { buf := [], fail := true })
    else
      match parse buf with
      | some (y, rest) => (y, { buf := rest, fail := false })
      | none => (0, { buf := buf, fail := true })

/-- `LSTM::loadData` at `T = Eigen::MatrixXd`: read the entries in row-major
order from the stream. -/
def loadData {r c : Nat} (parse : List Char → Option (α × List Char))
    (parameter : Matrix (Fin r) (Fin c) α) (data_stream : IStream) :
    Matrix (Fin r) (Fin c) α × IStream :=
  (List.finRange r).foldl
    (fun st i => (List.finRange c).foldl
      (fun st j =>
        let rv := readValue parse st.2 (st.1 i j)
        (setCoeff st.1 i j rv.1, rv.2))
      st)
    (parameter, data_stream)

/-- The body of the `while (getline(infile, line))` loop of `LSTM::loadState`;
the state is the object and the string `id`, which is declared outside the
loop. -/
def loadLine (parse : List Char → Option (α × List Char)) (st : LSTM α H V × List Char)
    (line : List Char) : LSTM α H V × List Char :=
  let L := st.1
  let w := readWord { buf := line, fail := false } st.2
  let id := w.1
  let data := w.2
  if id = "Wa".toList then ({ L with m_Wa := (loadData parse L.m_Wa data).1 }, id)
  else if id = "Wi".toList then ({ L with m_Wi := (loadData parse L.m_Wi data).1 }, id)
  else if id = "Wf".toList then ({ L with m_Wf := (loadData parse L.m_Wf data).1 }, id)
  else if id = "Wo".toList then ({ L with m_Wo := (loadData parse L.m_Wo data).1 }, id)
  else if id = "Ra".toList then ({ L with m_Ra := (loadData parse L.m_Ra data).1 }, id)
  else if id = "Ri".toList then ({ L with m_Ri := (loadData parse L.m_Ri data).1 }, id)
  else if id = "Rf".toList then ({ L with m_Rf := (loadData parse L.m_Rf data).1 }, id)
  else if id = "Ro".toList then ({ L with m_Ro := (loadData parse L.m_Ro data).1 }, id)
  else if id = "ba".toList then
    ({ L with m_ba := ofColumn (loadData parse (asColumn L.m_ba) data).1 }, id)
  else if id = "bi".toList then
    ({ L with m_bi := ofColumn (loadData parse (asColumn L.m_bi) data).1 }, id)
  else if id = "bf".toList then
    ({ L with m_bf := ofColumn (loadData parse (asColumn L.m_bf) data).1 }, id)
  else if id = "bo".toList then
    ({ L with m_bo := ofColumn (loadData parse (asColumn L.m_bo) data).1 }, id)
  else if id = "Wy".toList then ({ L with m_Wy := (loadData parse L.m_Wy data).1 }, id)
  else if id = "by".toList then
    ({ L with m_by := ofColumn (loadData parse (asColumn L.m_by) data).1 }, id)
  else (L, id)

/-- `LSTM::loadState` on the content of the file, `none` when the file cannot
be opened (the source throws). -/
def loadState (parse : List Char → Option (α × List Char)) (L : LSTM α H V)
    (infile : Option (List Char)) : Option (LSTM α H V) :=
  infile.map fun text => ((getlines text).foldl (loadLine parse) (L, [])).1

/-! ## Predicates over the fourteen tensors -/

/-- The relation `R x y` holds between every entry `x` of each of the fourteen
gradient accumulators of `s` and the entry `y` at the same place in `s'`. -/
def BackState.Forall₂ (R : α → α → Prop) (s s' : BackState α H V) : Prop :=
  (∀ i j, R (s.d_Wa i j) (s'.d_Wa i j)) ∧ (∀ i j, R (s.d_Wi i j) (s'.d_Wi i j)) ∧
  (∀ i j, R (s.d_Wf i j) (s'.d_Wf i j)) ∧ (∀ i j, R (s.d_Wo i j) (s'.d_Wo i j)) ∧
  (∀ i j, R (s.d_Ra i j) (s'.d_Ra i j)) ∧ (∀ i j, R (s.d_Ri i j) (s'.d_Ri i j)) ∧
  (∀ i j, R (s.d_Rf i j) (s'.d_Rf i j)) ∧ (∀ i j, R (s.d_Ro i j) (s'.d_Ro i j)) ∧
  (∀ i, R (s.d_ba i) (s'.d_ba i)) ∧ (∀ i, R (s.d_bi i) (s'.d_bi i)) ∧
  (∀ i, R (s.d_bf i) (s'.d_bf i)) ∧ (∀ i, R (s.d_bo i) (s'.d_bo i)) ∧
  (∀ i j, R (s.d_Wy i j) (s'.d_Wy i j)) ∧ (∀ i, R (s.d_by i) (s'.d_by i))

/-- Every index the time loop of `LSTM::backpropogate` reads is in range:
each sequence is at least as long as `input_cache`, from which the loop takes
the number of timesteps, and the labels of these timesteps index a
coefficient of a vector of size `V`. -/
def Cache.Readable (C : Cache α H V) (vocabs : List (Char × Nat)) : Prop :=
  C.input_cache.length ≤ C.a_t_cache.length ∧
  C.input_cache.length ≤ C.i_t_cache.length ∧
  C.input_cache.length ≤ C.f_t_cache.length ∧
  C.input_cache.length ≤ C.o_t_cache.length ∧
  C.input_cache.length ≤ C.h_t_cache.length ∧
  C.input_cache.length ≤ C.state_cache.length ∧
  C.input_cache.length ≤ C.prob_cache.length ∧
  C.input_cache.length ≤ C.label_cache.length ∧
  ∀ c ∈ C.label_cache.take C.input_cache.length, (mapIndex vocabs c 0).1 < V

/-- The nine sequences of the cache have one length. -/
def Cache.SameLengths (C : Cache α H V) : Prop :=
  C.a_t_cache.length = C.input_cache.length ∧
  C.i_t_cache.length = C.input_cache.length ∧
  C.f_t_cache.length = C.input_cache.length ∧
  C.o_t_cache.length = C.input_cache.length ∧
  C.h_t_cache.length = C.input_cache.length ∧
  C.state_cache.length = C.input_cache.length ∧
  C.prob_cache.length = C.input_cache.length ∧
  C.label_cache.length = C.input_cache.length

/-- A well-formed trajectory cache: one entry per timestep in each of the nine
sequences, every label a symbol whose index is below `V`. -/
def Cache.WellFormed (C : Cache α H V) (vocabs : List (Char × Nat)) : Prop :=
  C.SameLengths ∧ ∀ c ∈ C.label_cache, (mapIndex vocabs c 0).1 < V

/-- The effect of one iteration of the time loop of `LSTM::backpropogate` at
timestep `t`, written variable by variable: `s` holds the loop variables
before the body runs, `s'` after it.  The cache entries the body reads are
named through `List.getD`. -/
structure BackStepRel (tanh : α → α) (L : LSTM α H V) (C : Cache α H V) (t : Nat)
    (s s' : BackState α H V) : Prop where
  m_vocabs : s'.m_vocabs = (mapIndex s.m_vocabs (C.label_cache.getD t (Char.ofNat 0)) 0).2
  d_y_t : ∀ k : Fin V, s'.d_y_t k =
    if (k : Nat) = (mapIndex s.m_vocabs (C.label_cache.getD t (Char.ofNat 0)) 0).1
    then C.prob_cache.getD t 0 k - 1 else C.prob_cache.getD t 0 k
  d_Wy : s'.d_Wy = s.d_Wy + Matrix.vecMulVec s'.d_y_t (C.h_t_cache.getD t 0)
  d_by : s'.d_by = s.d_by + s'.d_y_t
  d_h_t : s'.d_h_t = L.m_Wy.transpose.mulVec s'.d_y_t + s.d_delta_t
  d_state_t : s'.d_state_t =
    if t + 1 < C.input_cache.length then
      s'.d_h_t * C.o_t_cache.getD t 0
          * (1 - arraySquare (arrayTanh tanh (C.state_cache.getD t 0)))
        + s.d_state_t * C.f_t_cache.getD (t + 1) 0
    else
      s'.d_h_t * C.o_t_cache.getD t 0
        * (1 - arraySquare (arrayTanh tanh (C.state_cache.getD t 0)))
  d_a_t : s'.d_a_t =
    s'.d_state_t * C.i_t_cache.getD t 0 * (1 - arraySquare (C.a_t_cache.getD t 0))
  d_i_t : s'.d_i_t =
    s'.d_state_t * C.a_t_cache.getD t 0 * C.i_t_cache.getD t 0 * (1 - C.i_t_cache.getD t 0)
  d_f_t : s'.d_f_t =
    if t = 0 then 0
    else s'.d_state_t * C.state_cache.getD (t - 1) 0 * C.f_t_cache.getD t 0
      * (1 - C.f_t_cache.getD t 0)
  d_o_t : s'.d_o_t =
    s'.d_h_t * arrayTanh tanh (C.state_cache.getD t 0) * C.o_t_cache.getD t 0
      * (1 - C.o_t_cache.getD t 0)
  d_delta_t : s'.d_delta_t =
    L.m_Ra.transpose.mulVec s'.d_a_t + L.m_Ri.transpose.mulVec s'.d_i_t
      + L.m_Rf.transpose.mulVec s'.d_f_t + L.m_Ro.mulVec s'.d_o_t
  d_Wa : s'.d_Wa = s.d_Wa + Matrix.vecMulVec s'.d_a_t (C.input_cache.getD t 0)
  d_Wi : s'.d_Wi = s.d_Wi + Matrix.vecMulVec s'.d_i_t (C.input_cache.getD t 0)
  d_Wf : s'.d_Wf = s.d_Wf + Matrix.vecMulVec s'.d_f_t (C.input_cache.getD t 0)
  d_Wo : s'.d_Wo = s.d_Wo + Matrix.vecMulVec s'.d_o_t (C.input_cache.getD t 0)
  d_Ra : s'.d_Ra =
    if t > 0 then s.d_Ra + Matrix.vecMulVec s'.d_a_t (C.h_t_cache.getD (t - 1) 0) else s.d_Ra
  d_Ri : s'.d_Ri =
    if t > 0 then s.d_Ri + Matrix.vecMulVec s'.d_i_t (C.h_t_cache.getD (t - 1) 0) else s.d_Ri
  d_Rf : s'.d_Rf =
    if t > 0 then s.d_Rf + Matrix.vecMulVec s'.d_f_t (C.h_t_cache.getD (t - 1) 0) else s.d_Rf
  d_Ro : s'.d_Ro =
    if t > 0 then s.d_Ro + Matrix.vecMulVec s'.d_o_t (C.h_t_cache.getD (t - 1) 0) else s.d_Ro
  d_ba : s'.d_ba = s.d_ba + s'.d_a_t
  d_bi : s'.d_bi = s.d_bi + s'.d_i_t
  d_bf : s'.d_bf = s.d_bf + s'.d_f_t
  d_bo : s'.d_bo = s.d_bo + s'.d_o_t

/-- The cache cut to the timesteps the loop can visit: the first
`input_cache.size()` entries of each sequence. -/
def Cache.truncate (C : Cache α H V) : Cache α H V :=
  { a_t_cache := C.a_t_cache.take C.input_cache.length
    i_t_cache := C.i_t_cache.take C.input_cache.length
    f_t_cache := C.f_t_cache.take C.input_cache.length
    o_t_cache := C.o_t_cache.take C.input_cache.length
    h_t_cache := C.h_t_cache.take C.input_cache.length
    state_cache := C.state_cache.take C.input_cache.length
    input_cache := C.input_cache
    prob_cache := C.prob_cache.take C.input_cache.length
    label_cache := C.label_cache.take C.input_cache.length }

/-- The value `clipGradients` leaves in an entry that held `x`. -/
def clipValue (x : α) : α :=
  if x > 10 then 10 else if x < -10 then -10 else x

/-- The property `P` holds of every entry of each of the fourteen parameter
tensors. -/
def ForallParams (P : α → Prop) (L : LSTM α H V) : Prop :=
  (∀ i j, P (L.m_Wa i j)) ∧ (∀ i j, P (L.m_Wi i j)) ∧
  (∀ i j, P (L.m_Wf i j)) ∧ (∀ i j, P (L.m_Wo i j)) ∧
  (∀ i j, P (L.m_Ra i j)) ∧ (∀ i j, P (L.m_Ri i j)) ∧
  (∀ i j, P (L.m_Rf i j)) ∧ (∀ i j, P (L.m_Ro i j)) ∧
  (∀ i, P (L.m_ba i)) ∧ (∀ i, P (L.m_bi i)) ∧
  (∀ i, P (L.m_bf i)) ∧ (∀ i, P (L.m_bo i)) ∧
  (∀ i j, P (L.m_Wy i j)) ∧ (∀ i, P (L.m_by i))

/-- The relation `R x y` holds between every entry `x` of each of the fourteen
parameter tensors of `L` and the entry `y` at the same place in `L'`. -/
def ForallParams₂ (R : α → α → Prop) (L L' : LSTM α H V) : Prop :=
  (∀ i j, R (L.m_Wa i j) (L'.m_Wa i j)) ∧ (∀ i j, R (L.m_Wi i j) (L'.m_Wi i j)) ∧
  (∀ i j, R (L.m_Wf i j) (L'.m_Wf i j)) ∧ (∀ i j, R (L.m_Wo i j) (L'.m_Wo i j)) ∧
  (∀ i j, R (L.m_Ra i j) (L'.m_Ra i j)) ∧ (∀ i j, R (L.m_Ri i j) (L'.m_Ri i j)) ∧
  (∀ i j, R (L.m_Rf i j) (L'.m_Rf i j)) ∧ (∀ i j, R (L.m_Ro i j) (L'.m_Ro i j)) ∧
  (∀ i, R (L.m_ba i) (L'.m_ba i)) ∧ (∀ i, R (L.m_bi i) (L'.m_bi i)) ∧
  (∀ i, R (L.m_bf i) (L'.m_bf i)) ∧ (∀ i, R (L.m_bo i) (L'.m_bo i)) ∧
  (∀ i j, R (L.m_Wy i j) (L'.m_Wy i j)) ∧ (∀ i, R (L.m_by i) (L'.m_by i))

/-- Two objects hold the same model: the same fourteen parameter tensors and
the same two vocabulary maps.  The learning rate, the recurrent state and the
working vectors may differ. -/
structure SameModel (L1 L2 : LSTM α H V) : Prop where
  m_vocabs : L1.m_vocabs = L2.m_vocabs
  m_vocabs_indices : L1.m_vocabs_indices = L2.m_vocabs_indices
  m_Wa : L1.m_Wa = L2.m_Wa
  m_Wi : L1.m_Wi = L2.m_Wi
  m_Wf : L1.m_Wf = L2.m_Wf
  m_Wo : L1.m_Wo = L2.m_Wo
  m_Ra : L1.m_Ra = L2.m_Ra
  m_Ri : L1.m_Ri = L2.m_Ri
  m_Rf : L1.m_Rf = L2.m_Rf
  m_Ro : L1.m_Ro = L2.m_Ro
  m_ba : L1.m_ba = L2.m_ba
  m_bi : L1.m_bi = L2.m_bi
  m_bf : L1.m_bf = L2.m_bf
  m_bo : L1.m_bo = L2.m_bo
  m_Wy : L1.m_Wy = L2.m_Wy
  m_by : L1.m_by = L2.m_by

/-- Two objects hold the same model and, besides, the same cell state, hidden
state and output distribution. -/
structure SameRun (L1 L2 : LSTM α H V) : Prop where
  model : SameModel L1 L2
  m_state : L1.m_state = L2.m_state
  m_h_t : L1.m_h_t = L2.m_h_t
  m_output : L1.m_output = L2.m_output

/-- The written value `x` reads back as the same value: its text `fmt x` is a
non-empty run of characters without white space, and `parse`, applied to that
text followed by the tab the writer puts after it, yields `x` and stops at the
tab. -/
def ReadsBack (fmt : α → List Char) (parse : List Char → Option (α × List Char))
    (x : α) : Prop :=
  fmt x ≠ [] ∧ (∀ c ∈ fmt x, isSpace c = false) ∧
    ∀ rest, parse (fmt x ++ '\t' :: rest) = some (x, '\t' :: rest)

/-- The texts of the entries `data i j`, for `j` in `js`, each after a tab. -/
def rowText {r c : Nat} (fmt : α → List Char) (data : Matrix (Fin r) (Fin c) α) (i : Fin r)
    (js : List (Fin c)) : List Char :=
  js.foldr (fun j acc => '\t' :: (fmt (data i j) ++ acc)) []

/-- The texts of the rows `is` of `data`, one after the other. -/
def rowsText {r c : Nat} (fmt : α → List Char) (data : Matrix (Fin r) (Fin c) α)
    (is : List (Fin r)) : List Char :=
  is.foldr (fun i acc => rowText fmt data i (List.finRange c) ++ acc) []

/-! ## Sample data -/

/-- A small object with `H = 1` and the two-symbol vocabulary `a`, `b`. -/
def sampleLSTM (α : Type) [LinearOrderedField α] : LSTM α 1 2 :=
  { m_rate := 1
    m_vocabs := [('a', 0), ('b', 1)]
    m_vocabs_indices := [(0, 'a'), (1, 'b')]
    m_Wa := !![1, 0], m_Wi := !![0, 1], m_Wf := !![1, 1], m_Wo := !![0, 0]
    m_Ra := !![1], m_Ri := !![0], m_Rf := !![1], m_Ro := !![0]
    m_ba := ![0], m_bi := ![0], m_bf := ![0], m_bo := ![0]
    m_Wy := !![1; 0], m_by := ![0, 0]
    m_state := ![0], m_h_t := ![0]
    m_a_t := ![0], m_i_t := ![0], m_f_t := ![0], m_o_t := ![0]
    m_y_t := ![0, 0], m_output := ![0, 0] }

/-- A well-formed cache of two timesteps for `sampleLSTM`. -/
def sampleCache (α : Type) [LinearOrderedField α] : Cache α 1 2 :=
  { a_t_cache := [![1 / 2], ![0]]
    i_t_cache := [![1 / 2], ![1 / 2]]
    f_t_cache := [![1 / 2], ![1]]
    o_t_cache := [![1 / 2], ![1 / 2]]
    h_t_cache := [![0], ![0]]
    state_cache := [![0], ![0]]
    input_cache := [![1, 0], ![0, 1]]
    prob_cache := [![1 / 2, 1 / 2], ![1 / 2, 1 / 2]]
    label_cache := ['b', 'a'] }

/-- A well-formed cache of a single timestep for `sampleLSTM`. -/
def sampleCache1 (α : Type) [LinearOrderedField α] : Cache α 1 2 :=
  { a_t_cache := [![1 / 2]]
    i_t_cache := [![1 / 2]]
    f_t_cache := [![1 / 2]]
    o_t_cache := [![1 / 2]]
    h_t_cache := [![0]]
    state_cache := [![0]]
    input_cache := [![1, 0]]
    prob_cache := [![1 / 2, 1 / 2]]
    label_cache := ['b'] }

/-- A malformed cache for `sampleLSTM`: `input_cache` holds one timestep, the
other eight sequences hold two. -/
def sampleCacheMismatch (α : Type) [LinearOrderedField α] : Cache α 1 2 :=
  { sampleCache α with input_cache := [![1, 0]] }

/-- An object with `H = 2` whose output-gate recurrent matrix `m_Ro` is not
symmetric; the other recurrent matrices and the input weights are zero. -/
def sampleLSTM2 (α : Type) [LinearOrderedField α] : LSTM α 2 2 :=
  { m_rate := 1
    m_vocabs := [('a', 0), ('b', 1)]
    m_vocabs_indices := [(0, 'a'), (1, 'b')]
    m_Wa := 0, m_Wi := 0, m_Wf := 0, m_Wo := 0
    m_Ra := 0, m_Ri := 0, m_Rf := 0, m_Ro := !![0, 1; 0, 0]
    m_ba := 0, m_bi := 0, m_bf := 0, m_bo := 0
    m_Wy := !![1, 0; 0, 0], m_by := 0
    m_state := 0, m_h_t := 0
    m_a_t := 0, m_i_t := 0, m_f_t := 0, m_o_t := 0
    m_y_t := 0, m_output := 0 }

/-- A well-formed cache of two timesteps for `sampleLSTM2`; at the last
timestep the cell state is `(1, 0)`. -/
def sampleCache2 (α : Type) [LinearOrderedField α] : Cache α 2 2 :=
  { a_t_cache := [![1 / 2, 1 / 2], ![1 / 2, 1 / 2]]
    i_t_cache := [![1 / 2, 1 / 2], ![1 / 2, 1 / 2]]
    f_t_cache := [![1 / 2, 1 / 2], ![1 / 2, 1 / 2]]
    o_t_cache := [![1 / 2, 1 / 2], ![1 / 2, 1 / 2]]
    h_t_cache := [![0, 0], ![0, 0]]
    state_cache := [![0, 0], ![1, 0]]
    input_cache := [![1, 0], ![0, 1]]
    prob_cache := [![1 / 2, 1 / 2], ![1 / 2, 1 / 2]]
    label_cache := ['b', 'a'] }

/-- A writer that is right on the values 0 and 1. -/
def sampleFmt (x : ℚ) : List Char :=
  if x = 1 then ['1'] else ['0']

/-- A reader for the digits 0 and 1. -/
def sampleParse : List Char → Option (ℚ × List Char)
  | '0' :: rest => some (0, rest)
  | '1' :: rest => some (1, rest)
  | _ => none

/-! ## Softmax is a probability distribution -/

theorem softmax_nonneg {n : Nat} (x : Fin n → ℝ) (i : Fin n) :
    0 ≤ softmax Real.exp x i := by
  unfold softmax
  exact div_nonneg (Real.exp_pos _).le
    (Finset.sum_nonneg fun j _ => (Real.exp_pos _).le)

theorem softmax_sum {n : Nat} (hn : 1 ≤ n) (x : Fin n → ℝ) :
    ∑ i, softmax Real.exp x i = 1 := by
  unfold softmax
  have hpos : 0 < ∑ j : Fin n, Real.exp (x j) := by
    haveI : Nonempty (Fin n) := ⟨⟨0, hn⟩⟩
    exact Finset.sum_pos (fun j _ => Real.exp_pos _) Finset.univ_nonempty
  simp only []
  rw [← Finset.sum_div]
  exact div_self hpos.ne'

theorem feedforward_m_output (exp tanh : α → α) (L : LSTM α H V) (input : Fin V → α) :
    (feedforward exp tanh L input).m_output
      = softmax exp (feedforward exp tanh L input).m_y_t := rfl

/-- C1: over the reals, with at least one symbol in the vocabulary, the output
distribution `m_output` that `feedforward` produces from the reset (zero)
recurrent state has only non-negative entries, and its entries sum to
exactly 1, for every parameter store and every input vector. -/
theorem feedforward_output_is_distribution {H V : Nat} (hV : 1 ≤ V) (L : LSTM ℝ H V)
    (input : Fin V → ℝ) :
    (∀ i, 0 ≤ (feedforward Real.exp Real.tanh (reset L) input).m_output i) ∧
      ∑ i, (feedforward Real.exp Real.tanh (reset L) input).m_output i = 1 := by
  rw [feedforward_m_output]
  exact ⟨fun i => softmax_nonneg _ i, softmax_sum hV _⟩

/-- The distribution property of C1 at the sample object and the one-hot
input of `a`. -/
theorem feedforward_output_is_distribution_witness :
    1 ≤ 2 ∧
    ((∀ i, 0 ≤ (feedforward Real.exp Real.tanh (reset (sampleLSTM ℝ)) ![1, 0]).m_output i) ∧
      ∑ i, (feedforward Real.exp Real.tanh (reset (sampleLSTM ℝ)) ![1, 0]).m_output i = 1) :=
  ⟨by decide, feedforward_output_is_distribution (by decide) (sampleLSTM ℝ) ![1, 0]⟩

/-! ## Gradient clipping -/

theorem clipValue_bounds (x : α) : -10 ≤ clipValue x ∧ clipValue x ≤ 10 := by
  unfold clipValue
  split_ifs with h1 h2
  · constructor <;> norm_num
  · constructor <;> norm_num
  · exact ⟨not_lt.mp h2, not_lt.mp h1⟩

theorem clipValue_of_mem (x : α) (h1 : -10 ≤ x) (h2 : x ≤ 10) : clipValue x = x := by
  unfold clipValue
  rw [if_neg (not_lt.mpr h2), if_neg (not_lt.mpr h1)]

theorem clipValue_idem (x : α) : clipValue (clipValue x) = clipValue x :=
  clipValue_of_mem _ (clipValue_bounds x).1 (clipValue_bounds x).2

theorem clipGradientsAt_apply {r c : Nat} (p : Matrix (Fin r) (Fin c) α) (i : Fin r)
    (j : Fin c) (i' : Fin r) (j' : Fin c) :
    clipGradientsAt p i j i' j'
      = if i' = i ∧ j' = j then clipValue (p i' j') else p i' j' := by
  unfold clipGradientsAt clipValue
  by_cases h : i' = i ∧ j' = j
  · obtain ⟨rfl, rfl⟩ := h
    split_ifs <;> simp_all [setCoeff]
  · split_ifs <;> simp_all [setCoeff]

theorem clip_row_apply {r c : Nat} (i : Fin r) (js : List (Fin c))
    (p : Matrix (Fin r) (Fin c) α) (i' : Fin r) (j' : Fin c) :
    js.foldl (fun p j => clipGradientsAt p i j) p i' j'
      = if i' = i ∧ j' ∈ js then clipValue (p i' j') else p i' j' := by
  induction js generalizing p with
  | nil => simp
  | cons j js ih =>
    rw [List.foldl_cons, ih, clipGradientsAt_apply]
    by_cases h1 : i' = i <;> by_cases h2 : j' = j <;> by_cases h3 : j' ∈ js <;>
      simp [h1, h2, h3, clipValue_idem]

theorem clip_rows_apply {r c : Nat} (is : List (Fin r)) (p : Matrix (Fin r) (Fin c) α)
    (i' : Fin r) (j' : Fin c) :
    is.foldl (fun p i => (List.finRange c).foldl (fun p j => clipGradientsAt p i j) p) p i' j'
      = if i' ∈ is then clipValue (p i' j') else p i' j' := by
  induction is generalizing p with
  | nil => simp
  | cons i is ih =>
    rw [List.foldl_cons, ih, clip_row_apply]
    by_cases h1 : i' = i <;> by_cases h3 : i' ∈ is <;>
      simp [h1, h3, clipValue_idem, List.mem_finRange]

theorem clipGradients_apply {r c : Nat} (p : Matrix (Fin r) (Fin c) α) (i : Fin r)
    (j : Fin c) : clipGradients p i j = clipValue (p i j) := by
  unfold clipGradients
  rw [clip_rows_apply, if_pos (List.mem_finRange i)]

theorem clipGradientsArray_apply {n : Nat} (v : Fin n → α) (i : Fin n) :
    clipGradientsArray v i = clipValue (v i) := by
  unfold clipGradientsArray ofColumn
  rw [clipGradients_apply]
  rfl

theorem backClip_forall₂ (s : BackState α H V) :
    BackState.Forall₂ (fun x y => y = clipValue x) s (backClip s) := by
  unfold BackState.Forall₂ backClip
  simp only [clipGradients_apply, clipGradientsArray_apply]
  simp


/-- C2: `clipGradients` leaves every entry of a matrix or of a vector in
`[-10, 10]` and does not change an entry that already was in `[-10, 10]`; the
shape stays what it was (in this model argument and result have one type).
`backpropogate` is the time loop followed by `backClip` and then the update,
and `backClip` does this to each of the fourteen gradient accumulators. -/
theorem clipGradients_bounds_and_fixes :
    (∀ (r c : Nat) (g : Matrix (Fin r) (Fin c) α) (i : Fin r) (j : Fin c),
      (-10 ≤ clipGradients g i j ∧ clipGradients g i j ≤ 10) ∧
        (-10 ≤ g i j → g i j ≤ 10 → clipGradients g i j = g i j) ∧
        shape (clipGradients g) = shape g) ∧
    (∀ (n : Nat) (g : Fin n → α) (i : Fin n),
      (-10 ≤ clipGradientsArray g i ∧ clipGradientsArray g i ≤ 10) ∧
        (-10 ≤ g i → g i ≤ 10 → clipGradientsArray g i = g i) ∧
        shape (asColumn (clipGradientsArray g)) = shape (asColumn g)) ∧
    (∀ (tanh : α → α) (L : LSTM α H V) (C : Cache α H V) (lookback : Int),
      backpropogate tanh L C lookback
        = (backGradients tanh L C lookback).map fun s => backUpdate L (backClip s)) ∧
    (∀ s : BackState α H V,
      BackState.Forall₂ (fun x y => (-10 ≤ y ∧ y ≤ 10) ∧ (-10 ≤ x → x ≤ 10 → y = x))
        s (backClip s)) := by
  refine ⟨fun r c g i j => ?_, fun n g i => ?_, fun _ _ _ _ => rfl, fun s => ?_⟩
  · rw [clipGradients_apply]
    exact ⟨clipValue_bounds _, clipValue_of_mem _, rfl⟩
  · rw [clipGradientsArray_apply]
    exact ⟨clipValue_bounds _, clipValue_of_mem _, rfl⟩
  · have h := backClip_forall₂ s
    unfold BackState.Forall₂ at h ⊢
    obtain ⟨h1, h2, h3, h4, h5, h6, h7, h8, h9, h10, h11, h12, h13, h14⟩ := h
    have key : ∀ x y : α, y = clipValue x →
        (-10 ≤ y ∧ y ≤ 10) ∧ (-10 ≤ x → x ≤ 10 → y = x) := by
      intro x y e
      subst e
      exact ⟨clipValue_bounds _, clipValue_of_mem _⟩
    exact ⟨fun i j => key _ _ (h1 i j), fun i j => key _ _ (h2 i j),
      fun i j => key _ _ (h3 i j), fun i j => key _ _ (h4 i j),
      fun i j => key _ _ (h5 i j), fun i j => key _ _ (h6 i j),
      fun i j => key _ _ (h7 i j), fun i j => key _ _ (h8 i j),
      fun i => key _ _ (h9 i), fun i => key _ _ (h10 i),
      fun i => key _ _ (h11 i), fun i => key _ _ (h12 i),
      fun i j => key _ _ (h13 i j), fun i => key _ _ (h14 i)⟩

/-- C2 at a concrete matrix over the rationals: the two entries out of range
are cut to `10` and `-10`, the two in range stay. -/
theorem clipGradients_bounds_and_fixes_witness :
    clipGradients (!![20, 3; -11, -10] : Matrix (Fin 2) (Fin 2) ℚ) 0 0 ≤ 10 ∧
    -10 ≤ clipGradients (!![20, 3; -11, -10] : Matrix (Fin 2) (Fin 2) ℚ) 1 0 ∧
    clipGradients (!![20, 3; -11, -10] : Matrix (Fin 2) (Fin 2) ℚ) 0 1 = 3 ∧
    clipGradients (!![20, 3; -11, -10] : Matrix (Fin 2) (Fin 2) ℚ) 1 1 = -10 :=
  ⟨((clipGradients_bounds_and_fixes (α := ℚ) (H := 1) (V := 1)).1 2 2 _ 0 0).1.2,
   ((clipGradients_bounds_and_fixes (α := ℚ) (H := 1) (V := 1)).1 2 2 _ 1 0).1.1,
   ((clipGradients_bounds_and_fixes (α := ℚ) (H := 1) (V := 1)).1 2 2 _ 0 1).2.1
      (by norm_num) (by norm_num),
   ((clipGradients_bounds_and_fixes (α := ℚ) (H := 1) (V := 1)).1 2 2 _ 1 1).2.1
      (by norm_num) (by norm_num)⟩

/-! ## The body and the loop of `backpropogate` -/

theorem getElem?_getD_of_lt {β : Type} (l : List β) (t : Nat) (d : β) (h : t < l.length) :
    l[t]? = some (l.getD t d) := by
  simp [List.getD, List.getElem?_eq_getElem h]

theorem update_sub_one_apply {n : Nat} (p : Fin n → α) (idx : Nat) (h : idx < n) (k : Fin n) :
    Function.update p ⟨idx, h⟩ (p ⟨idx, h⟩ - 1) k = if (k : Nat) = idx then p k - 1 else p k := by
  by_cases hk : (k : Nat) = idx
  · have : k = ⟨idx, h⟩ := Fin.ext hk
    subst this
    simp
  · have : k ≠ ⟨idx, h⟩ := fun e => hk (by rw [e])
    simp [Function.update_noteq this, hk]

theorem backStep_rel (tanh : α → α) (L : LSTM α H V) (C : Cache α H V) (t : Nat)
    (s : BackState α H V) (ht : t < C.input_cache.length) (hR : C.Readable L.m_vocabs)
    (hv : ∀ c, (mapIndex s.m_vocabs c 0).1 = (mapIndex L.m_vocabs c 0).1) :
    ∃ s', backStep tanh L C t s = some s' ∧ BackStepRel tanh L C t s s' := by
  obtain ⟨h1, h2, h3, h4, h5, h6, h7, h8, h9⟩ := hR
  have e1 := getElem?_getD_of_lt C.a_t_cache t 0 (by omega)
  have e2 := getElem?_getD_of_lt C.i_t_cache t 0 (by omega)
  have e3 := getElem?_getD_of_lt C.f_t_cache t 0 (by omega)
  have e4 := getElem?_getD_of_lt C.o_t_cache t 0 (by omega)
  have e5 := getElem?_getD_of_lt C.h_t_cache t 0 (by omega)
  have e6 := getElem?_getD_of_lt C.state_cache t 0 (by omega)
  have e7 := getElem?_getD_of_lt C.prob_cache t 0 (by omega)
  have e8 := getElem?_getD_of_lt C.label_cache t (Char.ofNat 0) (by omega)
  have e9 := getElem?_getD_of_lt C.input_cache t 0 (by omega)
  have hidx : (mapIndex s.m_vocabs (C.label_cache.getD t (Char.ofNat 0)) 0).1 < V := by
    rw [hv]
    apply h9
    rw [List.mem_take_iff_getElem]
    have hlt : t < C.label_cache.length := by omega
    refine ⟨t, by simp; omega, ?_⟩
    have := List.getElem?_eq_getElem hlt
    rw [e8] at this
    exact (Option.some.inj this).symm
  by_cases hn : t + 1 < C.input_cache.length
  · have e10 := getElem?_getD_of_lt C.f_t_cache (t + 1) 0 (by omega)
    by_cases h0 : t = 0
    · subst h0
      simp only [backStep, e1, e2, e3, e4, e5, e6, e7, e8, e9, e10, Option.bind_eq_bind,
        Option.some_bind, Option.pure_def, dif_pos hidx, if_pos hn, if_true, lt_irrefl,
        gt_iff_lt, if_false]
      refine ⟨_, rfl, ?_⟩
      constructor
      all_goals first
        | rfl
        | exact fun k => update_sub_one_apply _ _ hidx k
        | (split_ifs; rfl)
    · have hpos : t > 0 := Nat.pos_of_ne_zero h0
      have e11 := getElem?_getD_of_lt C.state_cache (t - 1) 0 (by omega)
      have e12 := getElem?_getD_of_lt C.h_t_cache (t - 1) 0 (by omega)
      simp only [backStep, e1, e2, e3, e4, e5, e6, e7, e8, e9, e10, e11, e12,
        Option.bind_eq_bind, Option.some_bind, Option.pure_def, dif_pos hidx, if_pos hn,
        if_neg h0, if_pos hpos]
      refine ⟨_, rfl, ?_⟩
      constructor
      all_goals first
        | rfl
        | exact fun k => update_sub_one_apply _ _ hidx k
        | (split_ifs; rfl)
  · by_cases h0 : t = 0
    · subst h0
      simp only [backStep, e1, e2, e3, e4, e5, e6, e7, e8, e9, Option.bind_eq_bind,
        Option.some_bind, Option.pure_def, dif_pos hidx, if_neg hn, if_true, lt_irrefl,
        gt_iff_lt, if_false]
      refine ⟨_, rfl, ?_⟩
      constructor
      all_goals first
        | rfl
        | exact fun k => update_sub_one_apply _ _ hidx k
        | (split_ifs; rfl)
    · have hpos : t > 0 := Nat.pos_of_ne_zero h0
      have e11 := getElem?_getD_of_lt C.state_cache (t - 1) 0 (by omega)
      have e12 := getElem?_getD_of_lt C.h_t_cache (t - 1) 0 (by omega)
      simp only [backStep, e1, e2, e3, e4, e5, e6, e7, e8, e9, e11, e12,
        Option.bind_eq_bind, Option.some_bind, Option.pure_def, dif_pos hidx, if_neg hn,
        if_neg h0, if_pos hpos]
      refine ⟨_, rfl, ?_⟩
      constructor
      all_goals first
        | rfl
        | exact fun k => update_sub_one_apply _ _ hidx k
        | (split_ifs; rfl)
theorem mapIndex_fst_stable (m : List (Char × Nat)) (c c' : Char) :
    (mapIndex (mapIndex m c 0).2 c' 0).1 = (mapIndex m c' 0).1 := by
  unfold mapIndex
  cases hc : m.lookup c with
  | some v => rfl
  | none =>
    simp only [List.lookup_append]
    cases hc' : m.lookup c' with
    | some v' => simp
    | none =>
      by_cases h : c' = c
      · subst h; simp [List.lookup]
      · have : (c' == c) = false := by simpa using h
        simp [List.lookup, this]

theorem foldlM_trace (l acc : List Nat) :
    l.foldlM (fun (tr : List Nat) t => some (tr ++ [t])) acc = some (acc ++ l) := by
  induction l generalizing acc with
  | nil => simp
  | cons t l ih => simp [List.foldlM_cons, ih]

theorem backLoop_eq_foldlM {σ : Type} (body : Nat → σ → Option σ) (w : Nat) (k : Nat) (s : σ) :
    backLoop body (w : Int) k s
      = (List.range' w (k - w)).reverse.foldlM (fun s t => body t s) s := by
  induction k generalizing s with
  | zero => simp [backLoop]
  | succ k ih =>
    unfold backLoop
    by_cases h : (k : Int) ≥ (w : Int)
    · have hk : w ≤ k := by exact_mod_cast h
      rw [if_pos h]
      have e : k + 1 - w = (k - w) + 1 := by omega
      rw [e, List.range'_concat, List.reverse_append]
      have e2 : w + 1 * (k - w) = k := by omega
      simp only [e2, List.reverse_cons, List.reverse_nil, List.nil_append, List.singleton_append,
        List.foldlM_cons]
      congr 1
      funext s'
      exact ih s'
    · have hk : k < w := by
        by_contra hc
        exact h (by exact_mod_cast Nat.le_of_not_lt hc)
      rw [if_neg h]
      have e : k + 1 - w = 0 := by omega
      simp [e]

theorem backLoop_split {σ : Type} (body : Nat → σ → Option σ) (t k : Nat) (h : t < k) (s : σ) :
    backLoop body (t : Int) k s = (backLoop body ((t : Int) + 1) k s).bind (body t) := by
  induction k generalizing s with
  | zero => omega
  | succ k ih =>
    unfold backLoop
    by_cases hk : t < k
    · have h1 : (k : Int) ≥ (t : Int) := by exact_mod_cast hk.le
      have h2 : (k : Int) ≥ (t : Int) + 1 := by exact_mod_cast hk
      rw [if_pos h1, if_pos h2, Option.bind_assoc]
      congr 1
      funext s'
      exact ih hk s'
    · have hkt : k = t := by omega
      subst hkt
      have h2 : ¬ ((k : Int) ≥ (k : Int) + 1) := by omega
      rw [if_pos (le_refl _), if_neg h2]
      have h3 : ∀ s', backLoop body (k : Int) k s' = some s' := by
        intro s'
        cases k with
        | zero => rfl
        | succ m =>
          unfold backLoop
          rw [if_neg]
          push_cast
          omega
      simp [h3]


theorem backLoop_some (tanh : α → α) (L : LSTM α H V) (C : Cache α H V)
    (hR : C.Readable L.m_vocabs) (w : Int) (k : Nat) (hk : k ≤ C.input_cache.length)
    (s : BackState α H V)
    (hv : ∀ c, (mapIndex s.m_vocabs c 0).1 = (mapIndex L.m_vocabs c 0).1) :
    ∃ s', backLoop (backStep tanh L C) w k s = some s' ∧
      ∀ c, (mapIndex s'.m_vocabs c 0).1 = (mapIndex L.m_vocabs c 0).1 := by
  induction k generalizing s with
  | zero => exact ⟨s, rfl, hv⟩
  | succ k ih =>
    unfold backLoop
    by_cases h : (k : Int) ≥ w
    · rw [if_pos h]
      obtain ⟨s1, hs1, hrel⟩ := backStep_rel tanh L C k s (by omega) hR hv
      have hv1 : ∀ c, (mapIndex s1.m_vocabs c 0).1 = (mapIndex L.m_vocabs c 0).1 := by
        intro c
        rw [hrel.m_vocabs, mapIndex_fst_stable, hv]
      obtain ⟨s2, hs2, hv2⟩ := ih (by omega) s1 hv1
      exact ⟨s2, by rw [hs1, Option.some_bind, hs2], hv2⟩
    · rw [if_neg h]
      exact ⟨s, rfl, hv⟩

theorem backGradients_some (tanh : α → α) (L : LSTM α H V) (C : Cache α H V)
    (hR : C.Readable L.m_vocabs) (lookback : Int) :
    ∃ G, backGradients tanh L C lookback = some G :=
  (backLoop_some tanh L C hR _ _ (le_refl _) (backInit L) (fun _ => rfl)).imp fun _ h => h.1

omit [LinearOrderedField α] in
theorem Cache.WellFormed.readable {C : Cache α H V} {vocabs : List (Char × Nat)}
    (h : C.WellFormed vocabs) : C.Readable vocabs := by
  obtain ⟨⟨h1, h2, h3, h4, h5, h6, h7, h8⟩, h9⟩ := h
  exact ⟨h1.ge, h2.ge, h3.ge, h4.ge, h5.ge, h6.ge, h7.ge, h8.ge,
    fun c hc => h9 c (List.mem_of_mem_take hc)⟩

theorem sampleCache_wellFormed : (sampleCache α).WellFormed (sampleLSTM α).m_vocabs := by
  refine ⟨⟨rfl, rfl, rfl, rfl, rfl, rfl, rfl, rfl⟩, ?_⟩
  intro c hc
  simp only [sampleCache, List.mem_cons, List.mem_singleton, List.not_mem_nil, or_false] at hc
  rcases hc with rfl | rfl <;> simp only [sampleLSTM] <;> decide

theorem sampleCache1_wellFormed : (sampleCache1 α).WellFormed (sampleLSTM α).m_vocabs := by
  refine ⟨⟨rfl, rfl, rfl, rfl, rfl, rfl, rfl, rfl⟩, ?_⟩
  intro c hc
  simp only [sampleCache1, List.mem_singleton] at hc
  subst hc
  simp only [sampleLSTM]
  decide

/-- C3: for a well-formed cache and any lookback, `backpropogate` returns, and
each of the fourteen parameter tensors it leaves equals the tensor held before
the call minus `m_rate` times the clipped gradient that the time loop
accumulated for it: one plain gradient-descent step.  The gradients `G` are
those of `backGradients` run on the object as it was before the call. -/
theorem backpropogate_is_one_descent_step (tanh : α → α) (L : LSTM α H V) (C : Cache α H V)
    (lookback : Int) (hC : C.WellFormed L.m_vocabs) :
    ∃ G L', backGradients tanh L C lookback = some G ∧
      backpropogate tanh L C lookback = some L' ∧
      L'.m_Wa = L.m_Wa - L.m_rate • clipGradients G.d_Wa ∧
      L'.m_Wi = L.m_Wi - L.m_rate • clipGradients G.d_Wi ∧
      L'.m_Wf = L.m_Wf - L.m_rate • clipGradients G.d_Wf ∧
      L'.m_Wo = L.m_Wo - L.m_rate • clipGradients G.d_Wo ∧
      L'.m_Ra = L.m_Ra - L.m_rate • clipGradients G.d_Ra ∧
      L'.m_Ri = L.m_Ri - L.m_rate • clipGradients G.d_Ri ∧
      L'.m_Rf = L.m_Rf - L.m_rate • clipGradients G.d_Rf ∧
      L'.m_Ro = L.m_Ro - L.m_rate • clipGradients G.d_Ro ∧
      L'.m_ba = L.m_ba - L.m_rate • clipGradientsArray G.d_ba ∧
      L'.m_bi = L.m_bi - L.m_rate • clipGradientsArray G.d_bi ∧
      L'.m_bf = L.m_bf - L.m_rate • clipGradientsArray G.d_bf ∧
      L'.m_bo = L.m_bo - L.m_rate • clipGradientsArray G.d_bo ∧
      L'.m_Wy = L.m_Wy - L.m_rate • clipGradients G.d_Wy ∧
      L'.m_by = L.m_by - L.m_rate • clipGradientsArray G.d_by := by
  obtain ⟨G, hG⟩ := backGradients_some tanh L C hC.readable lookback
  refine ⟨G, backUpdate L (backClip G), hG, ?_, rfl, rfl, rfl, rfl, rfl, rfl, rfl, rfl, rfl, rfl,
    rfl, rfl, rfl, rfl⟩
  unfold backpropogate
  rw [hG]
  rfl

/-- C3 at the sample object and the sample cache of two timesteps. -/
theorem backpropogate_is_one_descent_step_witness :
    (sampleCache ℝ).WellFormed (sampleLSTM ℝ).m_vocabs ∧
    ∃ G L', backGradients Real.tanh (sampleLSTM ℝ) (sampleCache ℝ) 1 = some G ∧
      backpropogate Real.tanh (sampleLSTM ℝ) (sampleCache ℝ) 1 = some L' ∧
      L'.m_Wy = (sampleLSTM ℝ).m_Wy - (sampleLSTM ℝ).m_rate • clipGradients G.d_Wy :=
  let ⟨G, L', h1, h2, _, _, _, _, _, _, _, _, _, _, _, _, h3, _⟩ :=
    backpropogate_is_one_descent_step Real.tanh (sampleLSTM ℝ) (sampleCache ℝ) 1
      sampleCache_wellFormed
  ⟨sampleCache_wellFormed, G, L', h1, h2, h3⟩

theorem backWindow_nonneg (T : Nat) (lookback : Int) : 0 ≤ backWindow T lookback := by
  unfold backWindow
  split_ifs <;> omega

theorem windowDiff_of_nonneg (T lookback : Int) (h : 0 ≤ lookback) :
    windowDiff T lookback = T - lookback :=
  if_neg (not_lt.mpr h)

theorem wrapInt_of_fits (x : Int) (h1 : -2 ^ 31 ≤ x) (h2 : x ≤ 2 ^ 31 - 1) : wrapInt x = x := by
  unfold wrapInt
  omega

/-- On the values an `int` holds (a size `T` up to `2^31 - 1`, any `lookback`
of the type) `windowDiff` is the wrapped difference. -/
theorem windowDiff_eq_wrapInt (T lookback : Int) (hT0 : 0 ≤ T) (hT : T ≤ 2 ^ 31 - 1)
    (hl : lookback ≤ 2 ^ 31 - 1) : windowDiff T lookback = wrapInt (T - lookback) := by
  unfold windowDiff
  split_ifs with h
  · rfl
  · exact (wrapInt_of_fits _ (by omega) (by omega)).symm

/-- Without overflow the difference is the mathematical one. -/
theorem windowDiff_of_fits (T lookback : Int) (hT : 0 ≤ T)
    (h : T - lookback ≤ 2 ^ 31 - 1) : windowDiff T lookback = T - lookback := by
  unfold windowDiff
  split_ifs with h0
  · exact wrapInt_of_fits _ (by omega) h
  · rfl

theorem backWindow_cast (T : Nat) (lookback : Int) :
    backWindow T lookback = ((backWindow T lookback).toNat : Int) :=
  (Int.toNat_of_nonneg (backWindow_nonneg T lookback)).symm

/-- C4: for a cache of `T` timesteps and a non-negative lookback, the time loop
of `backpropogate` runs its body at the timesteps `visited`, which are exactly
the `t` with `max 0 (T - lookback) ≤ t ≤ T - 1`, each once and in decreasing
order, `min T lookback` of them; the accumulated gradients are the result of
running the body over `visited` and over nothing else, so no earlier
timestep contributes. -/
theorem backpropogate_visits_last_lookback_steps (tanh : α → α) (L : LSTM α H V)
    (C : Cache α H V) (lookback : Int) (hl : 0 ≤ lookback) :
    ∃ visited : List Nat,
      backLoop (fun t (tr : List Nat) => some (tr ++ [t]))
          (backWindow C.input_cache.length lookback) C.input_cache.length []
        = some visited ∧
      backGradients tanh L C lookback
        = visited.foldlM (fun s t => backStep tanh L C t s) (backInit L) ∧
      (∀ t : Nat, t ∈ visited ↔
        max 0 ((C.input_cache.length : Int) - lookback) ≤ (t : Int) ∧
          (t : Int) ≤ (C.input_cache.length : Int) - 1) ∧
      visited.Pairwise (fun a b => a > b) ∧
      (visited.length : Int) = min (C.input_cache.length : Int) lookback := by
  set T := C.input_cache.length with hT
  set w := (backWindow T lookback).toNat with hw
  have hcast : backWindow T lookback = (w : Int) := backWindow_cast T lookback
  have hwv : (w : Int) = max 0 ((T : Int) - lookback) := by
    rw [← hcast]
    unfold backWindow
    rw [windowDiff_of_nonneg _ _ hl]
    split_ifs with h
    · exact (max_eq_right h).symm
    · exact (max_eq_left (by omega)).symm
  refine ⟨(List.range' w (T - w)).reverse, ?_, ?_, ?_, ?_, ?_⟩
  · rw [hcast, backLoop_eq_foldlM, foldlM_trace, List.nil_append]
  · unfold backGradients
    simp only []
    rw [← hT, hcast, backLoop_eq_foldlM]
  · intro t
    rw [List.mem_reverse, List.mem_range'_1, ← hwv]
    constructor
    · rintro ⟨h1, h2⟩
      omega
    · rintro ⟨h1, h2⟩
      omega
  · rw [List.pairwise_reverse]
    exact (List.pairwise_lt_range' w (T - w)).imp (fun h => h)
  · rw [List.length_reverse, List.length_range']
    have : (w : Int) ≤ T ∨ T = 0 := by
      rw [hwv]
      omega
    omega

/-- C4 at the sample cache of two timesteps with a lookback of one. -/
theorem backpropogate_visits_last_lookback_steps_witness :
    (0 : Int) ≤ 1 ∧
    ∃ visited : List Nat,
      backLoop (fun t (tr : List Nat) => some (tr ++ [t]))
          (backWindow (sampleCache ℝ).input_cache.length 1)
          (sampleCache ℝ).input_cache.length []
        = some visited ∧
      backGradients Real.tanh (sampleLSTM ℝ) (sampleCache ℝ) 1
        = visited.foldlM (fun s t => backStep Real.tanh (sampleLSTM ℝ) (sampleCache ℝ) t s)
            (backInit (sampleLSTM ℝ)) ∧
      (visited.length : Int) = min ((sampleCache ℝ).input_cache.length : Int) 1 :=
  let ⟨visited, h1, h2, _, _, h5⟩ :=
    backpropogate_visits_last_lookback_steps Real.tanh (sampleLSTM ℝ) (sampleCache ℝ) 1
      (by decide)
  ⟨by decide, visited, h1, h2, h5⟩

theorem backLoop_through {σ : Type} (body : Nat → σ → Option σ) (w : Int) (t k : Nat)
    (hw : w ≤ (t : Int)) (htk : t ≤ k) (s : σ) :
    backLoop body w k s = (backLoop body (t : Int) k s).bind (backLoop body w t) := by
  induction k generalizing s with
  | zero =>
    have : t = 0 := by omega
    subst this
    rfl
  | succ k ih =>
    by_cases hk : t ≤ k
    · have h1 : (k : Int) ≥ (t : Int) := by exact_mod_cast hk
      have h2 : (k : Int) ≥ w := le_trans hw h1
      rw [backLoop, backLoop, if_pos h1, if_pos h2, Option.bind_assoc]
      congr 1
      funext s'
      exact ih hk s'
    · have hkt : t = k + 1 := by omega
      subst hkt
      have h3 : backLoop body ((k + 1 : Nat) : Int) (k + 1) s = some s := by
        rw [backLoop, if_neg]
        push_cast
        omega
      rw [h3, Option.some_bind]

/-- C5: in a cache of `T ≥ 2` timesteps whose reads are all in range take a
timestep `t < T - 1`,
let `s_next` be the loop variables of `backpropogate` when iteration `t + 1`
has run and `s_t` those when iteration `t` has run.  Then the cell-state
gradient `s_t.d_state_t` is `d_h_t * o_t * (1 - tanh(state_t)^2)` plus the
carried `s_next.d_state_t` times `f_{t+1}`; with `f_{t+1}` all zero the carried
term is absent, with `f_{t+1}` all one it is added unchanged.  After the
first iteration, `t = T - 1`, there is no carried term.  Every run whose
window reaches `t` passes through `s_t`. -/
theorem cell_gradient_forget_coupling (tanh : α → α) (L : LSTM α H V) (C : Cache α H V)
    (hR : C.Readable L.m_vocabs) (t : Nat) (ht : t + 1 < C.input_cache.length) :
    (∃ s_next s_t : BackState α H V,
      backLoop (backStep tanh L C) ((t : Int) + 1) C.input_cache.length (backInit L)
        = some s_next ∧
      backStep tanh L C t s_next = some s_t ∧
      backLoop (backStep tanh L C) (t : Int) C.input_cache.length (backInit L) = some s_t ∧
      (∀ lookback : Int, backWindow C.input_cache.length lookback ≤ (t : Int) →
        backGradients tanh L C lookback
          = backLoop (backStep tanh L C) (backWindow C.input_cache.length lookback) t s_t) ∧
      s_t.d_state_t
        = s_t.d_h_t * C.o_t_cache.getD t 0
            * (1 - arraySquare (arrayTanh tanh (C.state_cache.getD t 0)))
          + s_next.d_state_t * C.f_t_cache.getD (t + 1) 0 ∧
      (C.f_t_cache.getD (t + 1) 0 = 0 →
        s_t.d_state_t
          = s_t.d_h_t * C.o_t_cache.getD t 0
              * (1 - arraySquare (arrayTanh tanh (C.state_cache.getD t 0)))) ∧
      (C.f_t_cache.getD (t + 1) 0 = 1 →
        s_t.d_state_t
          = s_t.d_h_t * C.o_t_cache.getD t 0
              * (1 - arraySquare (arrayTanh tanh (C.state_cache.getD t 0)))
            + s_next.d_state_t)) ∧
    (∃ s_last : BackState α H V,
      backStep tanh L C (C.input_cache.length - 1) (backInit L) = some s_last ∧
      backLoop (backStep tanh L C) ((C.input_cache.length - 1 : Nat) : Int)
        C.input_cache.length (backInit L) = some s_last ∧
      s_last.d_state_t
        = s_last.d_h_t * C.o_t_cache.getD (C.input_cache.length - 1) 0
            * (1 - arraySquare
                (arrayTanh tanh (C.state_cache.getD (C.input_cache.length - 1) 0)))) := by
  constructor
  · obtain ⟨s_next, h_next, hv⟩ :=
      backLoop_some tanh L C hR ((t : Int) + 1) _ (le_refl _) (backInit L) (fun _ => rfl)
    obtain ⟨s_t, h_t, hrel⟩ := backStep_rel tanh L C t s_next (by omega) hR hv
    have hloop : backLoop (backStep tanh L C) (t : Int) C.input_cache.length (backInit L)
        = some s_t := by
      rw [backLoop_split _ t _ (by omega), h_next, Option.some_bind, h_t]
    have hd := hrel.d_state_t
    rw [if_pos ht] at hd
    refine ⟨s_next, s_t, h_next, h_t, hloop, ?_, hd, ?_, ?_⟩
    · intro lookback hw
      unfold backGradients
      simp only []
      rw [backLoop_through _ _ t _ hw (by omega), hloop, Option.some_bind]
    · intro hf
      rw [hd, hf, mul_zero, add_zero]
    · intro hf
      rw [hd, hf, mul_one]
  · obtain ⟨s_last, h_last, hrel⟩ :=
      backStep_rel tanh L C (C.input_cache.length - 1) (backInit L) (by omega) hR (fun _ => rfl)
    have hd := hrel.d_state_t
    rw [if_neg (by omega)] at hd
    refine ⟨s_last, h_last, ?_, hd⟩
    obtain ⟨k, hk⟩ : ∃ k, C.input_cache.length = k + 1 := ⟨C.input_cache.length - 1, by omega⟩
    rw [hk] at h_last ⊢
    simp only [Nat.add_sub_cancel] at h_last ⊢
    rw [backLoop, if_pos (le_refl _), h_last, Option.some_bind]
    cases k with
    | zero => rfl
    | succ m =>
      rw [backLoop, if_neg]
      push_cast
      omega


/-- C5 at the sample cache of two timesteps, `t = 0`. -/
theorem cell_gradient_forget_coupling_witness :
    (sampleCache ℝ).Readable (sampleLSTM ℝ).m_vocabs ∧
    0 + 1 < (sampleCache ℝ).input_cache.length ∧
    ∃ s_next s_t : BackState ℝ 1 2,
      backStep Real.tanh (sampleLSTM ℝ) (sampleCache ℝ) 0 s_next = some s_t ∧
      s_t.d_state_t
        = s_t.d_h_t * (sampleCache ℝ).o_t_cache.getD 0 0
            * (1 - arraySquare (arrayTanh Real.tanh ((sampleCache ℝ).state_cache.getD 0 0)))
          + s_next.d_state_t * (sampleCache ℝ).f_t_cache.getD (0 + 1) 0 :=
  let ⟨⟨s_next, s_t, _, h2, _, _, h5, _⟩, _⟩ :=
    cell_gradient_forget_coupling Real.tanh (sampleLSTM ℝ) (sampleCache ℝ)
      sampleCache_wellFormed.readable 0 (by decide)
  ⟨sampleCache_wellFormed.readable, by decide, s_next, s_t, h2, h5⟩

theorem vecMulVec_zero_left {m n : Nat} (x : Fin n → α) :
    Matrix.vecMulVec (0 : Fin m → α) x = 0 := by
  ext i j
  simp [Matrix.vecMulVec]

theorem clipGradients_zero {r c : Nat} : clipGradients (0 : Matrix (Fin r) (Fin c) α) = 0 := by
  ext i j
  rw [clipGradients_apply]
  exact clipValue_of_mem _ (by norm_num) (by norm_num)

theorem clipGradientsArray_zero {n : Nat} : clipGradientsArray (0 : Fin n → α) = 0 := by
  ext i
  rw [clipGradientsArray_apply]
  exact clipValue_of_mem _ (by norm_num) (by norm_num)

/-- C6: in a cache whose reads are all in range, let `s1` be the loop variables of
`backpropogate` when iteration `t = 1` has run (the initial ones when the
cache has a single timestep) and `s0` those when iteration `t = 0` has run.
The forget-gate delta of iteration 0 is the zero vector, and `d_Wf`, `d_bf`,
`d_Ra`, `d_Ri`, `d_Rf`, `d_Ro` are the same in `s0` as in `s1`.  For a cache
of length 1 and a lookback of at least 1, `backpropogate` returns with `Ra`,
`Ri`, `Rf`, `Ro`, `Wf` and `bf` as they were. -/
theorem first_timestep_adds_nothing_to_forget_and_recurrent (tanh : α → α) (L : LSTM α H V)
    (C : Cache α H V) (hR : C.Readable L.m_vocabs) (hT : 0 < C.input_cache.length) :
    (∃ s1 s0 : BackState α H V,
      backLoop (backStep tanh L C) 1 C.input_cache.length (backInit L) = some s1 ∧
      backStep tanh L C 0 s1 = some s0 ∧
      backLoop (backStep tanh L C) 0 C.input_cache.length (backInit L) = some s0 ∧
      s0.d_f_t = 0 ∧ s0.d_Wf = s1.d_Wf ∧ s0.d_bf = s1.d_bf ∧
      s0.d_Ra = s1.d_Ra ∧ s0.d_Ri = s1.d_Ri ∧ s0.d_Rf = s1.d_Rf ∧ s0.d_Ro = s1.d_Ro) ∧
    (C.input_cache.length = 1 → ∀ lookback : Int, 1 ≤ lookback →
      ∃ L', backpropogate tanh L C lookback = some L' ∧
        L'.m_Ra = L.m_Ra ∧ L'.m_Ri = L.m_Ri ∧ L'.m_Rf = L.m_Rf ∧ L'.m_Ro = L.m_Ro ∧
        L'.m_Wf = L.m_Wf ∧ L'.m_bf = L.m_bf) := by
  obtain ⟨s1, h1, hv⟩ :=
    backLoop_some tanh L C hR 1 _ (le_refl _) (backInit L) (fun _ => rfl)
  obtain ⟨s0, h0, hrel⟩ := backStep_rel tanh L C 0 s1 hT hR hv
  have hloop : backLoop (backStep tanh L C) 0 C.input_cache.length (backInit L) = some s0 := by
    have := backLoop_split (backStep tanh L C) 0 _ hT (backInit L)
    simp only [Nat.cast_zero, zero_add] at this
    rw [this, h1, Option.some_bind, h0]
  have hf : s0.d_f_t = 0 := by rw [hrel.d_f_t, if_pos rfl]
  have hWf : s0.d_Wf = s1.d_Wf := by rw [hrel.d_Wf, hf, vecMulVec_zero_left, add_zero]
  have hbf : s0.d_bf = s1.d_bf := by rw [hrel.d_bf, hf, add_zero]
  have hRa : s0.d_Ra = s1.d_Ra := by rw [hrel.d_Ra, if_neg (lt_irrefl 0)]
  have hRi : s0.d_Ri = s1.d_Ri := by rw [hrel.d_Ri, if_neg (lt_irrefl 0)]
  have hRf : s0.d_Rf = s1.d_Rf := by rw [hrel.d_Rf, if_neg (lt_irrefl 0)]
  have hRo : s0.d_Ro = s1.d_Ro := by rw [hrel.d_Ro, if_neg (lt_irrefl 0)]
  refine ⟨⟨s1, s0, h1, h0, hloop, hf, hWf, hbf, hRa, hRi, hRf, hRo⟩, ?_⟩
  intro hlen lookback hl
  have hs1 : s1 = backInit L := by
    rw [hlen, backLoop, if_neg (by norm_num)] at h1
    exact (Option.some.inj h1).symm
  have hG : backGradients tanh L C lookback = some s0 := by
    unfold backGradients
    have hw : backWindow C.input_cache.length lookback = 0 := by
      unfold backWindow
      rw [hlen, windowDiff_of_nonneg _ _ (by omega)]
      split_ifs <;> omega
    simp only []
    rw [hw, hloop]
  refine ⟨backUpdate L (backClip s0), ?_, ?_, ?_, ?_, ?_, ?_, ?_⟩
  · unfold backpropogate
    rw [hG]
    rfl
  all_goals
    simp only [backUpdate, backClip, hWf, hbf, hRa, hRi, hRf, hRo, hs1, backInit,
      clipGradients_zero, clipGradientsArray_zero, smul_zero, sub_zero]

/-- C6 at the sample cache of a single timestep with a lookback of one. -/
theorem first_timestep_adds_nothing_to_forget_and_recurrent_witness :
    (sampleCache1 ℝ).Readable (sampleLSTM ℝ).m_vocabs ∧
    0 < (sampleCache1 ℝ).input_cache.length ∧
    ∃ L', backpropogate Real.tanh (sampleLSTM ℝ) (sampleCache1 ℝ) 1 = some L' ∧
      L'.m_Ra = (sampleLSTM ℝ).m_Ra ∧ L'.m_Ri = (sampleLSTM ℝ).m_Ri ∧
      L'.m_Rf = (sampleLSTM ℝ).m_Rf ∧ L'.m_Ro = (sampleLSTM ℝ).m_Ro ∧
      L'.m_Wf = (sampleLSTM ℝ).m_Wf ∧ L'.m_bf = (sampleLSTM ℝ).m_bf :=
  ⟨sampleCache1_wellFormed.readable, by decide,
    (first_timestep_adds_nothing_to_forget_and_recurrent Real.tanh (sampleLSTM ℝ)
      (sampleCache1 ℝ) sampleCache1_wellFormed.readable (by decide)).2 rfl 1 (le_refl 1)⟩

/-! ## Arg-max decoding -/

theorem vectorToChar_scan (v : Fin V → α) (n k : Nat) (hk : k + n ≤ V) (s : Nat × α)
    (hs : ∃ i : Fin V, s = ((i : Nat), v i) ∧ (i : Nat) < k ∧
      (∀ j : Fin V, (j : Nat) < k → v j ≤ v i) ∧ (∀ j : Fin V, (j : Nat) < i → v j < v i)) :
    ∃ i : Fin V, (List.range' k n).foldl (vectorToCharStep v) s = ((i : Nat), v i) ∧
      (i : Nat) < k + n ∧
      (∀ j : Fin V, (j : Nat) < k + n → v j ≤ v i) ∧
      (∀ j : Fin V, (j : Nat) < i → v j < v i) := by
  induction n generalizing k s with
  | zero => simpa using hs
  | succ n ih =>
    obtain ⟨i, rfl, hik, hle, hlt⟩ := hs
    have hkV : k < V := by omega
    rw [List.range'_succ, List.foldl_cons]
    have hstep : ∃ i' : Fin V, vectorToCharStep v ((i : Nat), v i) k = ((i' : Nat), v i') ∧
        (i' : Nat) < k + 1 ∧ (∀ j : Fin V, (j : Nat) < k + 1 → v j ≤ v i') ∧
        (∀ j : Fin V, (j : Nat) < i' → v j < v i') := by
      unfold vectorToCharStep
      rw [dif_pos hkV]
      by_cases hgt : v ⟨k, hkV⟩ > v i
      · rw [if_pos hgt]
        refine ⟨⟨k, hkV⟩, rfl, Nat.lt_succ_self k, ?_, ?_⟩
        · intro j hj
          by_cases hjk : (j : Nat) = k
          · have : j = ⟨k, hkV⟩ := Fin.ext hjk
            rw [this]
          · exact le_trans (hle j (by omega)) hgt.le
        · intro j hj
          exact lt_of_le_of_lt (hle j hj) hgt
      · rw [if_neg hgt]
        refine ⟨i, rfl, by omega, ?_, hlt⟩
        intro j hj
        by_cases hjk : (j : Nat) = k
        · have : j = ⟨k, hkV⟩ := Fin.ext hjk
          rw [this]
          exact not_lt.mp hgt
        · exact hle j (by omega)
    have := ih (k + 1) (by omega) _ hstep
    simpa [Nat.add_assoc, Nat.add_comm 1 n] using this

theorem maxIndex_spec (v : Fin V → α) (hV : 0 < V) :
    ∃ i : Fin V, maxIndex v = some (i : Nat) ∧ (∀ j : Fin V, v j ≤ v i) ∧
      (∀ j : Fin V, j < i → v j < v i) := by
  have h0 : ∃ i : Fin V, ((0 : Nat), v ⟨0, hV⟩) = ((i : Nat), v i) ∧ (i : Nat) < 1 ∧
      (∀ j : Fin V, (j : Nat) < 1 → v j ≤ v i) ∧ (∀ j : Fin V, (j : Nat) < i → v j < v i) := by
    refine ⟨⟨0, hV⟩, rfl, Nat.lt_succ_self 0, ?_, ?_⟩
    · intro j hj
      have : j = ⟨0, hV⟩ := Fin.ext (by simpa using hj)
      rw [this]
    · intro j hj
      exact absurd hj (Nat.not_lt_zero _)
  obtain ⟨i, hi, _, hle, hlt⟩ := vectorToChar_scan v (V - 1) 1 (by omega) _ h0
  refine ⟨i, ?_, ?_, ?_⟩
  · unfold maxIndex
    rw [dif_pos hV, hi]
  · intro j
    exact hle j (by have := j.isLt; omega)
  · intro j hj
    exact hlt j hj

/-- C7: for a non-empty vector `v`, `vectorToChar` returns the symbol
`m_vocabs_indices[i]` of an index `i` with `v j ≤ v i` for every `j` and
`v j < v i` for every `j` before `i`: the first index of a largest entry.
When the index map has an entry for `i`, that entry is the symbol returned. -/
theorem vectorToChar_is_first_argmax (L : LSTM α H V) (v : Fin V → α) (hV : 0 < V) :
    ∃ i : Fin V, (∀ j : Fin V, v j ≤ v i) ∧ (∀ j : Fin V, j < i → v j < v i) ∧
      (vectorToChar L v).map Prod.fst
        = some (mapIndex L.m_vocabs_indices (i : Nat) (Char.ofNat 0)).1 ∧
      ∀ c : Char, L.m_vocabs_indices.lookup (i : Nat) = some c →
        (vectorToChar L v).map Prod.fst = some c := by
  obtain ⟨i, hi, hle, hlt⟩ := maxIndex_spec v hV
  have hres : (vectorToChar L v).map Prod.fst
      = some (mapIndex L.m_vocabs_indices (i : Nat) (Char.ofNat 0)).1 := by
    unfold vectorToChar
    rw [hi]
    rfl
  refine ⟨i, hle, hlt, hres, ?_⟩
  intro c hc
  rw [hres]
  unfold mapIndex
  rw [hc]

/-- C7 at the sample object: the two entries are equal, the first one decides
and the symbol returned is `a`. -/
theorem vectorToChar_is_first_argmax_witness :
    0 < 2 ∧ (vectorToChar (sampleLSTM ℚ) ![3, 3]).map Prod.fst = some 'a' := by
  refine ⟨by decide, ?_⟩
  obtain ⟨i, _, hlt, _, hc⟩ := vectorToChar_is_first_argmax (sampleLSTM ℚ) ![3, 3] (by decide)
  have hi : i = 0 := by
    fin_cases i
    · rfl
    · have h := hlt 0 (by decide)
      norm_num at h
  subst hi
  exact hc 'a' (by decide)

/-! ## Generation -/

theorem mapIndex_fst_lt (vocabs : List (Char × Nat)) (hV : 0 < V)
    (hvoc : ∀ e ∈ vocabs, e.2 < V) (c : Char) : (mapIndex vocabs c 0).1 < V := by
  unfold mapIndex
  cases h : vocabs.lookup c with
  | none => exact hV
  | some v =>
    obtain ⟨l₁, l₂, hl, -⟩ := List.lookup_eq_some_iff.mp h
    exact hvoc (c, v) (by rw [hl]; simp)

theorem mapIndex_snd_inRange (vocabs : List (Char × Nat)) (hV : 0 < V)
    (hvoc : ∀ e ∈ vocabs, e.2 < V) (c : Char) : ∀ e ∈ (mapIndex vocabs c 0).2, e.2 < V := by
  unfold mapIndex
  cases h : vocabs.lookup c with
  | none =>
    intro e he
    rcases List.mem_append.mp he with he | he
    · exact hvoc e he
    · rw [List.mem_singleton.mp he]
      exact hV
  | some v => exact hvoc

theorem charToVector_some (L : LSTM α H V) (hV : 0 < V) (hvoc : ∀ e ∈ L.m_vocabs, e.2 < V)
    (c : Char) :
    ∃ r, charToVector L c = some r ∧ (∀ e ∈ r.2.m_vocabs, e.2 < V) := by
  unfold charToVector
  simp only []
  rw [dif_pos (mapIndex_fst_lt L.m_vocabs hV hvoc c)]
  exact ⟨_, rfl, mapIndex_snd_inRange L.m_vocabs hV hvoc c⟩

theorem feedSeed_some (exp tanh : α → α) (hV : 0 < V) (seed : List Char) (L : LSTM α H V)
    (hvoc : ∀ e ∈ L.m_vocabs, e.2 < V) :
    ∃ L', feedSeed exp tanh seed L = some L' ∧ (∀ e ∈ L'.m_vocabs, e.2 < V) := by
  induction seed generalizing L with
  | nil => exact ⟨L, rfl, hvoc⟩
  | cons c rest ih =>
    obtain ⟨r, hr, hvr⟩ := charToVector_some L hV hvoc c
    obtain ⟨L', hL', hv'⟩ := ih (feedforward exp tanh r.2 r.1) hvr
    exact ⟨L', by rw [feedSeed, hr, Option.some_bind, hL'], hv'⟩

theorem vectorToChar_some (L : LSTM α H V) (hV : 0 < V) (v : Fin V → α) :
    ∃ r, vectorToChar L v = some r ∧ r.2.m_vocabs = L.m_vocabs := by
  obtain ⟨i, hi, -, -⟩ := maxIndex_spec v hV
  unfold vectorToChar
  rw [hi]
  exact ⟨_, rfl, rfl⟩

theorem substr_one (s : List Char) (hs : s ≠ []) : substr s 1 (s.length - 1) = some s.tail := by
  unfold substr
  have hlen : 0 < s.length := List.length_pos.mpr hs
  rw [if_neg (by omega)]
  congr 1
  rw [List.drop_one]
  exact List.take_of_length_le (by simp)

theorem outputStep_some (exp tanh : α → α) (hV : 0 < V) (st : OutputState α H V)
    (hseed : st.seed ≠ []) (hvoc : ∀ e ∈ st.lstm.m_vocabs, e.2 < V) :
    ∃ Lf r st', feedSeed exp tanh st.seed (reset st.lstm) = some Lf ∧
      vectorToChar Lf Lf.m_output = some r ∧
      outputStep exp tanh st = some st' ∧
      st'.lstm = r.2 ∧ st'.seed = st.seed.tail ++ [r.1] ∧ st'.output = st.output ++ [r.1] ∧
      (∀ e ∈ st'.lstm.m_vocabs, e.2 < V) := by
  obtain ⟨Lf, hLf, hvf⟩ := feedSeed_some exp tanh hV st.seed (reset st.lstm) hvoc
  obtain ⟨r, hr, hvr⟩ := vectorToChar_some Lf hV Lf.m_output
  refine ⟨Lf, r, { lstm := r.2, seed := st.seed.tail ++ [r.1], output := st.output ++ [r.1] },
    hLf, hr, ?_, rfl, rfl, rfl, ?_⟩
  · simp only [outputStep, hLf, hr, substr_one st.seed hseed, Option.bind_eq_bind,
      Option.some_bind, Option.pure_def]
  · show ∀ e ∈ r.2.m_vocabs, e.2 < V
    rw [hvr]
    exact hvf

theorem outputLoop_succ (exp tanh : α → α) (n : Nat) (st : OutputState α H V) :
    outputLoop exp tanh (n + 1) st
      = (outputLoop exp tanh n st).bind (outputStep exp tanh) := by
  induction n generalizing st with
  | zero =>
    show (outputStep exp tanh st).bind (outputLoop exp tanh 0)
      = (some st).bind (outputStep exp tanh)
    rw [Option.some_bind]
    cases outputStep exp tanh st <;> rfl
  | succ n ih =>
    show (outputStep exp tanh st).bind (outputLoop exp tanh (n + 1))
      = ((outputStep exp tanh st).bind (outputLoop exp tanh n)).bind (outputStep exp tanh)
    cases h : outputStep exp tanh st with
    | none => rfl
    | some st1 =>
      rw [Option.some_bind, Option.some_bind]
      exact ih st1

theorem outputLoop_invariant (exp tanh : α → α) (hV : 0 < V) (L : LSTM α H V)
    (hvoc : ∀ e ∈ L.m_vocabs, e.2 < V) (seed : List Char) (hseed : seed ≠ []) (n : Nat) :
    ∃ st : OutputState α H V,
      outputLoop exp tanh n { lstm := L, seed := seed, output := seed } = some st ∧
      st.output.length = seed.length + n ∧ st.output.take seed.length = seed ∧
      st.seed = st.output.drop n ∧ st.seed.length = seed.length ∧
      (∀ e ∈ st.lstm.m_vocabs, e.2 < V) := by
  induction n with
  | zero => exact ⟨_, rfl, rfl, List.take_length seed, rfl, rfl, hvoc⟩
  | succ n ih =>
    obtain ⟨st, hst, hlen, htake, hdrop, hslen, hv⟩ := ih
    have hpos : 0 < seed.length := List.length_pos.mpr hseed
    have hne : st.seed ≠ [] := by
      intro h
      rw [h] at hslen
      simp at hslen
      omega
    obtain ⟨Lf, r, st', -, -, hstep, -, hs', ho', hv'⟩ :=
      outputStep_some exp tanh hV st hne hv
    refine ⟨st', by rw [outputLoop_succ, hst, Option.some_bind, hstep], ?_, ?_, ?_, ?_, hv'⟩
    · rw [ho', List.length_append, hlen]
      rfl
    · rw [ho', List.take_append_of_le_length (by omega), htake]
    · rw [hs', ho', hdrop, List.tail_drop, List.drop_append_of_le_length (by omega)]
    · rw [hs', List.length_append, List.length_tail, hslen]
      simp
      omega

/-- C8: take an object with at least one symbol whose symbol map holds only
indices below `V`, a non-empty seed and a number `n` of iterations.  The
generation loop of `output` then returns; the running output has length
`|seed| + n` and starts with the original seed; the seed window still has
length `|seed|` and is the last `|seed|` characters of the running output.
The next iteration sweeps the window from the reset object, whose cell and
hidden state are zero, takes the symbol `vectorToChar` gives for the final
distribution, appends it to the output, and makes the window its own tail
followed by that symbol. -/
theorem output_slides_seed_window (exp tanh : α → α) (hV : 0 < V) (L : LSTM α H V)
    (hvoc : ∀ e ∈ L.m_vocabs, e.2 < V) (seed : List Char) (hseed : seed ≠ []) (n : Nat) :
    ∃ st : OutputState α H V,
      outputLoop exp tanh n { lstm := L, seed := seed, output := seed } = some st ∧
      outputFrom exp tanh L seed n = some (st.output, st.lstm) ∧
      st.output.length = seed.length + n ∧
      st.output.take seed.length = seed ∧
      st.seed.length = seed.length ∧
      st.seed = st.output.drop (st.output.length - seed.length) ∧
      ∃ (Lf : LSTM α H V) (r : Char × LSTM α H V) (st' : OutputState α H V),
        (reset st.lstm).m_state = 0 ∧ (reset st.lstm).m_h_t = 0 ∧
        feedSeed exp tanh st.seed (reset st.lstm) = some Lf ∧
        vectorToChar Lf Lf.m_output = some r ∧
        outputLoop exp tanh (n + 1) { lstm := L, seed := seed, output := seed } = some st' ∧
        st'.output = st.output ++ [r.1] ∧
        st'.seed = st.seed.tail ++ [r.1] := by
  obtain ⟨st, hst, hlen, htake, hdrop, hslen, hv⟩ :=
    outputLoop_invariant exp tanh hV L hvoc seed hseed n
  have hne : st.seed ≠ [] := by
    intro h
    have hpos : 0 < seed.length := List.length_pos.mpr hseed
    rw [h] at hslen
    simp at hslen
    omega
  obtain ⟨Lf, r, st', hLf, hr, hstep, -, hs', ho', -⟩ := outputStep_some exp tanh hV st hne hv
  refine ⟨st, hst, ?_, hlen, htake, hslen, ?_, Lf, r, st', rfl, rfl, hLf, hr, ?_, ho', hs'⟩
  · unfold outputFrom
    rw [hst]
    rfl
  · rw [hlen, Nat.add_sub_cancel_left]
    exact hdrop
  · rw [outputLoop_succ, hst, Option.some_bind, hstep]

/-- C8 at the sample object, for `output` itself with its built-in seed of 48
characters and three iterations. -/
theorem output_slides_seed_window_witness :
    0 < 2 ∧ (∀ e ∈ (sampleLSTM ℝ).m_vocabs, e.2 < 2) ∧
    "Japan is a sovereign island nation in East Asia ".toList ≠ [] ∧
    ∃ st : OutputState ℝ 1 2,
      output Real.exp Real.tanh (sampleLSTM ℝ) 3 = some (st.output, st.lstm) ∧
      st.output.length = 48 + 3 ∧
      st.output.take 48 = "Japan is a sovereign island nation in East Asia ".toList ∧
      st.seed = st.output.drop 3 :=
  have hvoc : ∀ e ∈ (sampleLSTM ℝ).m_vocabs, e.2 < 2 := by
    intro e he
    simp only [sampleLSTM, List.mem_cons, List.mem_singleton, List.not_mem_nil, or_false] at he
    rcases he with rfl | rfl <;> decide
  let ⟨st, _, h2, h3, h4, _, h6, _⟩ :=
    output_slides_seed_window Real.exp Real.tanh (by decide) (sampleLSTM ℝ) hvoc
      "Japan is a sovereign island nation in East Asia ".toList (by decide) 3
  ⟨by decide, hvoc, by decide, st, h2, h3, h4, by rw [h3] at h6; exact h6⟩

/-! ## Persistence -/

theorem readValue_readsBack (fmt : α → List Char) (parse : List Char → Option (α × List Char))
    (x old : α) (hx : ReadsBack fmt parse x) (rest : List Char) :
    readValue parse { buf := '\t' :: (fmt x ++ '\t' :: rest), fail := false } old
      = (x, { buf := '\t' :: rest, fail := false }) := by
  obtain ⟨hne, hsp, hparse⟩ := hx
  obtain ⟨c, cs, hc⟩ := List.exists_cons_of_ne_nil hne
  have hcs : isSpace c = false := hsp c (by rw [hc]; simp)
  have hdrop : List.dropWhile isSpace ('\t' :: (fmt x ++ '\t' :: rest))
      = fmt x ++ '\t' :: rest := by
    rw [List.dropWhile_cons_of_pos (by decide), hc, List.cons_append,
      List.dropWhile_cons_of_neg (by simp [hcs])]
  unfold readValue
  simp only [hdrop, Bool.false_eq_true, if_false]
  rw [hparse]
  simp [hc]

omit [LinearOrderedField α] in
theorem rowText_append_tab {r c : Nat} (fmt : α → List Char) (data : Matrix (Fin r) (Fin c) α)
    (i : Fin r) (js : List (Fin c)) (tl : List Char) :
    ∃ rest, rowText fmt data i js ++ '\t' :: tl = '\t' :: rest := by
  cases js with
  | nil => exact ⟨tl, rfl⟩
  | cons j js => exact ⟨_, rfl⟩

omit [LinearOrderedField α] in
theorem rowsText_append_tab {r c : Nat} (fmt : α → List Char) (data : Matrix (Fin r) (Fin c) α)
    (is : List (Fin r)) (tl : List Char) :
    ∃ rest, rowsText fmt data is ++ '\t' :: tl = '\t' :: rest := by
  induction is with
  | nil => exact ⟨tl, rfl⟩
  | cons i is ih =>
    obtain ⟨rest, hrest⟩ := ih
    show ∃ rest, (rowText fmt data i (List.finRange c) ++ rowsText fmt data is) ++ '\t' :: tl
      = '\t' :: rest
    rw [List.append_assoc, hrest]
    exact rowText_append_tab fmt data i _ rest

theorem loadData_row {r c : Nat} (fmt : α → List Char)
    (parse : List Char → Option (α × List Char)) (data : Matrix (Fin r) (Fin c) α)
    (hdata : ∀ i j, ReadsBack fmt parse (data i j)) (i : Fin r) (js : List (Fin c))
    (p : Matrix (Fin r) (Fin c) α) (tl : List Char) :
    ∃ p', js.foldl
        (fun (st : Matrix (Fin r) (Fin c) α × IStream) j =>
          let rv := readValue parse st.2 (st.1 i j)
          (setCoeff st.1 i j rv.1, rv.2))
        (p, { buf := rowText fmt data i js ++ '\t' :: tl, fail := false })
      = (p', { buf := '\t' :: tl, fail := false }) ∧
      ∀ i' j', p' i' j' = if i' = i ∧ j' ∈ js then data i' j' else p i' j' := by
  induction js generalizing p with
  | nil => exact ⟨p, rfl, by simp⟩
  | cons j js ih =>
    obtain ⟨rest, hrest⟩ := rowText_append_tab fmt data i js tl
    have hbuf : rowText fmt data i (j :: js) ++ '\t' :: tl
        = '\t' :: (fmt (data i j) ++ '\t' :: rest) := by
      show '\t' :: (fmt (data i j) ++ rowText fmt data i js) ++ '\t' :: tl = _
      rw [List.cons_append, List.append_assoc, hrest]
    obtain ⟨p', hp', hval⟩ := ih (setCoeff p i j (data i j))
    refine ⟨p', ?_, ?_⟩
    · rw [List.foldl_cons]
      simp only [hbuf, readValue_readsBack fmt parse _ _ (hdata i j)]
      rw [← hrest]
      exact hp'
    · intro i' j'
      rw [hval]
      by_cases h1 : i' = i <;> by_cases h2 : j' = j <;> by_cases h3 : j' ∈ js <;>
        simp [h1, h2, h3, setCoeff]

theorem loadData_rows {r c : Nat} (fmt : α → List Char)
    (parse : List Char → Option (α × List Char)) (data : Matrix (Fin r) (Fin c) α)
    (hdata : ∀ i j, ReadsBack fmt parse (data i j)) (is : List (Fin r))
    (p : Matrix (Fin r) (Fin c) α) (tl : List Char) :
    ∃ p', is.foldl
        (fun (st : Matrix (Fin r) (Fin c) α × IStream) i => (List.finRange c).foldl
          (fun (st : Matrix (Fin r) (Fin c) α × IStream) j =>
            let rv := readValue parse st.2 (st.1 i j)
            (setCoeff st.1 i j rv.1, rv.2))
          st)
        (p, { buf := rowsText fmt data is ++ '\t' :: tl, fail := false })
      = (p', { buf := '\t' :: tl, fail := false }) ∧
      ∀ i' j', p' i' j' = if i' ∈ is then data i' j' else p i' j' := by
  induction is generalizing p with
  | nil => exact ⟨p, rfl, by simp⟩
  | cons i is ih =>
    obtain ⟨rest, hrest⟩ := rowsText_append_tab fmt data is tl
    have hbuf : rowsText fmt data (i :: is) ++ '\t' :: tl
        = rowText fmt data i (List.finRange c) ++ '\t' :: rest := by
      show (rowText fmt data i (List.finRange c) ++ rowsText fmt data is) ++ '\t' :: tl = _
      rw [List.append_assoc, hrest]
    obtain ⟨p1, hp1, hval1⟩ := loadData_row fmt parse data hdata i (List.finRange c) p rest
    obtain ⟨p', hp', hval⟩ := ih p1
    refine ⟨p', ?_, ?_⟩
    · rw [List.foldl_cons, hbuf, hp1, ← hrest]
      exact hp'
    · intro i' j'
      rw [hval, hval1]
      by_cases h1 : i' = i <;> by_cases h3 : i' ∈ is <;>
        simp [h1, h3, List.mem_finRange]

theorem loadData_rowsText {r c : Nat} (fmt : α → List Char)
    (parse : List Char → Option (α × List Char)) (data : Matrix (Fin r) (Fin c) α)
    (hdata : ∀ i j, ReadsBack fmt parse (data i j))
    (p : Matrix (Fin r) (Fin c) α) (tl : List Char) :
    (loadData parse p
      { buf := rowsText fmt data (List.finRange r) ++ '\t' :: tl, fail := false }).1 = data := by
  obtain ⟨p', hp', hval⟩ := loadData_rows fmt parse data hdata (List.finRange r) p tl
  unfold loadData
  rw [hp']
  ext i j
  show p' i j = data i j
  rw [hval, if_pos (List.mem_finRange i)]

omit [LinearOrderedField α] in
theorem writeData_row {r c : Nat} (fmt : α → List Char) (data : Matrix (Fin r) (Fin c) α)
    (i : Fin r) (js : List (Fin c)) (pre : List Char) :
    js.foldl (fun out j => out ++ fmt (data i j) ++ ['\t']) (pre ++ ['\t'])
      = pre ++ rowText fmt data i js ++ ['\t'] := by
  induction js generalizing pre with
  | nil => simp [rowText]
  | cons j js ih =>
    rw [List.foldl_cons]
    have e : pre ++ ['\t'] ++ fmt (data i j) ++ ['\t']
        = (pre ++ '\t' :: fmt (data i j)) ++ ['\t'] := by simp
    rw [e, ih]
    simp [rowText]

omit [LinearOrderedField α] in
theorem writeData_rows {r c : Nat} (fmt : α → List Char) (data : Matrix (Fin r) (Fin c) α)
    (is : List (Fin r)) (pre : List Char) :
    is.foldl
        (fun out i => (List.finRange c).foldl (fun out j => out ++ fmt (data i j) ++ ['\t']) out)
        (pre ++ ['\t'])
      = pre ++ rowsText fmt data is ++ ['\t'] := by
  induction is generalizing pre with
  | nil => simp [rowsText]
  | cons i is ih =>
    rw [List.foldl_cons, writeData_row, ih]
    simp [rowsText]

omit [LinearOrderedField α] in
theorem writeData_eq {r c : Nat} (fmt : α → List Char) (data : Matrix (Fin r) (Fin c) α)
    (id outfile : List Char) :
    writeData fmt data id outfile
      = outfile ++ (id ++ rowsText fmt data (List.finRange r) ++ ['\t', '\r']) ++ ['\n'] := by
  unfold writeData
  simp only []
  rw [writeData_rows]
  simp
theorem getlines_append_newline (body rest : List Char) (hbody : ∀ ch ∈ body, ch ≠ '\n') :
    getlines (body ++ '\n' :: rest) = body :: getlines rest := by
  induction body with
  | nil => simp [getlines]
  | cons ch cs ih =>
    have hch : ch ≠ '\n' := hbody ch (by simp)
    have ih' := ih (fun x hx => hbody x (by simp [hx]))
    rw [List.cons_append, getlines, if_neg hch, ih']

omit [LinearOrderedField α] in
theorem rowText_no_newline {r c : Nat} (fmt : α → List Char) (data : Matrix (Fin r) (Fin c) α)
    (hdata : ∀ i j, ∀ ch ∈ fmt (data i j), isSpace ch = false) (i : Fin r) (js : List (Fin c)) :
    ∀ ch ∈ rowText fmt data i js, ch ≠ '\n' := by
  induction js with
  | nil => simp [rowText]
  | cons j js ih =>
    intro ch hch
    have hch' : ch = '\t' ∨ ch ∈ fmt (data i j) ∨ ch ∈ rowText fmt data i js := by
      simpa [rowText] using hch
    rcases hch' with rfl | h | h
    · decide
    · intro e
      have := hdata i j ch h
      rw [e] at this
      exact absurd this (by decide)
    · exact ih ch h

omit [LinearOrderedField α] in
theorem rowsText_no_newline {r c : Nat} (fmt : α → List Char) (data : Matrix (Fin r) (Fin c) α)
    (hdata : ∀ i j, ∀ ch ∈ fmt (data i j), isSpace ch = false) (is : List (Fin r)) :
    ∀ ch ∈ rowsText fmt data is, ch ≠ '\n' := by
  induction is with
  | nil => simp [rowsText]
  | cons i is ih =>
    intro ch hch
    have hch' : ch ∈ rowText fmt data i (List.finRange c) ∨ ch ∈ rowsText fmt data is := by
      simpa [rowsText] using hch
    rcases hch' with h | h
    · exact rowText_no_newline fmt data hdata i _ ch h
    · exact ih ch h

theorem readWord_id (id rest prev : List Char) (hne : id ≠ [])
    (hid : ∀ ch ∈ id, isSpace ch = false) :
    readWord { buf := id ++ '\t' :: rest, fail := false } prev
      = (id, { buf := '\t' :: rest, fail := false }) := by
  obtain ⟨c, cs, rfl⟩ := List.exists_cons_of_ne_nil hne
  have hc : isSpace c = false := hid c (by simp)
  have htake : ∀ l : List Char, (∀ ch ∈ l, isSpace ch = false) →
      List.takeWhile (fun ch => !isSpace ch) (l ++ '\t' :: rest) = l ∧
      List.dropWhile (fun ch => !isSpace ch) (l ++ '\t' :: rest) = '\t' :: rest := by
    intro l hl
    induction l with
    | nil => exact ⟨by rw [List.nil_append, List.takeWhile_cons_of_neg (by decide)],
        by rw [List.nil_append, List.dropWhile_cons_of_neg (by decide)]⟩
    | cons x xs ih =>
      have hx : isSpace x = false := hl x (by simp)
      obtain ⟨h1, h2⟩ := ih (fun ch hch => hl ch (by simp [hch]))
      exact ⟨by rw [List.cons_append, List.takeWhile_cons_of_pos (by simp [hx]), h1],
        by rw [List.cons_append, List.dropWhile_cons_of_pos (by simp [hx]), h2]⟩
  obtain ⟨h1, h2⟩ := htake (c :: cs) hid
  unfold readWord
  have hdrop : List.dropWhile isSpace (c :: cs ++ '\t' :: rest) = c :: cs ++ '\t' :: rest := by
    rw [List.cons_append, List.dropWhile_cons_of_neg (by simp [hc])]
  simp only [hdrop, h1, h2, Bool.false_eq_true, if_false]
  simp
omit [LinearOrderedField α] in
theorem line_eq {r c : Nat} (fmt : α → List Char) (data : Matrix (Fin r) (Fin c) α)
    (id : List Char) :
    ∃ rest, id ++ rowsText fmt data (List.finRange r) ++ ['\t', '\r'] = id ++ '\t' :: rest ∧
      rowsText fmt data (List.finRange r) ++ '\t' :: ['\r'] = '\t' :: rest := by
  obtain ⟨rest, hrest⟩ := rowsText_append_tab fmt data (List.finRange r) ['\r']
  exact ⟨rest, by rw [List.append_assoc, hrest], hrest⟩

omit [LinearOrderedField α] in
theorem line_no_newline {r c : Nat} (fmt : α → List Char) (data : Matrix (Fin r) (Fin c) α)
    (hdata : ∀ i j, ∀ ch ∈ fmt (data i j), isSpace ch = false) (id : List Char)
    (hid : ∀ ch ∈ id, ch ≠ '\n') :
    ∀ ch ∈ id ++ rowsText fmt data (List.finRange r) ++ ['\t', '\r'], ch ≠ '\n' := by
  intro ch hch
  rcases List.mem_append.mp hch with h | h
  · rcases List.mem_append.mp h with h | h
    · exact hid ch h
    · exact rowsText_no_newline fmt data hdata _ ch h
  · have : ch = '\t' ∨ ch = '\r' := by simpa using h
    rcases this with rfl | rfl <;> decide

theorem loadLine_Wa (fmt : α → List Char) (parse : List Char → Option (α × List Char))
    (L1 : LSTM α H V) (M : Matrix (Fin H) (Fin V) α)
    (hM : ∀ i j, ReadsBack fmt parse (M i j)) (prev : List Char) :
    loadLine parse (L1, prev) ("Wa".toList ++ rowsText fmt M (List.finRange H) ++ ['\t', '\r'])
      = ({ L1 with m_Wa := M }, "Wa".toList) := by
  obtain ⟨rest, hline, hrest⟩ := line_eq fmt M "Wa".toList
  have hw := readWord_id "Wa".toList rest prev (by decide) (by decide)
  rw [hline]
  unfold loadLine
  simp +decide only [hw, if_true, if_false]
  rw [← hrest, loadData_rowsText fmt parse M hM]

theorem loadLine_Wi (fmt : α → List Char) (parse : List Char → Option (α × List Char))
    (L1 : LSTM α H V) (M : Matrix (Fin H) (Fin V) α)
    (hM : ∀ i j, ReadsBack fmt parse (M i j)) (prev : List Char) :
    loadLine parse (L1, prev) ("Wi".toList ++ rowsText fmt M (List.finRange H) ++ ['\t', '\r'])
      = ({ L1 with m_Wi := M }, "Wi".toList) := by
  obtain ⟨rest, hline, hrest⟩ := line_eq fmt M "Wi".toList
  have hw := readWord_id "Wi".toList rest prev (by decide) (by decide)
  rw [hline]
  unfold loadLine
  simp +decide only [hw, if_true, if_false]
  rw [← hrest, loadData_rowsText fmt parse M hM]

theorem loadLine_Wf (fmt : α → List Char) (parse : List Char → Option (α × List Char))
    (L1 : LSTM α H V) (M : Matrix (Fin H) (Fin V) α)
    (hM : ∀ i j, ReadsBack fmt parse (M i j)) (prev : List Char) :
    loadLine parse (L1, prev) ("Wf".toList ++ rowsText fmt M (List.finRange H) ++ ['\t', '\r'])
      = ({ L1 with m_Wf := M }, "Wf".toList) := by
  obtain ⟨rest, hline, hrest⟩ := line_eq fmt M "Wf".toList
  have hw := readWord_id "Wf".toList rest prev (by decide) (by decide)
  rw [hline]
  unfold loadLine
  simp +decide only [hw, if_true, if_false]
  rw [← hrest, loadData_rowsText fmt parse M hM]

theorem loadLine_Wo (fmt : α → List Char) (parse : List Char → Option (α × List Char))
    (L1 : LSTM α H V) (M : Matrix (Fin H) (Fin V) α)
    (hM : ∀ i j, ReadsBack fmt parse (M i j)) (prev : List Char) :
    loadLine parse (L1, prev) ("Wo".toList ++ rowsText fmt M (List.finRange H) ++ ['\t', '\r'])
      = ({ L1 with m_Wo := M }, "Wo".toList) := by
  obtain ⟨rest, hline, hrest⟩ := line_eq fmt M "Wo".toList
  have hw := readWord_id "Wo".toList rest prev (by decide) (by decide)
  rw [hline]
  unfold loadLine
  simp +decide only [hw, if_true, if_false]
  rw [← hrest, loadData_rowsText fmt parse M hM]

theorem loadLine_Ra (fmt : α → List Char) (parse : List Char → Option (α × List Char))
    (L1 : LSTM α H V) (M : Matrix (Fin H) (Fin H) α)
    (hM : ∀ i j, ReadsBack fmt parse (M i j)) (prev : List Char) :
    loadLine parse (L1, prev) ("Ra".toList ++ rowsText fmt M (List.finRange H) ++ ['\t', '\r'])
      = ({ L1 with m_Ra := M }, "Ra".toList) := by
  obtain ⟨rest, hline, hrest⟩ := line_eq fmt M "Ra".toList
  have hw := readWord_id "Ra".toList rest prev (by decide) (by decide)
  rw [hline]
  unfold loadLine
  simp +decide only [hw, if_true, if_false]
  rw [← hrest, loadData_rowsText fmt parse M hM]

theorem loadLine_Ri (fmt : α → List Char) (parse : List Char → Option (α × List Char))
    (L1 : LSTM α H V) (M : Matrix (Fin H) (Fin H) α)
    (hM : ∀ i j, ReadsBack fmt parse (M i j)) (prev : List Char) :
    loadLine parse (L1, prev) ("Ri".toList ++ rowsText fmt M (List.finRange H) ++ ['\t', '\r'])
      = ({ L1 with m_Ri := M }, "Ri".toList) := by
  obtain ⟨rest, hline, hrest⟩ := line_eq fmt M "Ri".toList
  have hw := readWord_id "Ri".toList rest prev (by decide) (by decide)
  rw [hline]
  unfold loadLine
  simp +decide only [hw, if_true, if_false]
  rw [← hrest, loadData_rowsText fmt parse M hM]

theorem loadLine_Rf (fmt : α → List Char) (parse : List Char → Option (α × List Char))
    (L1 : LSTM α H V) (M : Matrix (Fin H) (Fin H) α)
    (hM : ∀ i j, ReadsBack fmt parse (M i j)) (prev : List Char) :
    loadLine parse (L1, prev) ("Rf".toList ++ rowsText fmt M (List.finRange H) ++ ['\t', '\r'])
      = ({ L1 with m_Rf := M }, "Rf".toList) := by
  obtain ⟨rest, hline, hrest⟩ := line_eq fmt M "Rf".toList
  have hw := readWord_id "Rf".toList rest prev (by decide) (by decide)
  rw [hline]
  unfold loadLine
  simp +decide only [hw, if_true, if_false]
  rw [← hrest, loadData_rowsText fmt parse M hM]

theorem loadLine_Ro (fmt : α → List Char) (parse : List Char → Option (α × List Char))
    (L1 : LSTM α H V) (M : Matrix (Fin H) (Fin H) α)
    (hM : ∀ i j, ReadsBack fmt parse (M i j)) (prev : List Char) :
    loadLine parse (L1, prev) ("Ro".toList ++ rowsText fmt M (List.finRange H) ++ ['\t', '\r'])
      = ({ L1 with m_Ro := M }, "Ro".toList) := by
  obtain ⟨rest, hline, hrest⟩ := line_eq fmt M "Ro".toList
  have hw := readWord_id "Ro".toList rest prev (by decide) (by decide)
  rw [hline]
  unfold loadLine
  simp +decide only [hw, if_true, if_false]
  rw [← hrest, loadData_rowsText fmt parse M hM]

theorem loadLine_ba (fmt : α → List Char) (parse : List Char → Option (α × List Char))
    (L1 : LSTM α H V) (b : Fin H → α) (hb : ∀ i, ReadsBack fmt parse (b i))
    (prev : List Char) :
    loadLine parse (L1, prev)
        ("ba".toList ++ rowsText fmt (asColumn b) (List.finRange H) ++ ['\t', '\r'])
      = ({ L1 with m_ba := b }, "ba".toList) := by
  obtain ⟨rest, hline, hrest⟩ := line_eq fmt (asColumn b) "ba".toList
  have hw := readWord_id "ba".toList rest prev (by decide) (by decide)
  rw [hline]
  unfold loadLine
  simp +decide only [hw, if_true, if_false]
  rw [← hrest, loadData_rowsText fmt parse (asColumn b) (fun i _ => hb i)]
  rfl

theorem loadLine_bi (fmt : α → List Char) (parse : List Char → Option (α × List Char))
    (L1 : LSTM α H V) (b : Fin H → α) (hb : ∀ i, ReadsBack fmt parse (b i))
    (prev : List Char) :
    loadLine parse (L1, prev)
        ("bi".toList ++ rowsText fmt (asColumn b) (List.finRange H) ++ ['\t', '\r'])
      = ({ L1 with m_bi := b }, "bi".toList) := by
  obtain ⟨rest, hline, hrest⟩ := line_eq fmt (asColumn b) "bi".toList
  have hw := readWord_id "bi".toList rest prev (by decide) (by decide)
  rw [hline]
  unfold loadLine
  simp +decide only [hw, if_true, if_false]
  rw [← hrest, loadData_rowsText fmt parse (asColumn b) (fun i _ => hb i)]
  rfl

theorem loadLine_bf (fmt : α → List Char) (parse : List Char → Option (α × List Char))
    (L1 : LSTM α H V) (b : Fin H → α) (hb : ∀ i, ReadsBack fmt parse (b i))
    (prev : List Char) :
    loadLine parse (L1, prev)
        ("bf".toList ++ rowsText fmt (asColumn b) (List.finRange H) ++ ['\t', '\r'])
      = ({ L1 with m_bf := b }, "bf".toList) := by
  obtain ⟨rest, hline, hrest⟩ := line_eq fmt (asColumn b) "bf".toList
  have hw := readWord_id "bf".toList rest prev (by decide) (by decide)
  rw [hline]
  unfold loadLine
  simp +decide only [hw, if_true, if_false]
  rw [← hrest, loadData_rowsText fmt parse (asColumn b) (fun i _ => hb i)]
  rfl

theorem loadLine_bo (fmt : α → List Char) (parse : List Char → Option (α × List Char))
    (L1 : LSTM α H V) (b : Fin H → α) (hb : ∀ i, ReadsBack fmt parse (b i))
    (prev : List Char) :
    loadLine parse (L1, prev)
        ("bo".toList ++ rowsText fmt (asColumn b) (List.finRange H) ++ ['\t', '\r'])
      = ({ L1 with m_bo := b }, "bo".toList) := by
  obtain ⟨rest, hline, hrest⟩ := line_eq fmt (asColumn b) "bo".toList
  have hw := readWord_id "bo".toList rest prev (by decide) (by decide)
  rw [hline]
  unfold loadLine
  simp +decide only [hw, if_true, if_false]
  rw [← hrest, loadData_rowsText fmt parse (asColumn b) (fun i _ => hb i)]
  rfl

theorem loadLine_Wy (fmt : α → List Char) (parse : List Char → Option (α × List Char))
    (L1 : LSTM α H V) (M : Matrix (Fin V) (Fin H) α)
    (hM : ∀ i j, ReadsBack fmt parse (M i j)) (prev : List Char) :
    loadLine parse (L1, prev) ("Wy".toList ++ rowsText fmt M (List.finRange V) ++ ['\t', '\r'])
      = ({ L1 with m_Wy := M }, "Wy".toList) := by
  obtain ⟨rest, hline, hrest⟩ := line_eq fmt M "Wy".toList
  have hw := readWord_id "Wy".toList rest prev (by decide) (by decide)
  rw [hline]
  unfold loadLine
  simp +decide only [hw, if_true, if_false]
  rw [← hrest, loadData_rowsText fmt parse M hM]

theorem loadLine_by (fmt : α → List Char) (parse : List Char → Option (α × List Char))
    (L1 : LSTM α H V) (b : Fin V → α) (hb : ∀ i, ReadsBack fmt parse (b i))
    (prev : List Char) :
    loadLine parse (L1, prev)
        ("by".toList ++ rowsText fmt (asColumn b) (List.finRange V) ++ ['\t', '\r'])
      = ({ L1 with m_by := b }, "by".toList) := by
  obtain ⟨rest, hline, hrest⟩ := line_eq fmt (asColumn b) "by".toList
  have hw := readWord_id "by".toList rest prev (by decide) (by decide)
  rw [hline]
  unfold loadLine
  simp +decide only [hw, if_true, if_false]
  rw [← hrest, loadData_rowsText fmt parse (asColumn b) (fun i _ => hb i)]
  rfl

omit [LinearOrderedField α] in
theorem saveState_text (fmt : α → List Char) (L : LSTM α H V) :
    saveState fmt L true = some
      (("Wa".toList ++ rowsText fmt L.m_Wa (List.finRange H) ++ ['\t', '\r']) ++ '\n' ::
      (("Wi".toList ++ rowsText fmt L.m_Wi (List.finRange H) ++ ['\t', '\r']) ++ '\n' ::
      (("Wf".toList ++ rowsText fmt L.m_Wf (List.finRange H) ++ ['\t', '\r']) ++ '\n' ::
      (("Wo".toList ++ rowsText fmt L.m_Wo (List.finRange H) ++ ['\t', '\r']) ++ '\n' ::
      (("Ra".toList ++ rowsText fmt L.m_Ra (List.finRange H) ++ ['\t', '\r']) ++ '\n' ::
      (("Ri".toList ++ rowsText fmt L.m_Ri (List.finRange H) ++ ['\t', '\r']) ++ '\n' ::
      (("Rf".toList ++ rowsText fmt L.m_Rf (List.finRange H) ++ ['\t', '\r']) ++ '\n' ::
      (("Ro".toList ++ rowsText fmt L.m_Ro (List.finRange H) ++ ['\t', '\r']) ++ '\n' ::
      (("ba".toList ++ rowsText fmt (asColumn L.m_ba) (List.finRange H) ++ ['\t', '\r']) ++ '\n' ::
      (("bi".toList ++ rowsText fmt (asColumn L.m_bi) (List.finRange H) ++ ['\t', '\r']) ++ '\n' ::
      (("bf".toList ++ rowsText fmt (asColumn L.m_bf) (List.finRange H) ++ ['\t', '\r']) ++ '\n' ::
      (("bo".toList ++ rowsText fmt (asColumn L.m_bo) (List.finRange H) ++ ['\t', '\r']) ++ '\n' ::
      (("Wy".toList ++ rowsText fmt L.m_Wy (List.finRange V) ++ ['\t', '\r']) ++ '\n' ::
      (("by".toList ++ rowsText fmt (asColumn L.m_by) (List.finRange V) ++ ['\t', '\r']) ++ '\n' :: [])))))))))))))) := by
  unfold saveState
  simp only [if_true, writeData_eq]
  simp


/-- C9: when every value held in the fourteen tensors of `L` reads back as the
same value, the text `saveState` writes for `L`, loaded with `loadState` into
any object `L0` of the same shapes, gives an object whose fourteen tensors
are those of `L`, entry for entry. -/
theorem saveState_loadState_roundtrip (fmt : α → List Char)
    (parse : List Char → Option (α × List Char)) (L L0 : LSTM α H V)
    (hL : ForallParams (ReadsBack fmt parse) L) :
    ∃ text L', saveState fmt L true = some text ∧
      loadState parse L0 (some text) = some L' ∧
      L'.m_Wa = L.m_Wa ∧
      L'.m_Wi = L.m_Wi ∧
      L'.m_Wf = L.m_Wf ∧
      L'.m_Wo = L.m_Wo ∧
      L'.m_Ra = L.m_Ra ∧
      L'.m_Ri = L.m_Ri ∧
      L'.m_Rf = L.m_Rf ∧
      L'.m_Ro = L.m_Ro ∧
      L'.m_ba = L.m_ba ∧
      L'.m_bi = L.m_bi ∧
      L'.m_bf = L.m_bf ∧
      L'.m_bo = L.m_bo ∧
      L'.m_Wy = L.m_Wy ∧
      L'.m_by = L.m_by := by
  obtain ⟨hWa, hWi, hWf, hWo, hRa, hRi, hRf, hRo, hba, hbi, hbf, hbo, hWy, hby⟩ := hL
  refine ⟨_, _, saveState_text fmt L, rfl, ?_⟩
  beta_reduce
  rw [getlines_append_newline _ _ (line_no_newline fmt L.m_Wa
    (fun i j => (hWa i j).2.1) _ (by decide))]
  rw [getlines_append_newline _ _ (line_no_newline fmt L.m_Wi
    (fun i j => (hWi i j).2.1) _ (by decide))]
  rw [getlines_append_newline _ _ (line_no_newline fmt L.m_Wf
    (fun i j => (hWf i j).2.1) _ (by decide))]
  rw [getlines_append_newline _ _ (line_no_newline fmt L.m_Wo
    (fun i j => (hWo i j).2.1) _ (by decide))]
  rw [getlines_append_newline _ _ (line_no_newline fmt L.m_Ra
    (fun i j => (hRa i j).2.1) _ (by decide))]
  rw [getlines_append_newline _ _ (line_no_newline fmt L.m_Ri
    (fun i j => (hRi i j).2.1) _ (by decide))]
  rw [getlines_append_newline _ _ (line_no_newline fmt L.m_Rf
    (fun i j => (hRf i j).2.1) _ (by decide))]
  rw [getlines_append_newline _ _ (line_no_newline fmt L.m_Ro
    (fun i j => (hRo i j).2.1) _ (by decide))]
  rw [getlines_append_newline _ _ (line_no_newline fmt (asColumn L.m_ba)
    (fun i _ => (hba i).2.1) _ (by decide))]
  rw [getlines_append_newline _ _ (line_no_newline fmt (asColumn L.m_bi)
    (fun i _ => (hbi i).2.1) _ (by decide))]
  rw [getlines_append_newline _ _ (line_no_newline fmt (asColumn L.m_bf)
    (fun i _ => (hbf i).2.1) _ (by decide))]
  rw [getlines_append_newline _ _ (line_no_newline fmt (asColumn L.m_bo)
    (fun i _ => (hbo i).2.1) _ (by decide))]
  rw [getlines_append_newline _ _ (line_no_newline fmt L.m_Wy
    (fun i j => (hWy i j).2.1) _ (by decide))]
  rw [getlines_append_newline _ _ (line_no_newline fmt (asColumn L.m_by)
    (fun i _ => (hby i).2.1) _ (by decide))]
  simp only [getlines, List.foldl_cons, List.foldl_nil, and_self,
    loadLine_Wa fmt parse _ _ hWa,
    loadLine_Wi fmt parse _ _ hWi,
    loadLine_Wf fmt parse _ _ hWf,
    loadLine_Wo fmt parse _ _ hWo,
    loadLine_Ra fmt parse _ _ hRa,
    loadLine_Ri fmt parse _ _ hRi,
    loadLine_Rf fmt parse _ _ hRf,
    loadLine_Ro fmt parse _ _ hRo,
    loadLine_ba fmt parse _ _ hba,
    loadLine_bi fmt parse _ _ hbi,
    loadLine_bf fmt parse _ _ hbf,
    loadLine_bo fmt parse _ _ hbo,
    loadLine_Wy fmt parse _ _ hWy,
    loadLine_by fmt parse _ _ hby]
theorem sample_readsBack (x : ℚ) (hx : x = 0 ∨ x = 1) : ReadsBack sampleFmt sampleParse x := by
  rcases hx with rfl | rfl
  · refine ⟨by simp [sampleFmt], ?_, ?_⟩
    · intro c hc
      have : c = '0' := by simpa [sampleFmt] using hc
      subst this
      decide
    · intro rest
      simp [sampleFmt, sampleParse]
  · refine ⟨by simp [sampleFmt], ?_, ?_⟩
    · intro c hc
      have : c = '1' := by simpa [sampleFmt] using hc
      subst this
      decide
    · intro rest
      simp [sampleFmt, sampleParse]

theorem sampleLSTM_readsBack : ForallParams (ReadsBack sampleFmt sampleParse) (sampleLSTM ℚ) := by
  refine ⟨?_, ?_, ?_, ?_, ?_, ?_, ?_, ?_, ?_, ?_, ?_, ?_, ?_, ?_⟩
  all_goals first
    | (intro i j; apply sample_readsBack; fin_cases i <;> fin_cases j <;> simp [sampleLSTM])
    | (intro i; apply sample_readsBack; fin_cases i <;> simp [sampleLSTM])

/-- C9 at the sample object, written with `sampleFmt` and read with
`sampleParse` into an object whose tensors `Wa` and `by` differ. -/
theorem saveState_loadState_roundtrip_witness :
    ForallParams (ReadsBack sampleFmt sampleParse) (sampleLSTM ℚ) ∧
    ∃ text L', saveState sampleFmt (sampleLSTM ℚ) true = some text ∧
      loadState sampleParse { sampleLSTM ℚ with m_Wa := 0, m_by := ![1, 1] } (some text)
        = some L' ∧
      L'.m_Wa = (sampleLSTM ℚ).m_Wa ∧ L'.m_by = (sampleLSTM ℚ).m_by :=
  let ⟨text, L', h1, h2, h3, _, _, _, _, _, _, _, _, _, _, _, _, h4⟩ :=
    saveState_loadState_roundtrip sampleFmt sampleParse (sampleLSTM ℚ)
      { sampleLSTM ℚ with m_Wa := 0, m_by := ![1, 1] } sampleLSTM_readsBack
  ⟨sampleLSTM_readsBack, text, L', h1, h2, h3, h4⟩

/-- The line `writeData` produces for `Wa` of the sample object. -/
theorem writeData_sample :
    writeData sampleFmt (sampleLSTM ℚ).m_Wa "Wa".toList [] = "Wa\t1\t0\t\r\n".toList := by
  decide

/-! ## Caches whose sequences differ in length -/

theorem backLoop_congr {σ : Type} (body body' : Nat → σ → Option σ) (w : Int) (k : Nat)
    (h : ∀ t, t < k → ∀ s, body t s = body' t s) (s : σ) :
    backLoop body w k s = backLoop body' w k s := by
  induction k generalizing s with
  | zero => rfl
  | succ k ih =>
    rw [backLoop, backLoop, h k (Nat.lt_succ_self k) s]
    have ih' := ih (fun t ht => h t (Nat.lt_succ_of_lt ht))
    split_ifs
    · congr 1
      funext s'
      exact ih' s'
    · rfl

omit [LinearOrderedField α] in
theorem getElem?_take_of_lt {β : Type} (l : List β) (n t : Nat) (h : t < n) :
    (l.take n)[t]? = l[t]? := by
  rw [List.getElem?_take, if_pos h]

theorem backStep_truncate (tanh : α → α) (L : LSTM α H V) (C : Cache α H V) (t : Nat)
    (ht : t < C.input_cache.length) (s : BackState α H V) :
    backStep tanh L C.truncate t s = backStep tanh L C t s := by
  have e : ∀ {β : Type} (l : List β), (l.take C.input_cache.length)[t]? = l[t]? :=
    fun l => getElem?_take_of_lt l _ t ht
  have e1 : ∀ {β : Type} (l : List β), (l.take C.input_cache.length)[t - 1]? = l[t - 1]? :=
    fun l => getElem?_take_of_lt l _ (t - 1) (by omega)
  by_cases hn : t + 1 < C.input_cache.length
  · have e2 : ∀ {β : Type} (l : List β),
        (l.take C.input_cache.length)[t + 1]? = l[t + 1]? :=
      fun l => getElem?_take_of_lt l _ (t + 1) hn
    simp only [backStep, Cache.truncate, e, e1, e2]
  · simp only [backStep, Cache.truncate, e, e1, if_neg hn]

theorem backpropogate_truncate (tanh : α → α) (L : LSTM α H V) (C : Cache α H V)
    (lookback : Int) :
    backpropogate tanh L C.truncate lookback = backpropogate tanh L C lookback := by
  unfold backpropogate backGradients
  have hlen : C.truncate.input_cache.length = C.input_cache.length := rfl
  simp only [hlen]
  rw [backLoop_congr (backStep tanh L C.truncate) (backStep tanh L C) _ _
    (fun t ht s => backStep_truncate tanh L C t ht s)]

omit [LinearOrderedField α] in
theorem Cache.Readable.truncate_wellFormed {C : Cache α H V} {vocabs : List (Char × Nat)}
    (h : C.Readable vocabs) : C.truncate.WellFormed vocabs := by
  obtain ⟨h1, h2, h3, h4, h5, h6, h7, h8, h9⟩ := h
  refine ⟨⟨?_, ?_, ?_, ?_, ?_, ?_, ?_, ?_⟩, h9⟩ <;>
    simp only [Cache.truncate, List.length_take] <;> omega
theorem sampleCacheMismatch_readable :
    (sampleCacheMismatch α).Readable (sampleLSTM α).m_vocabs := by
  have h12 : (1 : Nat) ≤ 2 := by decide
  refine ⟨h12, h12, h12, h12, h12, h12, h12, h12, ?_⟩
  intro c hc
  have : c = 'b' := by simpa [sampleCacheMismatch, sampleCache] using hc
  subst this
  simp only [sampleLSTM]
  decide

/-- C10 does not hold as stated: in `sampleCacheMismatch` the sequence
`input_cache` has one entry and the other eight have two, yet `backpropogate`
returns an object, and the output bias of that object is `(-1/2, 1/2)`
instead of the `(0, 0)` it was. -/
theorem backpropogate_accepts_mismatched_cache :
    ¬ (sampleCacheMismatch ℝ).SameLengths ∧
    ∃ L', backpropogate Real.tanh (sampleLSTM ℝ) (sampleCacheMismatch ℝ) 1 = some L' ∧
      L'.m_by = ![-1 / 2, 1 / 2] ∧ L'.m_by ≠ (sampleLSTM ℝ).m_by := by
  constructor
  · intro h
    exact absurd h.1 (by decide)
  · obtain ⟨s0, hs0, hrel⟩ := backStep_rel Real.tanh (sampleLSTM ℝ) (sampleCacheMismatch ℝ) 0
      (backInit (sampleLSTM ℝ)) (by decide) sampleCacheMismatch_readable (fun _ => rfl)
    have hG : backGradients Real.tanh (sampleLSTM ℝ) (sampleCacheMismatch ℝ) 1 = some s0 := by
      show backLoop _ (backWindow 1 1) 1 _ = some s0
      have hw : backWindow 1 1 = 0 := by decide
      rw [hw, backLoop, if_pos (by decide), hs0]
      rfl
    have hby : (backUpdate (sampleLSTM ℝ) (backClip s0)).m_by = ![-1 / 2, 1 / 2] := by
      have hidx : (mapIndex (backInit (sampleLSTM ℝ)).m_vocabs
          ((sampleCacheMismatch ℝ).label_cache.getD 0 (Char.ofNat 0)) 0).1 = 1 := by
        simp only [backInit, sampleLSTM, sampleCacheMismatch, sampleCache]
        decide
      have hd : ∀ k, s0.d_by k = if (k : Nat) = 1 then (1 / 2 : ℝ) - 1 else 1 / 2 := by
        intro k
        rw [hrel.d_by, Pi.add_apply, hrel.d_y_t, hidx]
        fin_cases k <;> simp [backInit, sampleCacheMismatch, sampleCache]
      ext k
      show (sampleLSTM ℝ).m_by k - ((sampleLSTM ℝ).m_rate • clipGradientsArray s0.d_by) k = _
      rw [Pi.smul_apply, clipGradientsArray_apply, hd]
      fin_cases k
      · simp only [sampleLSTM, clipValue]
        norm_num
      · simp only [sampleLSTM, clipValue]
        norm_num
    refine ⟨backUpdate (sampleLSTM ℝ) (backClip s0), ?_, hby, ?_⟩
    · unfold backpropogate
      rw [hG]
      rfl
    · rw [hby]
      intro h
      have := congrFun h 0
      simp [sampleLSTM] at this

/-- C10 as amended: `backpropogate` does not compare the lengths of the nine
sequences.  The number of timesteps is the length of `input_cache`; whenever
every other sequence has at least that many entries and the labels of these
timesteps index below `V`, the call returns an object, and it is the object
the call returns for the well-formed cache made of the first `T` entries of
each sequence.  Entries beyond are never read. -/
theorem backpropogate_reads_only_first_timesteps (tanh : α → α) (L : LSTM α H V)
    (C : Cache α H V) (lookback : Int) (hR : C.Readable L.m_vocabs) :
    C.truncate.WellFormed L.m_vocabs ∧
    backpropogate tanh L C lookback = backpropogate tanh L C.truncate lookback ∧
    ∃ G, backGradients tanh L C lookback = some G ∧
      backpropogate tanh L C lookback = some (backUpdate L (backClip G)) := by
  obtain ⟨G, hG⟩ := backGradients_some tanh L C hR lookback
  refine ⟨hR.truncate_wellFormed, (backpropogate_truncate tanh L C lookback).symm, G, hG, ?_⟩
  unfold backpropogate
  rw [hG]
  rfl

/-- The amended C10 at the malformed sample cache. -/
theorem backpropogate_reads_only_first_timesteps_witness :
    (sampleCacheMismatch ℝ).Readable (sampleLSTM ℝ).m_vocabs ∧
    ¬ (sampleCacheMismatch ℝ).SameLengths ∧
    (sampleCacheMismatch ℝ).truncate.WellFormed (sampleLSTM ℝ).m_vocabs ∧
    backpropogate Real.tanh (sampleLSTM ℝ) (sampleCacheMismatch ℝ) 1
      = backpropogate Real.tanh (sampleLSTM ℝ) (sampleCacheMismatch ℝ).truncate 1 :=
  have h := backpropogate_reads_only_first_timesteps Real.tanh (sampleLSTM ℝ)
    (sampleCacheMismatch ℝ) 1 sampleCacheMismatch_readable
  ⟨sampleCacheMismatch_readable, fun hs => absurd hs.1 (by decide), h.1, h.2.1⟩

/-! ## Vocabulary construction -/

theorem lookup_zip_of_not_mem {κ ν : Type} [BEq κ] [LawfulBEq κ] (D : List κ) (l : List ν)
    (c : κ) (hc : c ∉ D) : (D.zip l).lookup c = none := by
  induction D generalizing l with
  | nil => simp
  | cons d D ih =>
    cases l with
    | nil => simp
    | cons x l =>
      have hne : (c == d) = false := by
        simpa using fun e : c = d => hc (by simp [e])
      rw [List.zip_cons_cons, List.lookup_cons, hne]
      exact ih l (fun h => hc (List.mem_cons_of_mem _ h))

theorem lookup_zip_range' (D : List Char) (s : Nat) (c : Char) (hc : c ∈ D) :
    (D.zip (List.range' s D.length)).lookup c = some (s + D.indexOf c) := by
  induction D generalizing s with
  | nil => simp at hc
  | cons d D ih =>
    rw [List.length_cons, List.range'_succ, List.zip_cons_cons, List.lookup_cons]
    by_cases h : c = d
    · subst h
      simp
    · have hne : (c == d) = false := by simpa using h
      have hmem : c ∈ D := by
        rcases List.mem_cons.mp hc with h' | h'
        · exact absurd h' h
        · exact h'
      rw [hne, ih (s + 1) hmem, List.indexOf_cons_ne _ (fun e => h e.symm)]
      simp only [Nat.succ_eq_add_one]
      congr 1
      omega

theorem lookup_range'_zip (D : List Char) (s i : Nat) :
    ((List.range' s D.length).zip D).lookup i = if s ≤ i then D[i - s]? else none := by
  induction D generalizing s with
  | nil => simp
  | cons d D ih =>
    rw [List.length_cons, List.range'_succ, List.zip_cons_cons, List.lookup_cons]
    by_cases h : i = s
    · subst h
      simp
    · have hne : (i == s) = false := by simpa using h
      rw [hne, ih (s + 1)]
      by_cases h1 : s + 1 ≤ i
      · have h2 : s ≤ i := by omega
        have e : i - s = (i - (s + 1)) + 1 := by omega
        rw [if_pos h1, if_pos h2, e, List.getElem?_cons_succ]
      · have h2 : ¬ s ≤ i := by omega
        rw [if_neg h1, if_neg h2]
theorem fillVocabLoop_spec (text : List Char) (rest pre D : List Char)
    (htext : text = pre ++ rest) (hmem : ∀ c, c ∈ D ↔ c ∈ pre)
    (hord : D.Pairwise (fun a b => text.indexOf a < text.indexOf b)) :
    ∃ D' : List Char,
      fillVocabLoop rest (D.zip (List.range D.length), (List.range D.length).zip D, D.length)
        = (D'.zip (List.range D'.length), (List.range D'.length).zip D', D'.length) ∧
      (∀ c, c ∈ D' ↔ c ∈ text) ∧
      D'.Pairwise (fun a b => text.indexOf a < text.indexOf b) := by
  induction rest generalizing pre D with
  | nil =>
    refine ⟨D, rfl, ?_, hord⟩
    intro c
    rw [hmem, htext, List.append_nil]
  | cons c rest ih =>
    by_cases hc : c ∈ D
    · have hlook : ((D.zip (List.range D.length)).lookup c).isNone = false := by
        rw [List.range_eq_range', lookup_zip_range' D 0 c hc]
        rfl
      rw [fillVocabLoop, hlook]
      simp only [Bool.false_eq_true, if_false]
      refine ih (pre ++ [c]) D (by rw [htext]; simp) ?_ hord
      intro x
      rw [hmem, List.mem_append, List.mem_singleton]
      constructor
      · exact Or.inl
      · rintro (h | h)
        · exact h
        · rw [h]
          exact (hmem c).mp hc
    · have hlook : (D.zip (List.range D.length)).lookup c = none :=
        lookup_zip_of_not_mem D _ c hc
      have hlook2 : ((List.range D.length).zip D).lookup D.length = none := by
        rw [List.range_eq_range', lookup_range'_zip, if_pos (Nat.zero_le _)]
        simp
      have hv : mapAssign (D.zip (List.range D.length)) c D.length
          = (D ++ [c]).zip (List.range (D ++ [c]).length) := by
        unfold mapAssign
        rw [hlook, List.length_append, List.length_singleton, List.range_succ,
          List.zip_append (by simp)]
        rfl
      have hi : mapAssign ((List.range D.length).zip D) D.length c
          = (List.range (D ++ [c]).length).zip (D ++ [c]) := by
        unfold mapAssign
        rw [hlook2, List.length_append, List.length_singleton, List.range_succ,
          List.zip_append (by simp)]
        rfl
      rw [fillVocabLoop, hlook]
      simp only [Option.isNone_none, if_true]
      rw [hv, hi]
      have hlen : D.length + 1 = (D ++ [c]).length := by simp
      rw [hlen]
      have hcpre : c ∉ pre := fun h => hc ((hmem c).mpr h)
      refine ih (pre ++ [c]) (D ++ [c]) (by rw [htext]; simp) ?_ ?_
      · intro x
        simp only [List.mem_append, List.mem_singleton, hmem]
      · rw [List.pairwise_append]
        refine ⟨hord, List.pairwise_singleton _ _, ?_⟩
        intro a ha b hb
        rw [List.mem_singleton.mp hb]
        have hapre : a ∈ pre := (hmem a).mp ha
        rw [htext, List.indexOf_append_of_mem hapre, List.indexOf_append_of_not_mem hcpre,
          List.indexOf_cons_self]
        exact List.indexOf_lt_length.mpr hapre
/-- C11: started with empty maps, `fillVocabList` ends with the maps of a
list `D` of characters: `vocabs` pairs the `k`-th character of `D` with `k`,
`indices` pairs `k` with it.  `D` has no repetition and holds exactly the
characters of the text, so its length `V` is the number of distinct
characters, and both sizes are set to `V`.  Every character of the text has an
index below `V` in `vocabs`, and `indices` maps that index back; every index
below `V` belongs to a character of the text; no two characters share an
index; and one character has a smaller index than another exactly when its
first occurrence in the text comes first. -/
theorem fillVocabList_is_bijection_in_first_occurrence_order (text : List Char) :
    ∃ D : List Char,
      fillVocabList [] [] text
        = (D.zip (List.range D.length), (List.range D.length).zip D, D.length, D.length) ∧
      D.Nodup ∧ (∀ c, c ∈ D ↔ c ∈ text) ∧ D.length = text.toFinset.card ∧
      (∀ c ∈ text, ∃ i, i < D.length ∧
        (fillVocabList [] [] text).1.lookup c = some i ∧
        (fillVocabList [] [] text).2.1.lookup i = some c) ∧
      (∀ c, c ∉ text → (fillVocabList [] [] text).1.lookup c = none) ∧
      (∀ i, i < D.length → ∃ c ∈ text,
        (fillVocabList [] [] text).2.1.lookup i = some c ∧
        (fillVocabList [] [] text).1.lookup c = some i) ∧
      (∀ i, D.length ≤ i → (fillVocabList [] [] text).2.1.lookup i = none) ∧
      (∀ c c' i, (fillVocabList [] [] text).1.lookup c = some i →
        (fillVocabList [] [] text).1.lookup c' = some i → c = c') ∧
      (∀ c c' i i', (fillVocabList [] [] text).1.lookup c = some i →
        (fillVocabList [] [] text).1.lookup c' = some i' →
        (i < i' ↔ text.indexOf c < text.indexOf c')) := by
  obtain ⟨D, hD, hmem, hord⟩ :=
    fillVocabLoop_spec text text [] [] rfl (fun _ => Iff.rfl) List.Pairwise.nil
  have hnodup : D.Nodup := hord.imp (fun h e => by rw [e] at h; exact lt_irrefl _ h)
  have hfill : fillVocabList [] [] text
      = (D.zip (List.range D.length), (List.range D.length).zip D, D.length, D.length) := by
    unfold fillVocabList
    have h0 : fillVocabLoop text ([], [], 0)
        = (D.zip (List.range D.length), (List.range D.length).zip D, D.length) := hD
    simp only [h0, List.length_zip, List.length_range, min_self]
  have hv : ∀ c, c ∈ D → (D.zip (List.range D.length)).lookup c = some (D.indexOf c) := by
    intro c hc
    rw [List.range_eq_range', lookup_zip_range' D 0 c hc, Nat.zero_add]
  have hv' : ∀ c i, (D.zip (List.range D.length)).lookup c = some i →
      c ∈ D ∧ i = D.indexOf c := by
    intro c i h
    by_cases hc : c ∈ D
    · rw [hv c hc] at h
      exact ⟨hc, (Option.some.inj h).symm⟩
    · rw [lookup_zip_of_not_mem D _ c hc] at h
      exact absurd h (by simp)
  have hi : ∀ i, ((List.range D.length).zip D).lookup i = D[i]? := by
    intro i
    rw [List.range_eq_range', lookup_range'_zip, if_pos (Nat.zero_le _), Nat.sub_zero]
  refine ⟨D, hfill, hnodup, hmem, ?_, ?_, ?_, ?_, ?_, ?_, ?_⟩
  · rw [← List.toFinset_card_of_nodup hnodup]
    exact congrArg Finset.card (List.toFinset.ext hmem)
  · intro c hc
    have hcD : c ∈ D := (hmem c).mpr hc
    refine ⟨D.indexOf c, List.indexOf_lt_length.mpr hcD, ?_, ?_⟩
    · rw [hfill]
      exact hv c hcD
    · rw [hfill]
      show ((List.range D.length).zip D).lookup _ = _
      rw [hi]
      exact List.getElem?_indexOf hcD
  · intro c hc
    rw [hfill]
    exact lookup_zip_of_not_mem D _ c (fun h => hc ((hmem c).mp h))
  · intro i hlt
    have hcD : D[i] ∈ D := List.getElem_mem hlt
    refine ⟨D[i], (hmem _).mp hcD, ?_, ?_⟩
    · rw [hfill]
      show ((List.range D.length).zip D).lookup _ = _
      rw [hi, List.getElem?_eq_getElem hlt]
    · rw [hfill]
      show (D.zip (List.range D.length)).lookup _ = _
      rw [hv _ hcD, List.indexOf_getElem hnodup i hlt]
  · intro i hle
    rw [hfill]
    show ((List.range D.length).zip D).lookup _ = _
    rw [hi]
    exact List.getElem?_eq_none hle
  · intro c c' i h h'
    rw [hfill] at h h'
    obtain ⟨hc, e⟩ := hv' c i h
    obtain ⟨hc', e'⟩ := hv' c' i h'
    exact (List.indexOf_inj hc hc').mp (e ▸ e' ▸ rfl)
  · intro c c' i i' h h'
    rw [hfill] at h h'
    obtain ⟨hc, e⟩ := hv' c i h
    obtain ⟨hc', e'⟩ := hv' c' i' h'
    have hi_lt : i < D.length := e ▸ List.indexOf_lt_length.mpr hc
    have hi'_lt : i' < D.length := e' ▸ List.indexOf_lt_length.mpr hc'
    have hci : D[i] = c := by
      simp only [e]
      exact List.getElem_indexOf _
    have hci' : D[i'] = c' := by
      simp only [e']
      exact List.getElem_indexOf _
    have hpw := List.pairwise_iff_getElem.mp hord
    constructor
    · intro hlt
      have := hpw i i' hi_lt hi'_lt hlt
      rwa [hci, hci'] at this
    · intro hlt
      by_contra hnot
      rcases Nat.lt_or_ge i' i with h1 | h1
      · have := hpw i' i hi'_lt hi_lt h1
        rw [hci, hci'] at this
        exact absurd hlt (not_lt.mpr this.le)
      · have hii : i = i' := by omega
        have hcc : c = c' := by rw [← hci, ← hci']; simp only [hii]
        rw [hcc] at hlt
        exact lt_irrefl _ hlt

/-- The maps `fillVocabList` builds from the text `abca`. -/
theorem fillVocabList_sample :
    fillVocabList [] [] "abca".toList
      = ([('a', 0), ('b', 1), ('c', 2)], [(0, 'a'), (1, 'b'), (2, 'c')], 3, 3) := by
  decide

/-! ## One-hot encoding -/

/-- C12: for a symbol `c` the vocabulary maps to an index `i` below `V`,
`charToVector` returns the vector of length `V` with 1 at `i` and 0 at every
other place, and returns the object unchanged, vocabulary included; a second
call on the object returned gives the same vector. -/
theorem charToVector_is_one_hot (L : LSTM α H V) (c : Char) (i : Nat)
    (hc : L.m_vocabs.lookup c = some i) (hi : i < V) :
    ∃ v : Fin V → α, charToVector L c = some (v, L) ∧
      (∀ k : Fin V, v k = if (k : Nat) = i then 1 else 0) ∧
      v ⟨i, hi⟩ = 1 ∧ (∀ k : Fin V, (k : Nat) ≠ i → v k = 0) ∧
      ∀ r, charToVector L c = some r → charToVector r.2 c = some (v, L) := by
  have hidx : mapIndex L.m_vocabs c 0 = (i, L.m_vocabs) := by
    unfold mapIndex
    rw [hc]
  have hcall : charToVector L c
      = some (Function.update (0 : Fin V → α) ⟨i, hi⟩ 1, L) := by
    unfold charToVector
    simp only [hidx, dif_pos hi]
  have hval : ∀ k : Fin V,
      Function.update (0 : Fin V → α) ⟨i, hi⟩ 1 k = if (k : Nat) = i then 1 else 0 := by
    intro k
    by_cases hk : (k : Nat) = i
    · have : k = ⟨i, hi⟩ := Fin.ext hk
      rw [this, Function.update_same, if_pos rfl]
    · have : k ≠ ⟨i, hi⟩ := fun e => hk (by rw [e])
      rw [Function.update_noteq this, if_neg hk]
      rfl
  refine ⟨_, hcall, hval, ?_, ?_, ?_⟩
  · rw [hval, if_pos rfl]
  · intro k hk
    rw [hval, if_neg hk]
  · intro r hr
    rw [hcall] at hr
    rw [← Option.some.inj hr]
    exact hcall

/-- C12 at the sample object and the symbol `b`, whose index is 1. -/
theorem charToVector_is_one_hot_witness :
    (sampleLSTM ℝ).m_vocabs.lookup 'b' = some 1 ∧ 1 < 2 ∧
    charToVector (sampleLSTM ℝ) 'b' = some (![0, 1], sampleLSTM ℝ) := by
  have hc : (sampleLSTM ℝ).m_vocabs.lookup 'b' = some 1 := by
    simp only [sampleLSTM]
    decide
  obtain ⟨v, hv, hval, -⟩ := charToVector_is_one_hot (sampleLSTM ℝ) 'b' 1 hc (by decide)
  refine ⟨hc, by decide, ?_⟩
  rw [hv]
  congr 2
  ext k
  rw [hval]
  fin_cases k <;> simp
/-- C20: let `V ≥ 1`, let `c` be a character the vocabulary has no entry for
and `c0` the symbol of index 0.  `charToVector` returns for `c`: the vector
is the one-hot vector of index 0, the very vector it returns for `c0`, and
the object returned differs only in `m_vocabs`, which has the new entry
`(c, 0)` at its end.  In the new map `c` and `c0`, two different characters,
both have the index 0, and the map has one entry more, while the size `V` of
the vectors is what it was. -/
theorem charToVector_unknown_symbol_aliases_index_zero (L : LSTM α H V) (c c0 : Char)
    (hV : 0 < V) (hc : L.m_vocabs.lookup c = none) (hc0 : L.m_vocabs.lookup c0 = some 0) :
    ∃ v : Fin V → α,
      charToVector L c = some (v, { L with m_vocabs := L.m_vocabs ++ [(c, 0)] }) ∧
      (∀ k : Fin V, v k = if (k : Nat) = 0 then 1 else 0) ∧
      charToVector L c0 = some (v, L) ∧
      c ≠ c0 ∧
      (L.m_vocabs ++ [(c, 0)]).lookup c = some 0 ∧
      (L.m_vocabs ++ [(c, 0)]).lookup c0 = some 0 ∧
      (L.m_vocabs ++ [(c, 0)]).length = L.m_vocabs.length + 1 := by
  have hidx : mapIndex L.m_vocabs c 0 = (0, L.m_vocabs ++ [(c, 0)]) := by
    unfold mapIndex
    rw [hc]
  have hidx0 : mapIndex L.m_vocabs c0 0 = (0, L.m_vocabs) := by
    unfold mapIndex
    rw [hc0]
  have hval : ∀ k : Fin V,
      Function.update (0 : Fin V → α) ⟨0, hV⟩ 1 k = if (k : Nat) = 0 then 1 else 0 := by
    intro k
    by_cases hk : (k : Nat) = 0
    · have : k = ⟨0, hV⟩ := Fin.ext hk
      rw [this, Function.update_same, if_pos rfl]
    · have : k ≠ ⟨0, hV⟩ := fun e => hk (by rw [e])
      rw [Function.update_noteq this, if_neg hk]
      rfl
  refine ⟨Function.update (0 : Fin V → α) ⟨0, hV⟩ 1, ?_, hval, ?_, ?_, ?_, ?_, ?_⟩
  · unfold charToVector
    simp only [hidx, dif_pos hV]
  · unfold charToVector
    simp only [hidx0, dif_pos hV]
  · intro e
    rw [e, hc0] at hc
    exact absurd hc (by simp)
  · rw [List.lookup_append, hc]
    simp [List.lookup]
  · rw [List.lookup_append, hc0]
    rfl
  · simp

/-- C20 at the sample object: `z` is not in the vocabulary `a`, `b`. -/
theorem charToVector_unknown_symbol_aliases_index_zero_witness :
    0 < 2 ∧ (sampleLSTM ℝ).m_vocabs.lookup 'z' = none ∧
    (sampleLSTM ℝ).m_vocabs.lookup 'a' = some 0 ∧
    ∃ v : Fin 2 → ℝ,
      charToVector (sampleLSTM ℝ) 'z'
        = some (v, { sampleLSTM ℝ with m_vocabs := [('a', 0), ('b', 1), ('z', 0)] }) ∧
      charToVector (sampleLSTM ℝ) 'a' = some (v, sampleLSTM ℝ) :=
  have hz : (sampleLSTM ℝ).m_vocabs.lookup 'z' = none := by
    simp only [sampleLSTM]
    decide
  have ha : (sampleLSTM ℝ).m_vocabs.lookup 'a' = some 0 := by
    simp only [sampleLSTM]
    decide
  let ⟨v, h1, _, h3, _⟩ :=
    charToVector_unknown_symbol_aliases_index_zero (sampleLSTM ℝ) 'z' 'a' (by decide) hz ha
  ⟨by decide, hz, ha, v, h1, h3⟩

/-! ## The forward step -/

/-- C15: for every object `L` (previous cell state `L.m_state`, previous
hidden state `L.m_h_t`) and input `x`, `feedforward` leaves
candidate `= tanh (Wa x + Ra h_prev + ba)`, input, forget and output gate
`= sigmoid (W x + R h_prev + b)` with their own weights, all from the previous
hidden state, new cell `= candidate * input gate + forget gate * previous
cell`, new hidden `= tanh (new cell) * output gate`, logits
`= Wy (new hidden) + by`, output `= softmax (logits)`; the fourteen parameter
tensors, the learning rate and the vocabulary maps are as they were. -/
theorem feedforward_equations (exp tanh : α → α) (L : LSTM α H V) (x : Fin V → α) :
    (∀ k, (feedforward exp tanh L x).m_a_t k
      = tanh ((L.m_Wa.mulVec x + L.m_Ra.mulVec L.m_h_t + L.m_ba) k)) ∧
    (∀ k, (feedforward exp tanh L x).m_i_t k
      = sigmoid exp ((L.m_Wi.mulVec x + L.m_Ri.mulVec L.m_h_t + L.m_bi) k)) ∧
    (∀ k, (feedforward exp tanh L x).m_f_t k
      = sigmoid exp ((L.m_Wf.mulVec x + L.m_Rf.mulVec L.m_h_t + L.m_bf) k)) ∧
    (∀ k, (feedforward exp tanh L x).m_o_t k
      = sigmoid exp ((L.m_Wo.mulVec x + L.m_Ro.mulVec L.m_h_t + L.m_bo) k)) ∧
    (∀ k, (feedforward exp tanh L x).m_state k
      = (feedforward exp tanh L x).m_a_t k * (feedforward exp tanh L x).m_i_t k
        + (feedforward exp tanh L x).m_f_t k * L.m_state k) ∧
    (∀ k, (feedforward exp tanh L x).m_h_t k
      = tanh ((feedforward exp tanh L x).m_state k) * (feedforward exp tanh L x).m_o_t k) ∧
    (feedforward exp tanh L x).m_y_t
      = L.m_Wy.mulVec (feedforward exp tanh L x).m_h_t + L.m_by ∧
    (feedforward exp tanh L x).m_output = softmax exp (feedforward exp tanh L x).m_y_t ∧
    ((feedforward exp tanh L x).m_Wa = L.m_Wa ∧ (feedforward exp tanh L x).m_Wi = L.m_Wi ∧
      (feedforward exp tanh L x).m_Wf = L.m_Wf ∧ (feedforward exp tanh L x).m_Wo = L.m_Wo ∧
      (feedforward exp tanh L x).m_Ra = L.m_Ra ∧ (feedforward exp tanh L x).m_Ri = L.m_Ri ∧
      (feedforward exp tanh L x).m_Rf = L.m_Rf ∧ (feedforward exp tanh L x).m_Ro = L.m_Ro ∧
      (feedforward exp tanh L x).m_ba = L.m_ba ∧ (feedforward exp tanh L x).m_bi = L.m_bi ∧
      (feedforward exp tanh L x).m_bf = L.m_bf ∧ (feedforward exp tanh L x).m_bo = L.m_bo ∧
      (feedforward exp tanh L x).m_Wy = L.m_Wy ∧ (feedforward exp tanh L x).m_by = L.m_by) ∧
    (feedforward exp tanh L x).m_rate = L.m_rate ∧
    (feedforward exp tanh L x).m_vocabs = L.m_vocabs ∧
    (feedforward exp tanh L x).m_vocabs_indices = L.m_vocabs_indices :=
  ⟨fun _ => rfl, fun _ => rfl, fun _ => rfl, fun _ => rfl, fun _ => rfl, fun _ => rfl, rfl, rfl,
    ⟨rfl, rfl, rfl, rfl, rfl, rfl, rfl, rfl, rfl, rfl, rfl, rfl, rfl, rfl⟩, rfl, rfl, rfl⟩

/-- C15 at the sample object from the reset state on the one-hot input of
`a`, over the rationals with `1 + x + x² / 2` in place of `exp` and `x / 2` in
place of `tanh`: candidate and gates, cell and hidden state, logits and
output. -/
theorem feedforward_equations_witness :
    (feedforward (fun x : ℚ => 1 + x + x * x / 2) (fun x => x / 2)
      (reset (sampleLSTM ℚ)) ![1, 0]).m_a_t 0 = 1 / 2 ∧
    (feedforward (fun x : ℚ => 1 + x + x * x / 2) (fun x => x / 2)
      (reset (sampleLSTM ℚ)) ![1, 0]).m_i_t 0 = 1 / 2 ∧
    (feedforward (fun x : ℚ => 1 + x + x * x / 2) (fun x => x / 2)
      (reset (sampleLSTM ℚ)) ![1, 0]).m_f_t 0 = 2 / 3 ∧
    (feedforward (fun x : ℚ => 1 + x + x * x / 2) (fun x => x / 2)
      (reset (sampleLSTM ℚ)) ![1, 0]).m_o_t 0 = 1 / 2 ∧
    (feedforward (fun x : ℚ => 1 + x + x * x / 2) (fun x => x / 2)
      (reset (sampleLSTM ℚ)) ![1, 0]).m_state 0 = 1 / 4 ∧
    (feedforward (fun x : ℚ => 1 + x + x * x / 2) (fun x => x / 2)
      (reset (sampleLSTM ℚ)) ![1, 0]).m_h_t 0 = 1 / 16 ∧
    (feedforward (fun x : ℚ => 1 + x + x * x / 2) (fun x => x / 2)
      (reset (sampleLSTM ℚ)) ![1, 0]).m_y_t = ![1 / 16, 0] ∧
    (feedforward (fun x : ℚ => 1 + x + x * x / 2) (fun x => x / 2)
      (reset (sampleLSTM ℚ)) ![1, 0]).m_output = ![545 / 1057, 512 / 1057] := by
  obtain ⟨ha, hi, hf, ho, hs, hh, hy, hout, -⟩ :=
    feedforward_equations (fun x : ℚ => 1 + x + x * x / 2) (fun x => x / 2)
      (reset (sampleLSTM ℚ)) ![1, 0]
  generalize feedforward (fun x : ℚ => 1 + x + x * x / 2) (fun x => x / 2)
    (reset (sampleLSTM ℚ)) ![1, 0] = L' at *
  have ea := ha 0
  have ei := hi 0
  have ef := hf 0
  have eo := ho 0
  have es := hs 0
  have eh := hh 0
  simp only [reset, sampleLSTM, sigmoid, Matrix.mulVec, Matrix.dotProduct, Pi.add_apply,
    Fin.sum_univ_succ, Fin.sum_univ_zero, Finset.univ_unique] at ea ei ef eo
  norm_num at ea ei ef eo
  rw [ea, ei, ef] at es
  simp only [reset] at es
  norm_num at es
  rw [es, eo] at eh
  norm_num at eh
  have ey : L'.m_y_t = ![1 / 16, 0] := by
    rw [hy]
    ext k
    fin_cases k <;>
      simp [reset, sampleLSTM, Matrix.mulVec, Matrix.dotProduct, eh]
  refine ⟨ea, ei, ef, eo, es, eh, ey, ?_⟩
  rw [hout, ey]
  ext k
  fin_cases k <;> simp [softmax, Fin.sum_univ_succ] <;> norm_num

/-! ## Softmax under a shift of the logits -/

theorem softmax_add_const {n : Nat} (x : Fin n → ℝ) (c : ℝ) :
    softmax Real.exp (fun i => x i + c) = softmax Real.exp x := by
  funext i
  unfold softmax
  simp only [Real.exp_add]
  rw [← Finset.sum_mul]
  exact mul_div_mul_right _ _ (Real.exp_pos c).ne'

theorem foldl_max_ge (l : List α) (a : α) :
    a ≤ l.foldl max a ∧ ∀ b ∈ l, b ≤ l.foldl max a := by
  induction l generalizing a with
  | nil => simp
  | cons d l ih =>
    rw [List.foldl_cons]
    obtain ⟨h1, h2⟩ := ih (max a d)
    refine ⟨le_trans (le_max_left a d) h1, ?_⟩
    intro b hb
    rcases List.mem_cons.mp hb with rfl | hb
    · exact le_trans (le_max_right a b) h1
    · exact h2 b hb

theorem le_arrayMax {n : Nat} (x : Fin n → α) (h : 0 < n) (i : Fin n) : x i ≤ arrayMax x h :=
  (foldl_max_ge (List.ofFn x) (x ⟨0, h⟩)).2 (x i) ((List.mem_ofFn x (x i)).mpr ⟨i, rfl⟩)

/-- C19: over the reals `softmax` does not change when one constant is added
to every logit.  The stabilised variant, which subtracts the largest logit
(so that no shifted logit is above 0), therefore returns the distribution
`softmax` returns. -/
theorem softmax_shift_invariant :
    (∀ (n : Nat) (x : Fin n → ℝ) (c : ℝ),
      softmax Real.exp (fun i => x i + c) = softmax Real.exp x) ∧
    (∀ (n : Nat) (x : Fin n → ℝ), softmaxStabilised Real.exp x = softmax Real.exp x) ∧
    (∀ (n : Nat) (x : Fin n → ℝ) (h : 0 < n) (i : Fin n), x i - arrayMax x h ≤ 0) := by
  refine ⟨fun n x c => softmax_add_const x c, fun n x => ?_, fun n x h i => ?_⟩
  · unfold softmaxStabilised
    split_ifs with h
    · exact softmax_add_const x (-arrayMax x h)
    · rfl
  · exact sub_nonpos.mpr (le_arrayMax x h i)

/-! ## Bounds on the recurrent state -/

theorem abs_tanh_lt_one (x : ℝ) : |Real.tanh x| < 1 := by
  rw [Real.tanh_eq_sinh_div_cosh, abs_div, abs_of_pos (Real.cosh_pos x),
    div_lt_one (Real.cosh_pos x), abs_lt]
  constructor
  · have h := Real.sinh_lt_cosh (-x)
    rw [Real.sinh_neg, Real.cosh_neg] at h
    linarith
  · exact Real.sinh_lt_cosh x

theorem sigmoid_mem_unit (x : ℝ) : 0 < sigmoid Real.exp x ∧ sigmoid Real.exp x < 1 := by
  unfold sigmoid
  have hpos : 0 < Real.exp (-x) := Real.exp_pos _
  constructor
  · positivity
  · rw [div_lt_one (by linarith)]
    linarith

theorem feedforward_state_bound {H V : Nat} (L : LSTM ℝ H V) (x : Fin V → ℝ) (k : Fin H) :
    |(feedforward Real.exp Real.tanh L x).m_state k| < 1 + |L.m_state k| ∧
    |(feedforward Real.exp Real.tanh L x).m_h_t k| < 1 := by
  have ha : |(feedforward Real.exp Real.tanh L x).m_a_t k| < 1 := abs_tanh_lt_one _
  have hi : 0 < (feedforward Real.exp Real.tanh L x).m_i_t k ∧
      (feedforward Real.exp Real.tanh L x).m_i_t k < 1 := sigmoid_mem_unit _
  have hf : 0 < (feedforward Real.exp Real.tanh L x).m_f_t k ∧
      (feedforward Real.exp Real.tanh L x).m_f_t k < 1 := sigmoid_mem_unit _
  have ho : 0 < (feedforward Real.exp Real.tanh L x).m_o_t k ∧
      (feedforward Real.exp Real.tanh L x).m_o_t k < 1 := sigmoid_mem_unit _
  have hs : (feedforward Real.exp Real.tanh L x).m_state k
      = (feedforward Real.exp Real.tanh L x).m_a_t k * (feedforward Real.exp Real.tanh L x).m_i_t k
        + (feedforward Real.exp Real.tanh L x).m_f_t k * L.m_state k := rfl
  have hh : (feedforward Real.exp Real.tanh L x).m_h_t k
      = Real.tanh ((feedforward Real.exp Real.tanh L x).m_state k)
        * (feedforward Real.exp Real.tanh L x).m_o_t k := rfl
  constructor
  · rw [hs]
    have h1 : |(feedforward Real.exp Real.tanh L x).m_a_t k
        * (feedforward Real.exp Real.tanh L x).m_i_t k| < 1 := by
      rw [abs_mul, abs_of_pos hi.1]
      calc |(feedforward Real.exp Real.tanh L x).m_a_t k|
              * (feedforward Real.exp Real.tanh L x).m_i_t k
            ≤ |(feedforward Real.exp Real.tanh L x).m_a_t k| * 1 :=
              mul_le_mul_of_nonneg_left hi.2.le (abs_nonneg _)
        _ < 1 := by rw [mul_one]; exact ha
    have h2 : |(feedforward Real.exp Real.tanh L x).m_f_t k * L.m_state k| ≤ |L.m_state k| := by
      rw [abs_mul, abs_of_pos hf.1]
      calc (feedforward Real.exp Real.tanh L x).m_f_t k * |L.m_state k|
            ≤ 1 * |L.m_state k| := mul_le_mul_of_nonneg_right hf.2.le (abs_nonneg _)
        _ = |L.m_state k| := one_mul _
    calc |(feedforward Real.exp Real.tanh L x).m_a_t k
            * (feedforward Real.exp Real.tanh L x).m_i_t k
            + (feedforward Real.exp Real.tanh L x).m_f_t k * L.m_state k|
          ≤ |(feedforward Real.exp Real.tanh L x).m_a_t k
              * (feedforward Real.exp Real.tanh L x).m_i_t k|
            + |(feedforward Real.exp Real.tanh L x).m_f_t k * L.m_state k| := abs_add _ _
      _ < 1 + |L.m_state k| := add_lt_add_of_lt_of_le h1 h2
  · rw [hh, abs_mul, abs_of_pos ho.1]
    calc |Real.tanh ((feedforward Real.exp Real.tanh L x).m_state k)|
            * (feedforward Real.exp Real.tanh L x).m_o_t k
          ≤ |Real.tanh ((feedforward Real.exp Real.tanh L x).m_state k)| * 1 :=
            mul_le_mul_of_nonneg_left ho.2.le (abs_nonneg _)
      _ < 1 := by rw [mul_one]; exact abs_tanh_lt_one _

theorem foldl_feedforward_state_le {H V : Nat} (inputs : List (Fin V → ℝ)) (L : LSTM ℝ H V)
    (k : Fin H) :
    |(inputs.foldl (feedforward Real.exp Real.tanh) L).m_state k|
      ≤ |L.m_state k| + inputs.length := by
  induction inputs generalizing L with
  | nil => simp
  | cons x xs ih =>
    rw [List.foldl_cons, List.length_cons]
    have h1 := ih (feedforward Real.exp Real.tanh L x)
    have h2 := (feedforward_state_bound L x k).1
    push_cast
    linarith

theorem foldl_feedforward_hidden_lt {H V : Nat} (inputs : List (Fin V → ℝ)) (hn : inputs ≠ [])
    (L : LSTM ℝ H V) (k : Fin H) :
    |(inputs.foldl (feedforward Real.exp Real.tanh) L).m_h_t k| < 1 := by
  induction inputs generalizing L with
  | nil => exact absurd rfl hn
  | cons x xs ih =>
    rw [List.foldl_cons]
    by_cases hxs : xs = []
    · subst hxs
      exact (feedforward_state_bound L x k).2
    · exact ih hxs _

/-- C18: over the reals, feed `n ≥ 1` inputs through `feedforward`, one after
the other, starting from the reset object.  Then every entry of the hidden
state lies strictly between -1 and 1, and every entry of the cell state has
absolute value strictly below `n`.  In each single step the candidate lies
strictly between -1 and 1 and the three gates strictly between 0 and 1. -/
theorem recurrent_state_is_bounded {H V : Nat} (L : LSTM ℝ H V) (inputs : List (Fin V → ℝ))
    (hn : inputs ≠ []) :
    (∀ k, -1 < (inputs.foldl (feedforward Real.exp Real.tanh) (reset L)).m_h_t k ∧
      (inputs.foldl (feedforward Real.exp Real.tanh) (reset L)).m_h_t k < 1) ∧
    (∀ k, |(inputs.foldl (feedforward Real.exp Real.tanh) (reset L)).m_state k|
      < inputs.length) ∧
    (∀ (L0 : LSTM ℝ H V) (x : Fin V → ℝ) (k : Fin H),
      (-1 < (feedforward Real.exp Real.tanh L0 x).m_a_t k ∧
        (feedforward Real.exp Real.tanh L0 x).m_a_t k < 1) ∧
      (0 < (feedforward Real.exp Real.tanh L0 x).m_i_t k ∧
        (feedforward Real.exp Real.tanh L0 x).m_i_t k < 1) ∧
      (0 < (feedforward Real.exp Real.tanh L0 x).m_f_t k ∧
        (feedforward Real.exp Real.tanh L0 x).m_f_t k < 1) ∧
      (0 < (feedforward Real.exp Real.tanh L0 x).m_o_t k ∧
        (feedforward Real.exp Real.tanh L0 x).m_o_t k < 1)) := by
  refine ⟨fun k => abs_lt.mp (foldl_feedforward_hidden_lt inputs hn _ k), fun k => ?_,
    fun L0 x k => ⟨abs_lt.mp (abs_tanh_lt_one _), sigmoid_mem_unit _, sigmoid_mem_unit _,
      sigmoid_mem_unit _⟩⟩
  obtain ⟨x, xs, rfl⟩ := List.exists_cons_of_ne_nil hn
  rw [List.foldl_cons, List.length_cons]
  have h1 := foldl_feedforward_state_le xs (feedforward Real.exp Real.tanh (reset L) x) k
  have h2 := (feedforward_state_bound (reset L) x k).1
  have h3 : (reset L).m_state k = 0 := rfl
  rw [h3, abs_zero] at h2
  push_cast
  linarith

/-- C18 at the sample object for the two inputs `a`, `b`. -/
theorem recurrent_state_is_bounded_witness :
    [(![1, 0] : Fin 2 → ℝ), ![0, 1]] ≠ [] ∧
    (∀ k, |([(![1, 0] : Fin 2 → ℝ), ![0, 1]].foldl (feedforward Real.exp Real.tanh)
      (reset (sampleLSTM ℝ))).m_state k| < 2) ∧
    (∀ k, -1 < ([(![1, 0] : Fin 2 → ℝ), ![0, 1]].foldl (feedforward Real.exp Real.tanh)
      (reset (sampleLSTM ℝ))).m_h_t k ∧
      ([(![1, 0] : Fin 2 → ℝ), ![0, 1]].foldl (feedforward Real.exp Real.tanh)
      (reset (sampleLSTM ℝ))).m_h_t k < 1) := by
  have h := recurrent_state_is_bounded (sampleLSTM ℝ) [![1, 0], ![0, 1]] (by simp)
  refine ⟨by simp, fun k => ?_, h.1⟩
  have := h.2.1 k
  simpa using this

/-! ## Size of the update -/

theorem abs_clipValue_le (x : α) : |clipValue x| ≤ 10 :=
  abs_le.mpr (clipValue_bounds x)

theorem abs_update_le (x r g : α) : |(x - r * clipValue g) - x| ≤ 10 * |r| := by
  have e : (x - r * clipValue g) - x = -(r * clipValue g) := by ring
  rw [e, abs_neg, abs_mul, mul_comm]
  exact mul_le_mul_of_nonneg_right (abs_clipValue_le g) (abs_nonneg r)

theorem backUpdate_backClip_bound (L : LSTM α H V) (G : BackState α H V) :
    ForallParams₂ (fun x y => |y - x| ≤ 10 * |L.m_rate|) L (backUpdate L (backClip G)) := by
  unfold ForallParams₂ backUpdate backClip
  simp only [Matrix.sub_apply, Matrix.smul_apply, Pi.sub_apply, Pi.smul_apply, smul_eq_mul,
    clipGradients_apply, clipGradientsArray_apply]
  exact ⟨fun _ _ => abs_update_le _ _ _, fun _ _ => abs_update_le _ _ _,
    fun _ _ => abs_update_le _ _ _, fun _ _ => abs_update_le _ _ _,
    fun _ _ => abs_update_le _ _ _, fun _ _ => abs_update_le _ _ _,
    fun _ _ => abs_update_le _ _ _, fun _ _ => abs_update_le _ _ _,
    fun _ => abs_update_le _ _ _, fun _ => abs_update_le _ _ _,
    fun _ => abs_update_le _ _ _, fun _ => abs_update_le _ _ _,
    fun _ _ => abs_update_le _ _ _, fun _ => abs_update_le _ _ _⟩

/-- C16: whatever the cache, the lookback and the learning rate, an object
`L'` that `backpropogate` returns has every entry of each of its fourteen
parameter tensors within `10 * |m_rate|` of the entry `L` held; and for a
cache whose reads are in range the call does return an object. -/
theorem backpropogate_moves_entries_at_most_ten_rate (tanh : α → α) (L : LSTM α H V)
    (C : Cache α H V) (lookback : Int) :
    (∀ L', backpropogate tanh L C lookback = some L' →
      ForallParams₂ (fun x y => |y - x| ≤ 10 * |L.m_rate|) L L') ∧
    (C.Readable L.m_vocabs → ∃ L', backpropogate tanh L C lookback = some L') := by
  constructor
  · intro L' h
    unfold backpropogate at h
    cases hG : backGradients tanh L C lookback with
    | none =>
      rw [hG] at h
      exact absurd h (by simp)
    | some G =>
      rw [hG] at h
      rw [← Option.some.inj h]
      exact backUpdate_backClip_bound L G
  · intro hR
    obtain ⟨G, hG⟩ := backGradients_some tanh L C hR lookback
    exact ⟨backUpdate L (backClip G), by unfold backpropogate; rw [hG]; rfl⟩

/-- C16 at the sample object and the sample cache of two timesteps: the call
returns an object, and its entry `Wa (0, 1)` is within `10 * |1|` of the
entry before. -/
theorem backpropogate_moves_entries_at_most_ten_rate_witness :
    ∃ L', backpropogate Real.tanh (sampleLSTM ℝ) (sampleCache ℝ) 2 = some L' ∧
      |L'.m_Wa 0 1 - (sampleLSTM ℝ).m_Wa 0 1| ≤ 10 * |(sampleLSTM ℝ).m_rate| :=
  let h := backpropogate_moves_entries_at_most_ten_rate Real.tanh (sampleLSTM ℝ)
    (sampleCache ℝ) 2
  let ⟨L', hL'⟩ := h.2 sampleCache_wellFormed.readable
  ⟨L', hL', (h.1 L' hL').1 0 1⟩
theorem backLoop_of_le_window {σ : Type} (body : Nat → σ → Option σ) (w : Int) (k : Nat)
    (h : (k : Int) ≤ w) (s : σ) : backLoop body w k s = some s := by
  cases k with
  | zero => rfl
  | succ k =>
    rw [backLoop, if_neg]
    push_cast at h
    omega

theorem backUpdate_backInit (L : LSTM α H V) : backUpdate L (backClip (backInit L)) = L := by
  cases L
  simp only [backUpdate, backClip, backInit, clipGradients_zero, clipGradientsArray_zero,
    smul_zero, sub_zero]

/-- C17 does not hold for every negative lookback.  With `lookback = -2^31`,
the least value of an `int`, and the sample cache of two timesteps, the
expression `timesteps - lookback` is `2 + 2^31`, above `2^31 - 1`: the `int`
holds `-2^31 + 2`, the window is 0, the loop runs its body at `t = 1` and at
`t = 0`, and the returned object has the candidate bias `19/128` instead of
the `0` it was. -/
theorem backpropogate_negative_lookback_overflows :
    (-2147483648 : Int) ≤ 0 ∧
    windowDiff (sampleCache ℝ).input_cache.length (-2147483648) = -2147483646 ∧
    backWindow (sampleCache ℝ).input_cache.length (-2147483648) = 0 ∧
    backLoop (fun t (tr : List Nat) => some (tr ++ [t]))
        (backWindow (sampleCache ℝ).input_cache.length (-2147483648))
        (sampleCache ℝ).input_cache.length [] = some [1, 0] ∧
    ∃ L', backpropogate Real.tanh (sampleLSTM ℝ) (sampleCache ℝ) (-2147483648) = some L' ∧
      L'.m_ba = ![19 / 128] ∧ L'.m_ba ≠ (sampleLSTM ℝ).m_ba := by
  have hlen : (sampleCache ℝ).input_cache.length = 2 := rfl
  have hd : windowDiff ((2 : Nat) : Int) (-2147483648) = -2147483646 := by decide
  have hw : backWindow ((2 : Nat) : Int) (-2147483648) = 0 := by decide
  refine ⟨by decide, by rw [hlen]; exact hd, by rw [hlen]; exact hw, ?_, ?_⟩
  · rw [hlen, hw]
    rfl
  · obtain ⟨s1, hs1, hrel1⟩ := backStep_rel Real.tanh (sampleLSTM ℝ) (sampleCache ℝ) 1
      (backInit (sampleLSTM ℝ)) (by decide) sampleCache_wellFormed.readable (fun _ => rfl)
    obtain ⟨s1', hs1', hv1⟩ := backLoop_some Real.tanh (sampleLSTM ℝ) (sampleCache ℝ)
      sampleCache_wellFormed.readable 1 2 (by decide) (backInit (sampleLSTM ℝ)) (fun _ => rfl)
    have e1 : s1' = s1 := by
      rw [backLoop, if_pos (by decide), hs1, Option.some_bind, backLoop,
        if_neg (by decide)] at hs1'
      exact (Option.some.inj hs1').symm
    subst e1
    obtain ⟨s0, hs0, hrel0⟩ := backStep_rel Real.tanh (sampleLSTM ℝ) (sampleCache ℝ) 0
      s1' (by decide) sampleCache_wellFormed.readable hv1
    have hG : backGradients Real.tanh (sampleLSTM ℝ) (sampleCache ℝ) (-2147483648)
        = some s0 := by
      show backLoop _ (backWindow ((2 : Nat) : Int) (-2147483648)) 2 _ = some s0
      rw [hw, backLoop, if_pos (by decide), hs1, Option.some_bind, backLoop,
        if_pos (by decide), hs0]
      rfl
    have hidx1 : (mapIndex (backInit (sampleLSTM ℝ)).m_vocabs
        ((sampleCache ℝ).label_cache.getD 1 (Char.ofNat 0)) 0).1 = 0 := by
      simp only [backInit, sampleLSTM, sampleCache]
      decide
    have hidx0 : (mapIndex s1'.m_vocabs
        ((sampleCache ℝ).label_cache.getD 0 (Char.ofNat 0)) 0).1 = 1 := by
      rw [hv1]
      simp only [sampleLSTM, sampleCache]
      decide
    have hWyT : ∀ v : Fin 2 → ℝ, (sampleLSTM ℝ).m_Wy.transpose.mulVec v = ![v 0] := by
      intro v
      ext k
      fin_cases k
      simp [sampleLSTM, Matrix.mulVec, Matrix.dotProduct, Fin.sum_univ_two]
    have hone : ∀ (M : Matrix (Fin 1) (Fin 1) ℝ) (v : Fin 1 → ℝ),
        M.transpose.mulVec v = ![M 0 0 * v 0] := by
      intro M v
      ext k
      fin_cases k
      simp [Matrix.mulVec, Matrix.dotProduct]
    have hone' : ∀ (M : Matrix (Fin 1) (Fin 1) ℝ) (v : Fin 1 → ℝ),
        M.mulVec v = ![M 0 0 * v 0] := by
      intro M v
      ext k
      fin_cases k
      simp [Matrix.mulVec, Matrix.dotProduct]
    -- iteration t = 1
    have hy1 : s1'.d_y_t = ![-1 / 2, 1 / 2] := by
      ext k
      rw [hrel1.d_y_t, hidx1]
      fin_cases k
      · simp [sampleCache]
        norm_num
      · simp [sampleCache]
    have hh1 : s1'.d_h_t = ![-1 / 2] := by
      rw [hrel1.d_h_t, hy1, hWyT]
      ext k
      fin_cases k
      simp [backInit]
    have hst1 : s1'.d_state_t = ![-1 / 4] := by
      rw [hrel1.d_state_t, if_neg (by decide), hh1]
      ext k
      fin_cases k
      simp [sampleCache, arrayTanh, arraySquare]
      norm_num
    have ha1 : s1'.d_a_t = ![-1 / 8] := by
      rw [hrel1.d_a_t, hst1]
      ext k
      fin_cases k
      simp [sampleCache, arraySquare]
      norm_num
    have hi1 : s1'.d_i_t = ![0] := by
      rw [hrel1.d_i_t, hst1]
      ext k
      fin_cases k
      simp [sampleCache]
    have hf1 : s1'.d_f_t = ![0] := by
      rw [hrel1.d_f_t, if_neg (by decide), hst1]
      ext k
      fin_cases k
      simp [sampleCache]
    have ho1 : s1'.d_o_t = ![0] := by
      rw [hrel1.d_o_t, hh1]
      ext k
      fin_cases k
      simp [sampleCache, arrayTanh]
    have hdl1 : s1'.d_delta_t = ![-1 / 8] := by
      rw [hrel1.d_delta_t, ha1, hi1, hf1, ho1, hone, hone, hone, hone']
      ext k
      fin_cases k
      simp [sampleLSTM]
    have hba1 : s1'.d_ba = ![-1 / 8] := by
      rw [hrel1.d_ba, ha1]
      ext k
      fin_cases k
      simp [backInit]
    -- iteration t = 0
    have hy0 : s0.d_y_t = ![1 / 2, -1 / 2] := by
      ext k
      rw [hrel0.d_y_t, hidx0]
      fin_cases k
      · simp [sampleCache]
      · simp [sampleCache]
        norm_num
    have hh0 : s0.d_h_t = ![3 / 8] := by
      rw [hrel0.d_h_t, hy0, hWyT, hdl1]
      ext k
      fin_cases k
      simp
      norm_num
    have hst0 : s0.d_state_t = ![-1 / 16] := by
      rw [hrel0.d_state_t, if_pos (by decide), hh0, hst1]
      ext k
      fin_cases k
      simp [sampleCache, arrayTanh, arraySquare]
      norm_num
    have ha0 : s0.d_a_t = ![-3 / 128] := by
      rw [hrel0.d_a_t, hst0]
      ext k
      fin_cases k
      simp [sampleCache, arraySquare]
      norm_num
    have hba0 : s0.d_ba = ![-19 / 128] := by
      rw [hrel0.d_ba, hba1, ha0]
      ext k
      fin_cases k
      simp
      norm_num
    have hba : (backUpdate (sampleLSTM ℝ) (backClip s0)).m_ba = ![19 / 128] := by
      ext k
      show (sampleLSTM ℝ).m_ba k - ((sampleLSTM ℝ).m_rate • clipGradientsArray s0.d_ba) k = _
      rw [Pi.smul_apply, clipGradientsArray_apply, hba0]
      fin_cases k
      simp only [sampleLSTM, clipValue]
      norm_num
    refine ⟨backUpdate (sampleLSTM ℝ) (backClip s0), ?_, hba, ?_⟩
    · unfold backpropogate
      rw [hG]
      rfl
    · rw [hba]
      intro h
      have := congrFun h 0
      simp [sampleLSTM] at this

/-- C17 as amended: when the lookback is 0, or negative with
`timesteps - lookback` at most `2^31 - 1` so that the `int` subtraction does
not overflow, or when `input_cache` is empty, the time loop of `backpropogate`
runs its body at no timestep, the accumulated gradients are the zero ones it
starts with, and the call returns the object it was given: each of the
fourteen parameter tensors, and everything else, is exactly as before,
whatever the cache holds and whatever the learning rate. -/
theorem backpropogate_without_timestep_when_window_fits (tanh : α → α) (L : LSTM α H V)
    (C : Cache α H V) (lookback : Int)
    (h : (lookback ≤ 0 ∧ (C.input_cache.length : Int) - lookback ≤ 2 ^ 31 - 1)
      ∨ C.input_cache = []) :
    backLoop (fun t (tr : List Nat) => some (tr ++ [t]))
        (backWindow C.input_cache.length lookback) C.input_cache.length []
      = some [] ∧
    backGradients tanh L C lookback = some (backInit L) ∧
    backpropogate tanh L C lookback = some L := by
  have hw : (C.input_cache.length : Int) ≤ backWindow C.input_cache.length lookback := by
    rcases h with ⟨hl, hfit⟩ | h
    · unfold backWindow
      rw [windowDiff_of_fits _ _ (Int.natCast_nonneg _) hfit, if_pos (by omega)]
      omega
    · have hlen : C.input_cache.length = 0 := by rw [h]; rfl
      rw [hlen]
      exact backWindow_nonneg 0 lookback
  have hG : backGradients tanh L C lookback = some (backInit L) :=
    backLoop_of_le_window _ _ _ hw _
  refine ⟨backLoop_of_le_window _ _ _ hw _, hG, ?_⟩
  unfold backpropogate
  rw [hG, Option.map_some', backUpdate_backInit]

/-- The amended C17 at the sample object and the sample cache of two
timesteps, with a lookback of `-5`. -/
theorem backpropogate_without_timestep_when_window_fits_witness :
    (((-5 : Int) ≤ 0 ∧ ((sampleCache ℝ).input_cache.length : Int) - (-5) ≤ 2 ^ 31 - 1)
      ∨ (sampleCache ℝ).input_cache = []) ∧
    backpropogate Real.tanh (sampleLSTM ℝ) (sampleCache ℝ) (-5) = some (sampleLSTM ℝ) :=
  have hfit : ((-5 : Int) ≤ 0 ∧ ((sampleCache ℝ).input_cache.length : Int) - (-5) ≤ 2 ^ 31 - 1)
      ∨ (sampleCache ℝ).input_cache = [] :=
    Or.inl ⟨by decide, by decide⟩
  ⟨hfit, (backpropogate_without_timestep_when_window_fits Real.tanh (sampleLSTM ℝ)
    (sampleCache ℝ) (-5) hfit).2.2⟩

/-! ## Determinism of generation -/

omit [LinearOrderedField α] in
theorem sameModel_refl (L : LSTM α H V) : SameModel L L :=
  ⟨rfl, rfl, rfl, rfl, rfl, rfl, rfl, rfl, rfl, rfl, rfl, rfl, rfl, rfl, rfl, rfl⟩

theorem sameModel_reset {L1 L2 : LSTM α H V} (h : SameModel L1 L2) :
    SameRun (reset L1) (reset L2) :=
  ⟨⟨h.m_vocabs, h.m_vocabs_indices, h.m_Wa, h.m_Wi, h.m_Wf, h.m_Wo, h.m_Ra, h.m_Ri, h.m_Rf,
    h.m_Ro, h.m_ba, h.m_bi, h.m_bf, h.m_bo, h.m_Wy, h.m_by⟩, rfl, rfl, rfl⟩

theorem sameRun_feedforward (exp tanh : α → α) {L1 L2 : LSTM α H V} (h : SameRun L1 L2)
    (x : Fin V → α) : SameRun (feedforward exp tanh L1 x) (feedforward exp tanh L2 x) := by
  obtain ⟨⟨hv, hvi, hWa, hWi, hWf, hWo, hRa, hRi, hRf, hRo, hba, hbi, hbf, hbo, hWy, hby⟩,
    hs, hh, -⟩ := h
  refine ⟨⟨hv, hvi, hWa, hWi, hWf, hWo, hRa, hRi, hRf, hRo, hba, hbi, hbf, hbo, hWy, hby⟩,
    ?_, ?_, ?_⟩ <;>
  simp only [feedforward, hWa, hWi, hWf, hWo, hRa, hRi, hRf, hRo, hba, hbi, hbf, hbo, hWy,
    hby, hs, hh]

theorem sameRun_charToVector {L1 L2 : LSTM α H V} (h : SameRun L1 L2) (c : Char) :
    Option.Rel (fun r1 r2 => r1.1 = r2.1 ∧ SameRun r1.2 r2.2)
      (charToVector L1 c) (charToVector L2 c) := by
  obtain ⟨⟨hv, hvi, hWa, hWi, hWf, hWo, hRa, hRi, hRf, hRo, hba, hbi, hbf, hbo, hWy, hby⟩,
    hs, hh, ho⟩ := h
  unfold charToVector
  simp only [hv]
  split_ifs with hlt
  · exact Option.Rel.some ⟨rfl,
      ⟨rfl, hvi, hWa, hWi, hWf, hWo, hRa, hRi, hRf, hRo, hba, hbi, hbf, hbo, hWy, hby⟩,
      hs, hh, ho⟩
  · exact Option.Rel.none

theorem sameRun_feedSeed (exp tanh : α → α) (seed : List Char) {L1 L2 : LSTM α H V}
    (h : SameRun L1 L2) :
    Option.Rel SameRun (feedSeed exp tanh seed L1) (feedSeed exp tanh seed L2) := by
  induction seed generalizing L1 L2 with
  | nil => exact Option.Rel.some h
  | cons c rest ih =>
    rw [feedSeed, feedSeed]
    have hrel := sameRun_charToVector h c
    generalize charToVector L1 c = o1 at hrel ⊢
    generalize charToVector L2 c = o2 at hrel ⊢
    cases hrel with
    | none => exact Option.Rel.none
    | some hr =>
      obtain ⟨h1, h2⟩ := hr
      simp only [Option.some_bind, h1]
      exact ih (sameRun_feedforward exp tanh h2 _)

theorem sameRun_vectorToChar {L1 L2 : LSTM α H V} (h : SameRun L1 L2) :
    Option.Rel (fun r1 r2 => r1.1 = r2.1 ∧ SameModel r1.2 r2.2)
      (vectorToChar L1 L1.m_output) (vectorToChar L2 L2.m_output) := by
  obtain ⟨⟨hv, hvi, hWa, hWi, hWf, hWo, hRa, hRi, hRf, hRo, hba, hbi, hbf, hbo, hWy, hby⟩,
    hs, hh, ho⟩ := h
  unfold vectorToChar
  rw [ho, hvi]
  cases maxIndex L2.m_output with
  | none => exact Option.Rel.none
  | some i =>
    exact Option.Rel.some ⟨rfl,
      ⟨hv, rfl, hWa, hWi, hWf, hWo, hRa, hRi, hRf, hRo, hba, hbi, hbf, hbo, hWy, hby⟩⟩

theorem sameModel_outputStep (exp tanh : α → α) (st1 st2 : OutputState α H V)
    (hL : SameModel st1.lstm st2.lstm) (hseed : st1.seed = st2.seed)
    (hout : st1.output = st2.output) :
    Option.Rel
      (fun s1 s2 => SameModel s1.lstm s2.lstm ∧ s1.seed = s2.seed ∧ s1.output = s2.output)
      (outputStep exp tanh st1) (outputStep exp tanh st2) := by
  unfold outputStep
  simp only [Option.bind_eq_bind, Option.pure_def, ← hseed, ← hout]
  have hfeed := sameRun_feedSeed exp tanh st1.seed (sameModel_reset hL)
  generalize feedSeed exp tanh st1.seed (reset st1.lstm) = o1 at hfeed ⊢
  generalize feedSeed exp tanh st1.seed (reset st2.lstm) = o2 at hfeed ⊢
  cases hfeed with
  | none => exact Option.Rel.none
  | @some Lf1 Lf2 hLf =>
    simp only [Option.some_bind]
    have hvec := sameRun_vectorToChar hLf
    generalize vectorToChar Lf1 Lf1.m_output = p1 at hvec ⊢
    generalize vectorToChar Lf2 Lf2.m_output = p2 at hvec ⊢
    cases hvec with
    | none => exact Option.Rel.none
    | @some r1 r2 hr =>
      obtain ⟨hc, hm⟩ := hr
      simp only [Option.some_bind, hc]
      cases substr st1.seed 1 (st1.seed.length - 1) with
      | none => exact Option.Rel.none
      | some rest => exact Option.Rel.some ⟨hm, rfl, rfl⟩

theorem sameModel_outputLoop (exp tanh : α → α) (n : Nat) (st1 st2 : OutputState α H V)
    (hL : SameModel st1.lstm st2.lstm) (hseed : st1.seed = st2.seed)
    (hout : st1.output = st2.output) :
    Option.Rel
      (fun s1 s2 => SameModel s1.lstm s2.lstm ∧ s1.seed = s2.seed ∧ s1.output = s2.output)
      (outputLoop exp tanh n st1) (outputLoop exp tanh n st2) := by
  induction n generalizing st1 st2 with
  | zero => exact Option.Rel.some ⟨hL, hseed, hout⟩
  | succ n ih =>
    rw [outputLoop, outputLoop]
    have hstep := sameModel_outputStep exp tanh st1 st2 hL hseed hout
    generalize outputStep exp tanh st1 = o1 at hstep ⊢
    generalize outputStep exp tanh st2 = o2 at hstep ⊢
    cases hstep with
    | none => exact Option.Rel.none
    | some hs => exact ih _ _ hs.1 hs.2.1 hs.2.2

/-- C13: two runs of the generation loop of `output`, started on objects that
hold the same fourteen parameter tensors and the same vocabulary maps, with
the same seed and the same number of iterations, either both fail or both
return, and then with the same text.  Whatever else the two objects hold
(recurrent state, working vectors, learning rate) has no influence.  The
same holds for `output` with its built-in seed. -/
theorem output_is_deterministic (exp tanh : α → α) (L1 L2 : LSTM α H V)
    (h : SameModel L1 L2) (seed : List Char) (iterations : Nat) :
    (outputFrom exp tanh L1 seed iterations).map Prod.fst
      = (outputFrom exp tanh L2 seed iterations).map Prod.fst ∧
    (output exp tanh L1 iterations).map Prod.fst
      = (output exp tanh L2 iterations).map Prod.fst := by
  have key : ∀ seed : List Char,
      (outputFrom exp tanh L1 seed iterations).map Prod.fst
        = (outputFrom exp tanh L2 seed iterations).map Prod.fst := by
    intro seed
    unfold outputFrom
    have hloop := sameModel_outputLoop exp tanh iterations
      { lstm := L1, seed := seed, output := seed }
      { lstm := L2, seed := seed, output := seed } h rfl rfl
    generalize outputLoop exp tanh iterations { lstm := L1, seed := seed, output := seed }
      = o1 at hloop ⊢
    generalize outputLoop exp tanh iterations { lstm := L2, seed := seed, output := seed }
      = o2 at hloop ⊢
    cases hloop with
    | none => rfl
    | some hs => simp only [Option.map_some', hs.2.2]
  exact ⟨key seed, key _⟩

/-- C13 at the sample object and a copy of it with another learning rate,
another cell state and another output vector. -/
theorem output_is_deterministic_witness :
    SameModel (sampleLSTM ℝ)
      { sampleLSTM ℝ with m_rate := 3, m_state := ![5], m_output := ![1, 7] } ∧
    (output Real.exp Real.tanh (sampleLSTM ℝ) 4).map Prod.fst
      = (output Real.exp Real.tanh
          { sampleLSTM ℝ with m_rate := 3, m_state := ![5], m_output := ![1, 7] } 4).map
            Prod.fst :=
  have hsame : SameModel (sampleLSTM ℝ)
      { sampleLSTM ℝ with m_rate := 3, m_state := ![5], m_output := ![1, 7] } :=
    ⟨rfl, rfl, rfl, rfl, rfl, rfl, rfl, rfl, rfl, rfl, rfl, rfl, rfl, rfl, rfl, rfl⟩
  ⟨hsame, (output_is_deterministic Real.exp Real.tanh _ _ hsame [] 4).2⟩

/-! ## The hidden-state gradient carried backwards -/

theorem sampleCache2_wellFormed : (sampleCache2 α).WellFormed (sampleLSTM2 α).m_vocabs := by
  refine ⟨⟨rfl, rfl, rfl, rfl, rfl, rfl, rfl, rfl⟩, ?_⟩
  intro c hc
  simp only [sampleCache2, List.mem_cons, List.mem_singleton, List.not_mem_nil, or_false] at hc
  rcases hc with rfl | rfl <;> simp only [sampleLSTM2] <;> decide

theorem tanh_one_ne_zero : Real.tanh 1 ≠ 0 := by
  rw [Real.tanh_eq_sinh_div_cosh]
  exact div_ne_zero (Real.sinh_pos_iff.mpr one_pos).ne' (Real.cosh_pos 1).ne'

/-- What the body of the time loop leaves in `d_delta_t`: the recurrent
matrices of the candidate, the input gate and the forget gate are transposed,
the one of the output gate is not. -/
theorem backStep_d_delta_t (tanh : α → α) (L : LSTM α H V) (C : Cache α H V) (t : Nat)
    (s : BackState α H V) (ht : t < C.input_cache.length) (hR : C.Readable L.m_vocabs)
    (hv : ∀ c, (mapIndex s.m_vocabs c 0).1 = (mapIndex L.m_vocabs c 0).1) :
    ∃ s', backStep tanh L C t s = some s' ∧
      s'.d_delta_t = L.m_Ra.transpose.mulVec s'.d_a_t + L.m_Ri.transpose.mulVec s'.d_i_t
        + L.m_Rf.transpose.mulVec s'.d_f_t + L.m_Ro.mulVec s'.d_o_t := by
  obtain ⟨s', hs', hrel⟩ := backStep_rel tanh L C t s ht hR hv
  exact ⟨s', hs', hrel.d_delta_t⟩

/-- C14 does not hold of the code.  On `sampleLSTM2` and `sampleCache2`, when
iteration `t = 1` of the time loop has run, the output-gate delta is
`(-tanh 1 / 8, 0)`, the hidden-state gradient `d_delta_t` carried to `t = 0`
is `(0, 0)`, and the sum of the four transposed recurrent matrices times
their deltas, which the claim describes, is `(0, -tanh 1 / 8)`, which is not
`(0, 0)`. -/
theorem carried_hidden_gradient_has_Ro_untransposed :
    ∃ s1 : BackState ℝ 2 2,
      backLoop (backStep Real.tanh (sampleLSTM2 ℝ) (sampleCache2 ℝ)) 1 2
        (backInit (sampleLSTM2 ℝ)) = some s1 ∧
      s1.d_o_t = ![-Real.tanh 1 / 8, 0] ∧
      s1.d_delta_t = ![0, 0] ∧
      (sampleLSTM2 ℝ).m_Ra.transpose.mulVec s1.d_a_t
          + (sampleLSTM2 ℝ).m_Ri.transpose.mulVec s1.d_i_t
          + (sampleLSTM2 ℝ).m_Rf.transpose.mulVec s1.d_f_t
          + (sampleLSTM2 ℝ).m_Ro.transpose.mulVec s1.d_o_t
        = ![0, -Real.tanh 1 / 8] ∧
      s1.d_delta_t ≠
        (sampleLSTM2 ℝ).m_Ra.transpose.mulVec s1.d_a_t
          + (sampleLSTM2 ℝ).m_Ri.transpose.mulVec s1.d_i_t
          + (sampleLSTM2 ℝ).m_Rf.transpose.mulVec s1.d_f_t
          + (sampleLSTM2 ℝ).m_Ro.transpose.mulVec s1.d_o_t := by
  obtain ⟨s1, hs1, hrel⟩ := backStep_rel Real.tanh (sampleLSTM2 ℝ) (sampleCache2 ℝ) 1
    (backInit (sampleLSTM2 ℝ)) (by decide) sampleCache2_wellFormed.readable (fun _ => rfl)
  have hloop : backLoop (backStep Real.tanh (sampleLSTM2 ℝ) (sampleCache2 ℝ)) 1 2
      (backInit (sampleLSTM2 ℝ)) = some s1 := by
    rw [backLoop, if_pos (by decide), hs1, Option.some_bind, backLoop, if_neg (by decide)]
  have hidx : (mapIndex (backInit (sampleLSTM2 ℝ)).m_vocabs
      ((sampleCache2 ℝ).label_cache.getD 1 (Char.ofNat 0)) 0).1 = 0 := by
    simp only [backInit, sampleLSTM2, sampleCache2]
    decide
  have hy : s1.d_y_t = ![-1 / 2, 1 / 2] := by
    ext k
    rw [hrel.d_y_t, hidx]
    fin_cases k <;> simp [sampleCache2] <;> norm_num
  have hRo : ∀ v : Fin 2 → ℝ, (sampleLSTM2 ℝ).m_Ro.mulVec v = ![v 1, 0] := by
    intro v
    ext k
    fin_cases k <;>
      simp [sampleLSTM2, Matrix.mulVec, Matrix.dotProduct, Fin.sum_univ_two]
  have hRoT : ∀ v : Fin 2 → ℝ, (sampleLSTM2 ℝ).m_Ro.transpose.mulVec v = ![0, v 0] := by
    intro v
    ext k
    fin_cases k <;>
      simp [sampleLSTM2, Matrix.mulVec, Matrix.dotProduct, Fin.sum_univ_two]
  have hWyT : ∀ v : Fin 2 → ℝ, (sampleLSTM2 ℝ).m_Wy.transpose.mulVec v = ![v 0, 0] := by
    intro v
    ext k
    fin_cases k <;>
      simp [sampleLSTM2, Matrix.mulVec, Matrix.dotProduct, Fin.sum_univ_two]
  have hzero : ∀ v : Fin 2 → ℝ, (0 : Matrix (Fin 2) (Fin 2) ℝ).transpose.mulVec v = 0 := by
    intro v
    simp
  have hh : s1.d_h_t = ![-1 / 2, 0] := by
    rw [hrel.d_h_t, hy, hWyT]
    ext k
    fin_cases k <;> simp [backInit]
  have ho : s1.d_o_t = ![-Real.tanh 1 / 8, 0] := by
    rw [hrel.d_o_t, hh]
    ext k
    fin_cases k
    · simp only [sampleCache2, arrayTanh, List.getD_cons_succ, List.getD_cons_zero,
        Pi.mul_apply, Pi.sub_apply, Pi.one_apply, Fin.zero_eta, Matrix.cons_val_zero]
      ring
    · simp [sampleCache2, arrayTanh]
  have hd : s1.d_delta_t = ![0, 0] := by
    rw [hrel.d_delta_t, ho, hRo]
    have e : (sampleLSTM2 ℝ).m_Ra = 0 ∧ (sampleLSTM2 ℝ).m_Ri = 0 ∧ (sampleLSTM2 ℝ).m_Rf = 0 :=
      ⟨rfl, rfl, rfl⟩
    rw [e.1, e.2.1, e.2.2, hzero, hzero, hzero]
    ext k
    fin_cases k <;> simp
  have hc : (sampleLSTM2 ℝ).m_Ra.transpose.mulVec s1.d_a_t
      + (sampleLSTM2 ℝ).m_Ri.transpose.mulVec s1.d_i_t
      + (sampleLSTM2 ℝ).m_Rf.transpose.mulVec s1.d_f_t
      + (sampleLSTM2 ℝ).m_Ro.transpose.mulVec s1.d_o_t = ![0, -Real.tanh 1 / 8] := by
    have e : (sampleLSTM2 ℝ).m_Ra = 0 ∧ (sampleLSTM2 ℝ).m_Ri = 0 ∧ (sampleLSTM2 ℝ).m_Rf = 0 :=
      ⟨rfl, rfl, rfl⟩
    rw [e.1, e.2.1, e.2.2, hzero, hzero, hzero, hRoT, ho]
    ext k
    fin_cases k <;> simp
  refine ⟨s1, hloop, ho, hd, hc, ?_⟩
  rw [hd, hc]
  intro h
  have h1 := congrFun h 1
  simp only [Matrix.cons_val_one, Matrix.head_cons] at h1
  have : Real.tanh 1 = 0 := by linarith
  exact tanh_one_ne_zero this

end LSTM
